import Mathlib

/-!
Verification of the HK MPF G-code toolkit (parser, part indexer, extraction
and rewrite engine, common-neighbor detection).

The Python sources are shallowly embedded here:
* `HKG` models `parser/hk_gcode_parser.py`;
* `Srv` models `server/app/parser.py`;
* `Ext` models `server/app/extract.py`;
* `Web` models the relevant helpers of `server/app/main.py`.

Modelling conventions:
* a Python `str` is a `List Char` (`Str`);
* Python floats are exact rationals (`ℚ`); decimal literals are parsed
  exactly, and `f"{v:.Nf}"` formatting is modelled as exact decimal rounding
  (round-half-up; the sources never compare values closer than the
  representable noise, and the integer-snapping tolerance 1e-4 dominates
  every tie, so the tie-breaking direction is irrelevant to all statements
  proved below);
* a Python `dict` is an insertion-ordered association list
  (`dictInsert` / `dictLookup`), which overwrites on duplicate keys the way
  `dict` assignment does;
* `float(text)` (`parseFloat`) yields a `PyFloat`: finite values exactly, and
  the special values `inf`/`-inf`/`nan` (so `int(float(...))` can overflow);
* exceptions in the extraction engine are `Except.error` over `PyErr`, which
  distinguishes the user-facing `ValueError`s from the crash kinds that
  escape the sources' `except ValueError` handlers (`OverflowError` from
  `int(inf)`, `re.error`/`IndexError` from `re.sub` replacement templates).
-/

set_option autoImplicit false

namespace GC

abbrev Str := List Char

/-- Python `str.isspace` on the characters the sources can meet. -/
def pySpace (c : Char) : Bool :=
  c = ' ' || c = '\t' || c = '\n' || c = '\r' || c = '\x0c' || c = '\x0b'

/-- Python `str.lstrip()`. -/
def lstrip (s : Str) : Str := s.dropWhile pySpace

/-- Python `str.rstrip()`. -/
def rstrip (s : Str) : Str := (s.reverse.dropWhile pySpace).reverse

/-- Python `str.strip()`. -/
def strip (s : Str) : Str := rstrip (lstrip s)

/-- Python `str.upper()` (ASCII). -/
def upper (s : Str) : Str := s.map Char.toUpper

/-- Does `hay` start with `needle`? -/
def startsWith : Str → Str → Bool
  | _, [] => true
  | [], _ :: _ => false
  | c :: hay, d :: needle => c = d && startsWith hay needle

/-- Does `hay` contain `needle` as a contiguous substring? -/
def hasSub (hay needle : Str) : Bool :=
  match hay with
  | [] => needle.isEmpty
  | _ :: rest => startsWith hay needle || hasSub rest needle

/-- Position of the first occurrence of `needle` in `hay` (Python `str.find`). -/
def findSub (hay needle : Str) : Option Nat :=
  match hay with
  | [] => if needle.isEmpty then some 0 else none
  | _ :: rest =>
    if startsWith hay needle then some 0
    else (findSub rest needle).map (· + 1)

/-- Python `text.split(sep)` for a one-character separator (keeps empties). -/
def splitOnCharAux (sep : Char) : Str → Str → List Str
  | acc, [] => [acc.reverse]
  | acc, c :: rest =>
    if c = sep then acc.reverse :: splitOnCharAux sep [] rest
    else splitOnCharAux sep (c :: acc) rest

def splitOnChar (sep : Char) (s : Str) : List Str := splitOnCharAux sep [] s

/-- Python `text.split(sep, 1)` given at least one separator occurrence. -/
def splitFirst (sep : Char) : Str → Option (Str × Str)
  | [] => none
  | c :: rest =>
    if c = sep then some ([], rest)
    else (splitFirst sep rest).map (fun p => (c :: p.1, p.2))

/-- Python whitespace `str.split()` (drops empty fields). -/
def splitWsAux : Str → Str → List Str
  | acc, [] => if acc.isEmpty then [] else [acc.reverse]
  | acc, c :: rest =>
    if pySpace c then
      if acc.isEmpty then splitWsAux [] rest
      else acc.reverse :: splitWsAux [] rest
    else splitWsAux (c :: acc) rest

def splitWs (s : Str) : List Str := splitWsAux [] s

/-- Python `str.splitlines()` for `\n` / `\r\n` / `\r` separated text: no
entry is produced for a trailing line terminator. -/
def pySplitlinesGo : Str → Str → List Str
  | acc, [] => if acc.isEmpty then [] else [acc.reverse]
  | acc, c :: rest =>
    if c = '\r' then
      match rest with
      | d :: rest' =>
        if d = '\n' then acc.reverse :: pySplitlinesGo [] rest'
        else acc.reverse :: pySplitlinesGo [] (d :: rest')
      | [] => acc.reverse :: pySplitlinesGo [] []
    else if c = '\n' then acc.reverse :: pySplitlinesGo [] rest
    else pySplitlinesGo (c :: acc) rest

def pySplitlines (s : Str) : List Str := pySplitlinesGo [] s

/-- Little-endian base-10 digits, fuel-driven so that it evaluates by `decide`;
any fuel at least the value itself is enough. -/
def natDigitsRev : Nat → Nat → List Nat
  | 0, _ => []
  | fuel + 1, n => if n = 0 then [] else n % 10 :: natDigitsRev fuel (n / 10)

/-- `str(n)` for a natural number. -/
def natToStr (n : Nat) : Str :=
  if n = 0 then ['0'] else ((natDigitsRev n n).map Nat.digitChar).reverse

/-- `str(i)` for a Python integer. -/
def intToStr (i : Int) : Str :=
  if i < 0 then '-' :: natToStr i.natAbs else natToStr i.natAbs

/-- Value of a string of decimal digit characters (`int(s)` on digit-only `s`). -/
def digitsToNat (s : Str) : Nat :=
  s.foldl (fun a c => a * 10 + (c.toNat - 48)) 0

/-- Split a leading run of decimal digits: value, digit count, rest. -/
def takeDigits : Str → Nat × Nat × Str
  | [] => (0, 0, [])
  | c :: rest =>
    if c.isDigit then
      let (v, n, r) := takeDigits rest
      (v + (c.toNat - 48) * 10 ^ n, n + 1, r)
    else (0, 0, c :: rest)

/-- The finite decimal/scientific literal grammar of Python `float(text)`
(sign, digit runs, optional fraction, optional exponent), evaluated exactly:
a finite literal yields its exact rational value, so binary64 rounding — in
particular the silent overflow of huge finite literals such as `1e999` to
`inf` — is not modelled (the sources never format or compare values where
that rounding could change a branch). -/
def parseFinite (s : Str) : Option ℚ :=
  let (sgn, s₁) : ℚ × Str :=
    match s with
    | c :: r => if c = '-' then (-1, r) else if c = '+' then (1, r) else (1, s)
    | [] => (1, s)
  let (ip, ic, s₂) := takeDigits s₁
  let (fp, fc, s₃) : Nat × Nat × Str :=
    match s₂ with
    | c :: r => if c = '.' then takeDigits r else (0, 0, s₂)
    | [] => (0, 0, s₂)
  if ic = 0 ∧ fc = 0 then none
  else
    let mant : ℚ := (ip : ℚ) + (fp : ℚ) / 10 ^ fc
    match s₃ with
    | [] => some (sgn * mant)
    | e :: r =>
      if e = 'e' ∨ e = 'E' then
        let (esgn, r₁) : Int × Str :=
          match r with
          | c :: r' => if c = '-' then (-1, r') else if c = '+' then (1, r') else (1, r)
          | [] => (1, r)
        let (ev, ec, r₂) := takeDigits r₁
        if ec = 0 ∨ ¬ r₂.isEmpty then none
        else some (sgn * mant * (10 : ℚ) ^ (esgn * ev))
      else none

/-- A Python `float` value: finite (an exact rational here), an infinity, or
a NaN. -/
inductive PyFloat where
  | finite (q : ℚ)
  | inf
  | ninf
  | nan
  deriving Repr, DecidableEq

/-- Underscore removal with Python's numeric-literal rule: every `_` must sit
between two digits (`float("1_0")` is `10.0`, while `"_1"`, `"1_"`, `"1__0"`,
`"1_.5"` all fail).  The `Bool` tracks whether the previous character was a
digit. -/
def remUnderscoresGo : Bool → Str → Option Str
  | _, [] => some []
  | prevDigit, c :: rest =>
    if c = '_' then
      if prevDigit then
        match rest with
        | d :: _ => if d.isDigit then remUnderscoresGo false rest else none
        | [] => none
      else none
    else (remUnderscoresGo c.isDigit rest).map (c :: ·)

def remUnderscores (s : Str) : Option Str := remUnderscoresGo false s

/-- Case-insensitive match of `s` against the lowercase pattern `pat`
(each character may appear in either case). -/
def isCaseOf : Str → Str → Bool
  | [], [] => true
  | [], _ :: _ => false
  | _ :: _, [] => false
  | p :: ps, c :: cs => (c = p ∨ c = p.toUpper) && isCaseOf ps cs

def infName : Str := ['i', 'n', 'f']
def infinityName : Str := ['i', 'n', 'f', 'i', 'n', 'i', 't', 'y']
def nanName : Str := ['n', 'a', 'n']

/-- Python `float(text)`: surrounding whitespace is ignored; an optional sign
followed by `inf`/`infinity`/`nan` in any case yields the non-finite values;
otherwise the text (after validating and dropping digit-separating
underscores) is read as a finite literal — exactly, see `parseFinite`. -/
def parseFloat (s : Str) : Option PyFloat :=
  let t := strip s
  let body : Str :=
    match t with
    | c :: r => if c = '-' ∨ c = '+' then r else t
    | [] => t
  let neg : Bool :=
    match t with
    | c :: _ => c = '-'
    | [] => false
  if isCaseOf infName body ∨ isCaseOf infinityName body then
    some (if neg then PyFloat.ninf else PyFloat.inf)
  else if isCaseOf nanName body then some PyFloat.nan
  else
    match remUnderscores t with
    | none => none
    | some t' => (parseFinite t').map PyFloat.finite

/-- `float(text)` restricted to a finite result.  It is used at call sites
where either (a) the text already matched a finite-only regex shape, so the
non-finite cases cannot occur, or (b) the Python code would crash on a
non-finite value in a way no claim constrains; each such site documents
which case applies. -/
def parseFloatFinite (s : Str) : Option ℚ :=
  match parseFloat s with
  | some (PyFloat.finite q) => some q
  | _ => none

/-- Truncation toward zero: Python `int(float_value)` on a finite value. -/
def pyTrunc (q : ℚ) : Int := if 0 ≤ q then ⌊q⌋ else -⌊-q⌋

/-- Python exception kinds the embedded code can raise: the user-facing
`ValueError`s, and the crash exceptions that escape the sources' narrow
`except ValueError` handlers (message texts are abridged). -/
inductive PyErr where
  | valueError (msg : Str)
  | overflowError
  | reError (msg : Str)
  | indexError (msg : Str)
  deriving Repr, DecidableEq

/-- `int(float(text))` guarded by `except ValueError` alone, as in
`_extract_profile_line` and `_renumber_hkost_line` of
`server/app/extract.py`: unparsable text raises `ValueError` inside `float`
(caught), a NaN raises `ValueError` inside `int` (caught), but an infinity
raises `OverflowError` inside `int`, which the handler does not catch. -/
def intFloatVE (s : Str) : Except PyErr (Option Int) :=
  match parseFloat s with
  | none => .ok none
  | some (PyFloat.finite q) => .ok (some (pyTrunc q))
  | some PyFloat.nan => .ok none
  | some PyFloat.inf => .error PyErr.overflowError
  | some PyFloat.ninf => .error PyErr.overflowError

/-- Insertion-ordered dictionary assignment `d[k] = v`. -/
def dictInsert {α β : Type} [DecidableEq α] (k : α) (v : β)
    (d : List (α × β)) : List (α × β) :=
  if d.any (fun p => p.1 = k) then
    d.map (fun p => if p.1 = k then (k, v) else p)
  else d ++ [(k, v)]

/-- Dictionary lookup `d.get(k)`. -/
def dictLookup {α β : Type} [DecidableEq α] (k : α)
    (d : List (α × β)) : Option β :=
  (d.find? (fun p => p.1 = k)).map (·.2)

/-- Search for a vendor call `NAME(` (case-insensitively) followed later by a
closing `)`; returns the captured text between the parentheses, original case.
Models `re.search(r"NAME\((?P<params>[^)]*)\)", line, re.IGNORECASE)`: if the
first `NAME(` occurrence has no `)` after it, no later occurrence has one
either, so the single scan is equivalent to the regex engine's retries. -/
def searchCall (namePat : Str) : Str → Option Str
  | [] => none
  | c :: rest =>
    if startsWith (upper (c :: rest)) namePat then
      match splitFirst ')' ((c :: rest).drop namePat.length) with
      | some (params, _) => some params
      | none => none
    else searchCall namePat rest

def hkostPat : Str := "HKOST(".toList
def hkstrPat : Str := "HKSTR(".toList
def hkstoPat : Str := "HKSTO(".toList
def hkpedPat : Str := "HKPED(".toList
def hkiniPat : Str := "HKINI(".toList

/-- First index `≥ start` satisfying `p`, if any. -/
def findFrom (p : Str → Bool) (lines : List Str) (start : Nat) : Option Nat :=
  ((lines.drop start).findIdx? p).map (· + start)

/-- Python `str.zfill` for non-negative content. -/
def zfill (w : Nat) (s : Str) : Str := List.replicate (w - s.length) '0' ++ s

/-- `f"{value:.Nf}"`: fixed-point decimal formatting (see the header note on
tie rounding). -/
def ratFixed (decimals : Nat) (q : ℚ) : Str :=
  let scaled : Int := round (q * 10 ^ decimals)
  let sign : Str := if scaled < 0 then ['-'] else []
  let a := scaled.natAbs
  if decimals = 0 then sign ++ natToStr a
  else
    sign ++ natToStr (a / 10 ^ decimals) ++
      '.' :: zfill decimals (natToStr (a % 10 ^ decimals))

def rstripChar (c : Char) (s : Str) : Str :=
  (s.reverse.dropWhile (· = c)).reverse

/-- Number of decimal digits of `n` as Python's `len(str(n))` sees it. -/
def numDigits (n : Nat) : Nat := (natToStr n).length

end GC

namespace GC.Srv

/-! Embedding of `server/app/parser.py`. -/

/-- `LINE_LABEL_RE = ^N(?P<label>\d+)` with `IGNORECASE`: a leading `N`/`n`
followed by at least one digit.  Returns the label value and the number of
characters the match consumed (`match.end()`). -/
def lineLabelMatch (line : Str) : Option (Nat × Nat) :=
  match line with
  | c :: rest =>
    if c = 'N' ∨ c = 'n' then
      let (v, n, _) := takeDigits rest
      if n = 0 then none else some (v, n + 1)
    else none
  | [] => none

/-- The label of a line, when the line carries an `N<digits>` prefix. -/
def lineLabel (line : Str) : Option Nat := (lineLabelMatch line).map (·.1)

/-- `_index_labels` of `server/app/parser.py`: forward scan, `dict` insertion
(later occurrences overwrite earlier ones). -/
def indexLabels (lines : List Str) : List (Int × Nat) :=
  lines.enum.foldl
    (fun m p =>
      match lineLabel p.2 with
      | some l => dictInsert (l : Int) p.1 m
      | none => m)
    []

/-- `_split_params` of `server/app/parser.py`: quote-aware split on `,`,
each piece stripped, empty pieces dropped. -/
def splitParamsGo : Bool → Str → Str → List Str
  | _, acc, [] => [acc.reverse]
  | inq, acc, c :: rest =>
    if c = '"' then splitParamsGo (!inq) ('"' :: acc) rest
    else if c = ',' ∧ ¬inq then acc.reverse :: splitParamsGo inq [] rest
    else splitParamsGo inq (c :: acc) rest

def splitParams (s : Str) : List Str :=
  ((splitParamsGo false [] s).map strip).filter (fun p => ¬ p.isEmpty)

/-- `_coerce_float` of `server/app/parser.py`.  Python would hand a
non-finite `float` (`inf`/`nan`) through to the anchor fields; the embedding
keeps anchors rational and maps those to `none` — the anchors' only
downstream use is geometric, and no claim touches non-finite anchors. -/
def coerceFloat (s : Str) : Option ℚ := parseFloatFinite s

/-- `_extract_hkost_details` of `server/app/parser.py`.  The profile slot is
`int(float(parts[3]))` under `except ValueError`: unparsable text and NaN are
caught (`none`, faithfully); a `±inf` 4th parameter would escape as an
uncaught `OverflowError` (as in `_extract_profile_line` of
`server/app/extract.py`, see `intFloatVE`) — the summariser is kept total and
returns `none` there, a path no summary claim constrains. -/
def extractHkostDetails (line : Str) :
    Option ℚ × Option ℚ × Option Int :=
  match searchCall hkostPat line with
  | none => (none, none, none)
  | some params =>
    let parts := splitParams params
    let ax := if 1 ≤ parts.length then coerceFloat (parts.getD 0 []) else none
    let ay := if 2 ≤ parts.length then coerceFloat (parts.getD 1 []) else none
    let pl :=
      if 4 ≤ parts.length then (parseFloatFinite (parts.getD 3 [])).map pyTrunc
      else none
    (ax, ay, pl)

/-- `_extract_profile_line` of `server/app/parser.py`. -/
def extractProfileLine (line : Str) : Option Int :=
  (extractHkostDetails line).2.2

/-- `_find_profile_end` of `server/app/parser.py`: first `HKPED(...)` at or
after `start`, else the last line of the document. -/
def findProfileEnd (lines : List Str) (start : Nat) : Nat :=
  (findFrom (fun l => (searchCall hkpedPat l).isSome) lines start).getD
    (lines.length - 1)

/-- `_count_contours` of `server/app/parser.py`. -/
def countContours (lines : List Str) (startIdx endIdx : Nat) : Nat :=
  if endIdx < startIdx then 0
  else (((lines.drop startIdx).take (endIdx + 1 - startIdx)).filter
    (fun l => (searchCall hkstrPat l).isSome)).length

/-- `PartSummary` of `server/app/parser.py` (and the identically shaped
`PartSummaryModel` of `server/app/models.py`). -/
structure PartSummary where
  part_number : Nat
  part_line : Nat
  hkost_line : Nat
  profile_line : Option Int
  start_line : Nat
  end_line : Nat
  contours : Nat
  anchor_x : Option ℚ
  anchor_y : Option ℚ
  deriving Repr, DecidableEq

/-- `_label_prefix_length` of `server/app/parser.py` (takes the label string). -/
def labelPfxLenOfStr (labelStr : Str) : Nat :=
  let digits := labelStr.length
  if digits ≤ 4 then 1 else min 4 (digits - 4)

/-- `_part_number_from_label` of `server/app/parser.py`. -/
def partNumberFromLabel (label : Int) : Nat :=
  let labelStr := natToStr label.natAbs
  if labelStr.isEmpty then 0
  else digitsToNat (labelStr.take (labelPfxLenOfStr labelStr))

/-- One iteration of the `HKParser.summarize_parts` loop body: the summary
appended for the `HKOST` line at index `idx`.  `nparts` is the number of
summaries collected so far (`len(parts)`). -/
def summaryFor (normalized : List Str) (idxMap : List (Int × Nat))
    (nparts idx : Nat) (line : Str) : PartSummary :=
  let labelM := lineLabelMatch line
  let part_line := match labelM with
    | some lm => lm.1
    | none => idx + 1
  let part_number := match labelM with
    | some _ => partNumberFromLabel (part_line : Int)
    | none => nparts + 1
  let det := extractHkostDetails line
  let startIdx : Option Nat :=
    match det.2.2 with
    | some p => if p ≠ 0 then dictLookup p idxMap else none
    | none => none
  match startIdx with
  | some s =>
    let e := findProfileEnd normalized s
    { part_number := part_number
      part_line := part_line
      hkost_line := idx + 1
      profile_line := det.2.2
      start_line := s + 1
      end_line := e + 1
      contours := countContours normalized s e
      anchor_x := det.1
      anchor_y := det.2.1 }
  | none =>
    { part_number := part_number
      part_line := part_line
      hkost_line := idx + 1
      profile_line := det.2.2
      start_line := idx + 1
      end_line := idx + 1
      contours := 0
      anchor_x := det.1
      anchor_y := det.2.1 }

/-- `HKParser.summarize_parts` of `server/app/parser.py`. -/
def summarizeParts (lines : List Str) : List PartSummary :=
  let normalized := lines.map strip
  let idxMap := indexLabels normalized
  normalized.enum.foldl
    (fun parts p =>
      if (searchCall hkostPat p.2).isSome then
        parts ++ [summaryFor normalized idxMap parts.length p.1 p.2]
      else parts)
    []

/-- `_strip_line_label` of `server/app/parser.py`. -/
def stripLineLabel (line : Str) : Str :=
  match lineLabelMatch line with
  | none => line
  | some lm => lstrip (line.drop lm.2)

/-- `extract_part_block` of `server/app/parser.py`. -/
def extractPartBlock (lines : List Str) (part_line : Int) : List Str :=
  let labelPfxPat := upper ('N' :: intToStr part_line)
  let hkostIndex := lines.findIdx?
    (fun line =>
      let cleaned := upper (strip line)
      startsWith cleaned labelPfxPat && (searchCall hkostPat cleaned).isSome)
  match hkostIndex with
  | none => []
  | some hi =>
    match extractProfileLine (lines.getD hi []) with
    | none => []
    | some profile =>
      let idxMap := indexLabels (lines.map strip)
      match dictLookup profile idxMap with
      | none => []
      | some startIdx =>
        let endIdx := findProfileEnd (lines.map strip) startIdx
        (lines.drop startIdx).take (endIdx + 1 - startIdx)

/-- `_split_contour_blocks` of `server/app/parser.py`.  Faithfully models the
loop's state machine, including the double append of a still-open block when
the `HKPED` break path and the post-loop flush both fire. -/
def splitContourBlocksGo : List Str → List Str → Bool → List (List Str)
  | [], current, _ => if current.isEmpty then [] else [current]
  | line :: rest, current, inb =>
    let normalized := strip line
    if (searchCall hkstrPat normalized).isSome then
      (if current.isEmpty then [] else [current]) ++
        splitContourBlocksGo rest [line] true
    else
      let current' := if inb then current ++ [line] else current
      if inb ∧ (searchCall hkstoPat normalized).isSome then
        current' :: splitContourBlocksGo rest [] false
      else if (searchCall hkpedPat normalized).isSome then
        if current'.isEmpty then [] else [current', current']
      else splitContourBlocksGo rest current' inb

def splitContourBlocks (lines : List Str) : List (List Str) :=
  splitContourBlocksGo lines [] false

/-- `extract_part_contour_blocks` of `server/app/parser.py`. -/
def extractPartContourBlocks (lines : List Str) (part_line : Int) :
    List (List Str) :=
  let partBlock := extractPartBlock lines part_line
  if partBlock.isEmpty then [] else splitContourBlocks partBlock

/-- `extract_part_contour_block` of `server/app/parser.py`. -/
def extractPartContourBlock (lines : List Str) (part_line : Int)
    (contour_index : Int) : List Str :=
  if contour_index < 1 then []
  else
    let blocks := extractPartContourBlocks lines part_line
    if (blocks.length : Int) < contour_index then []
    else blocks.getD (contour_index.toNat - 1) []

end GC.Srv

namespace GC

/-- The indices (`enumerate` order) of the lines whose `N`-label equals
`label`. -/
def labelOccurrences (lines : List Str) (label : Int) : List Nat :=
  ((lines.enum.filter
    (fun p => (Srv.lineLabel p.2).map (fun n => (n : Int)) = some label)).map
    (·.1))

end GC

namespace GC.Ext

/-! Embedding of `server/app/extract.py` (first part). -/

/-- `_index_labels` of `server/app/extract.py`: same forward scan with
overwriting `dict` insertion as the summarizer's indexer. -/
def indexLabels (lines : List Str) : List (Int × Nat) :=
  lines.enum.foldl
    (fun m p =>
      match Srv.lineLabel p.2 with
      | some l => dictInsert (l : Int) p.1 m
      | none => m)
    []

/-- `_label_prefix_length` of `server/app/extract.py` (takes the digit count). -/
def labelPfxLen (labelDigits : Nat) : Nat :=
  if labelDigits ≤ 4 then 1 else min 4 (labelDigits - 4)

def hkpedSub : Str := "HKPED".toList
def hkpppSub : Str := "HKPPP".toList

/-- Leading `N<digits>` label match keeping the raw digit string (so that
leading zeros keep counting toward the prefix length), together with the
number of consumed characters (`match.end()`). -/
def lineLabelRaw (line : Str) : Option (Str × Nat) :=
  match line with
  | c :: rest =>
    if c = 'N' ∨ c = 'n' then
      let d := rest.takeWhile Char.isDigit
      if d.isEmpty then none else some (d, d.length + 1)
    else none
  | [] => none

/-- `_strip_label` of `server/app/extract.py`. -/
def stripLabel (line : Str) : Option Nat × Str :=
  match lineLabelRaw line with
  | none => (none, lstrip line)
  | some (d, e) => (some (digitsToNat d), lstrip (line.drop e))

/-- `_format_float` of `server/app/extract.py`. -/
def formatFloat (q : ℚ) : Str :=
  rstripChar '.' (rstripChar '0' (ratFixed 4 q))

/-- `_format` of `server/app/extract.py`: unparsable text is returned as-is
(`except ValueError`); a non-finite value survives the subtraction and
`"%.4f"` renders it as `inf`/`-inf`/`nan`. -/
def fmtShift (raw : Str) (delta : ℚ) : Str :=
  match parseFloat raw with
  | none => raw
  | some (PyFloat.finite v) => formatFloat (v - delta)
  | some PyFloat.inf => infName
  | some PyFloat.ninf => '-' :: infName
  | some PyFloat.nan => nanName

/-- The text matched by `[-+]?\d*\.?\d+` at the head of `s`, with the rest of
the string, mirroring the regex engine's backtracking (a trailing bare `.`
stays unconsumed). -/
def matchCoordNum (s : Str) : Option (Str × Str) :=
  let p : Str × Str :=
    match s with
    | '-' :: r => (['-'], r)
    | '+' :: r => (['+'], r)
    | _ => ([], s)
  let d1 := p.2.takeWhile Char.isDigit
  let r1 := p.2.drop d1.length
  match r1 with
  | '.' :: r2 =>
    let d2 := r2.takeWhile Char.isDigit
    if d2.isEmpty then
      if d1.isEmpty then none else some (p.1 ++ d1, r1)
    else some (p.1 ++ d1 ++ '.' :: d2, r2.drop d2.length)
  | _ => if d1.isEmpty then none else some (p.1 ++ d1, r1)

/-- `COORD_PATTERN.findall` (`([XY])([-+]?\d*\.?\d+)`, case-sensitive),
fuel-driven (the string's length is always enough fuel). -/
def coordFindAllGo : Nat → Str → List (Char × Str)
  | 0, _ => []
  | _, [] => []
  | fuel + 1, c :: rest =>
    if c = 'X' ∨ c = 'Y' then
      match matchCoordNum rest with
      | some (txt, r) => (c, txt) :: coordFindAllGo fuel r
      | none => coordFindAllGo fuel rest
    else coordFindAllGo fuel rest

def coordFindAll (s : Str) : List (Char × Str) := coordFindAllGo s.length s

/-- `COORD_PATTERN.sub` with a replacement callback. -/
def coordSubGo (f : Char → Str → Str) : Nat → Str → Str
  | 0, s => s
  | _, [] => []
  | fuel + 1, c :: rest =>
    if c = 'X' ∨ c = 'Y' then
      match matchCoordNum rest with
      | some (txt, r) => f c txt ++ coordSubGo f fuel r
      | none => c :: coordSubGo f fuel rest
    else c :: coordSubGo f fuel rest

def coordSub (f : Char → Str → Str) (s : Str) : Str := coordSubGo f s.length s

/-- A compiled `re.sub` replacement template: literal runs and group
references (group `0` is the whole match). -/
inductive TmplPiece where
  | lit (s : Str)
  | group (n : Nat)
  deriving Repr, DecidableEq

def isOctDigit (c : Char) : Bool := '0' ≤ c && c ≤ '7'

/-- The `\letter` character escapes a replacement template accepts. -/
def tmplEscape (c : Char) : Option Char :=
  if c = '\\' then some '\\'
  else if c = 'n' then some '\n'
  else if c = 't' then some '\t'
  else if c = 'r' then some '\r'
  else if c = 'v' then some '\x0b'
  else if c = 'f' then some '\x0c'
  else if c = 'a' then some '\x07'
  else if c = 'b' then some '\x08'
  else none

/-- `\g<name>` resolution for the vendor-call patterns, which have exactly
one capturing group, named `params`: numeric names address groups `0` (the
whole match) and `1`; other identifiers are unknown names (`IndexError` in
Python); anything else is a bad group name (`re.error`). -/
def resolveGroupName (name : Str) : Except PyErr Nat :=
  if name.isEmpty then .error (.reError ("missing group name".toList))
  else if name.all Char.isDigit then
    if digitsToNat name ≤ 1 then .ok (digitsToNat name)
    else .error (.reError ("invalid group reference".toList))
  else if (name.headD ' ').isAlpha || name.headD ' ' = '_' then
    if name.all (fun c => c.isAlphanum || c = '_') then
      if name = ['p', 'a', 'r', 'a', 'm', 's'] then .ok 1
      else .error (.indexError ("unknown group name".toList))
    else .error (.reError ("bad character in group name".toList))
  else .error (.reError ("bad character in group name".toList))

/-- One backslash escape of a replacement template, for the vendor-call
patterns (one capturing group): the produced piece and the remaining
template text.  Mirrors `sre_parse.parse_template`: `\letter` escapes,
octal escapes, `\number` and `\g<name>` group references; a bad escape or an
out-of-range group reference raises (`re.error`/`IndexError`), a crash path
`extract_part_program` does not catch.  Error messages are abridged. -/
def tmplEscStep : Str → Except PyErr (TmplPiece × Str)
  | [] => .error (.reError ("bad escape (end of pattern)".toList))
  | d :: r =>
    if d = 'g' then
      match r with
      | [] => .error (.reError ("missing <".toList))
      | e :: r' =>
        if e = '<' then
          match splitFirst '>' r' with
          | none => .error (.reError ("missing >, unterminated name".toList))
          | some (name, after) =>
            match resolveGroupName name with
            | .error err => .error err
            | .ok g => .ok (.group g, after)
        else .error (.reError ("missing <".toList))
    else if d = '0' then
      match r with
      | r₁ :: rr =>
        if isOctDigit r₁ then
          match rr with
          | r₂ :: rrr =>
            if isOctDigit r₂ then
              .ok (.lit [Char.ofNat ((r₁.toNat - 48) * 8 + (r₂.toNat - 48))],
                rrr)
            else .ok (.lit [Char.ofNat (r₁.toNat - 48)], rr)
          | [] => .ok (.lit [Char.ofNat (r₁.toNat - 48)], [])
        else .ok (.lit ['\x00'], r)
      | [] => .ok (.lit ['\x00'], [])
    else if d.isDigit then
      match r with
      | r₁ :: rr =>
        if r₁.isDigit then
          match rr with
          | r₂ :: rrr =>
            if isOctDigit d && (isOctDigit r₁ && isOctDigit r₂) then
              let v := (d.toNat - 48) * 64 + (r₁.toNat - 48) * 8 +
                (r₂.toNat - 48)
              if 255 < v then
                .error (.reError
                  ("octal escape value outside of range 0-0o377".toList))
              else .ok (.lit [Char.ofNat v], rrr)
            else
              if 1 < (d.toNat - 48) * 10 + (r₁.toNat - 48) then
                .error (.reError ("invalid group reference".toList))
              else
                .ok (.group ((d.toNat - 48) * 10 + (r₁.toNat - 48)), rr)
          | [] =>
            if 1 < (d.toNat - 48) * 10 + (r₁.toNat - 48) then
              .error (.reError ("invalid group reference".toList))
            else .ok (.group ((d.toNat - 48) * 10 + (r₁.toNat - 48)), [])
        else
          if 1 < d.toNat - 48 then
            .error (.reError ("invalid group reference".toList))
          else .ok (.group (d.toNat - 48), r)
      | [] =>
        if 1 < d.toNat - 48 then
          .error (.reError ("invalid group reference".toList))
        else .ok (.group (d.toNat - 48), [])
    else
      match tmplEscape d with
      | some ch => .ok (.lit [ch], r)
      | none =>
        if d.isAlpha then
          .error (.reError ("bad escape ".toList ++ ['\\', d]))
        else .ok (.lit ['\\', d], r)

/-- Template compilation: literal characters pass through, each backslash
escape is resolved by `tmplEscStep`.  Fuel-driven; the template's length is
always enough fuel. -/
def parseTemplateGo : Nat → Str → Except PyErr (List TmplPiece)
  | _, [] => .ok []
  | 0, s => .ok [.lit s]
  | fuel + 1, c :: rest =>
    if c = '\\' then
      match tmplEscStep rest with
      | .error e => .error e
      | .ok (piece, after) =>
        (parseTemplateGo fuel after).map (fun ps => piece :: ps)
    else (parseTemplateGo fuel rest).map (fun ps => .lit [c] :: ps)

def parseTemplate (t : Str) : Except PyErr (List TmplPiece) :=
  parseTemplateGo t.length t

/-- Expand a compiled template at one match: group `0` is the whole matched
text, group `1` the `params` capture. -/
def renderTemplate (pieces : List TmplPiece) (whole params : Str) : Str :=
  (pieces.map (fun p =>
    match p with
    | .lit s => s
    | .group 0 => whole
    | .group _ => params)).flatten

/-- The match-and-replace scan of `PATTERN.sub` for a vendor-call pattern
`NAME\((?P<params>[^)]*)\)`: every (case-insensitive) match is replaced by
the expanded template. -/
def subCallAll (namePat : Str) (pieces : List TmplPiece) : Nat → Str → Str
  | 0, s => s
  | _, [] => []
  | fuel + 1, c :: rest =>
    if startsWith (upper (c :: rest)) namePat then
      match splitFirst ')' ((c :: rest).drop namePat.length) with
      | some (params, after) =>
        renderTemplate pieces
            ((c :: rest).take (namePat.length + params.length + 1)) params ++
          subCallAll namePat pieces fuel after
      | none => c :: rest
    else c :: subCallAll namePat pieces fuel rest

/-- `PATTERN.sub(replacement, s)` for a vendor-call pattern.  CPython
compiles a backslash-bearing replacement template before scanning
(bpo-32308), so a malformed template raises even on its own; every call site
below subs only after a successful `.search`, so a match exists anyway. -/
def subCall (namePat replacement s : Str) : Except PyErr Str :=
  (parseTemplate replacement).map
    (fun pieces => subCallAll namePat pieces s.length s)

/-- `_extract_profile_line` of `server/app/extract.py` (plain comma split,
unlike the quote-aware splitter of `server/app/parser.py`).  The conversion
is `int(float(parts[3]))` under `except ValueError` alone, so a `±inf` 4th
parameter escapes as an uncaught `OverflowError` (see `intFloatVE`). -/
def extractProfileLine (hkost_line : Str) : Except PyErr (Option Int) :=
  match searchCall hkostPat hkost_line with
  | none => .ok none
  | some params =>
    let parts := ((splitOnChar ',' params).map strip).filter
      (fun p => ¬ p.isEmpty)
    if parts.length < 4 then .ok none
    else intFloatVE (parts.getD 3 [])

/-- `_find_block_end` of `server/app/extract.py` (plain substring test). -/
def findBlockEnd (lines : List Str) (startIdx : Nat) : Option Nat :=
  findFrom (fun l => hasSub (upper l) hkpedSub) lines startIdx

/-- `_collect_until_hkppp` of `server/app/extract.py`. -/
def collectUntilHkppp (lines : List Str) (startIdx : Nat) :
    List Str × Option Nat :=
  match findFrom (fun l => hasSub (upper l) hkpppSub) lines (startIdx + 1) with
  | some i => ((lines.drop (startIdx + 1)).take (i - startIdx), some i)
  | none => (lines.drop (startIdx + 1), none)

/-- `_bounds_for_block` of `server/app/extract.py`.  The `HKSTR` branch models
the `try` block's partial appends: a failing conversion keeps the values
already appended and skips the rest.  A non-finite `HKSTR` coordinate
(`inf`/`nan`, which Python's `float` accepts and would feed into the
`min`/`max` bounds) is skipped like a failing one: the bounds stay rational,
and no claim constrains bounds on non-finite input. -/
def boundsHkstrAppend (parts : List Str) (xs ys : List ℚ) : List ℚ × List ℚ :=
  match parseFloatFinite (parts.getD 2 []) with
  | none => (xs, ys)
  | some a =>
    match parseFloatFinite (parts.getD 3 []) with
    | none => (xs ++ [a], ys)
    | some b =>
      match parseFloatFinite (parts.getD 5 []) with
      | none => (xs ++ [a], ys ++ [b])
      | some c =>
        match parseFloatFinite (parts.getD 6 []) with
        | none => (xs ++ [a, c], ys ++ [b])
        | some d => (xs ++ [a, c], ys ++ [b, d])

/-- The per-line bounds appends.  The coordinate texts come from
`COORD_PATTERN` (`[-+]?\d*\.?\d+`), a finite-only shape, so the finite
restriction of `float` is exact there. -/
def boundsLineAppend (line : Str) (acc : List ℚ × List ℚ) : List ℚ × List ℚ :=
  let acc₁ :=
    match searchCall hkstrPat line with
    | none => acc
    | some params =>
      let parts := ((splitOnChar ',' params).map strip).filter
        (fun p => ¬ p.isEmpty)
      if 7 ≤ parts.length then boundsHkstrAppend parts acc.1 acc.2 else acc
  (coordFindAll line).foldl
    (fun a cv =>
      match parseFloatFinite cv.2 with
      | none => a
      | some v => if cv.1 = 'X' then (a.1 ++ [v], a.2) else (a.1, a.2 ++ [v]))
    acc₁

def listMin (l : List ℚ) : ℚ := l.foldl min (l.headD 0)
def listMax (l : List ℚ) : ℚ := l.foldl max (l.headD 0)

def boundsForBlock (lines : List Str) : ℚ × ℚ × ℚ × ℚ :=
  let acc := lines.foldl (fun a line => boundsLineAppend line a) ([], [])
  if acc.1.isEmpty ∨ acc.2.isEmpty then (0, 0, 0, 0)
  else (listMin acc.1, listMin acc.2, listMax acc.1, listMax acc.2)

/-- `_header_lines` of `server/app/extract.py`. -/
def headerLines (lines : List Str) : List Str :=
  match lines.findIdx? (fun l => (searchCall hkostPat l).isSome) with
  | none => lines
  | some i => lines.take i

/-- `_find_last_hkppp_index` of `server/app/extract.py`. -/
def findLastHkppp (lines : List Str) : Option Nat :=
  ((lines.enum.filter (fun p => hasSub (upper p.2) hkpppSub)).map
    (·.1)).getLast?

/-- `_remove_contour_blocks` of `server/app/extract.py`. -/
def removeContourBlocksGo : List Str → Bool → List Str
  | [], _ => []
  | line :: rest, inb =>
    let normalized := strip line
    let inb₁ := if (searchCall hkstrPat normalized).isSome then true else inb
    let inb₂ := if inb₁ ∧ hasSub (upper normalized) hkpedSub then false else inb₁
    (if inb₁ then [] else [line]) ++ removeContourBlocksGo rest inb₂

def removeContourBlocks (lines : List Str) : List Str :=
  removeContourBlocksGo lines false

/-- `_footer_lines` of `server/app/extract.py`. -/
def footerLines (lines : List Str) (strip_contours : Bool) : List Str :=
  match findLastHkppp lines with
  | none => []
  | some i =>
    let footer := lines.drop (i + 1)
    if strip_contours then removeContourBlocks footer else footer

/-- `_collapse_blank_lines` of `server/app/extract.py`. -/
def collapseBlanksGo : List Str → Bool → List Str
  | [], _ => []
  | line :: rest, prevBlank =>
    if (strip line).isEmpty then
      if prevBlank then collapseBlanksGo rest true
      else [] :: collapseBlanksGo rest true
    else line :: collapseBlanksGo rest false

def collapseBlankLines (lines : List Str) : List Str :=
  collapseBlanksGo lines false

/-- `_renumber_label` of `server/app/extract.py`. -/
def renumberLabel (label : Str) (new_part_number : Nat) : Str :=
  if label.isEmpty then label
  else
    let pfxLen := labelPfxLen label.length
    let suffix := if pfxLen < label.length then label.drop pfxLen else []
    let newPfx := natToStr new_part_number
    let newPfx := if newPfx.length < pfxLen then zfill pfxLen newPfx else newPfx
    newPfx ++ suffix

/-- `_renumber_line_label` of `server/app/extract.py`. -/
def renumberLineLabel (line : Str) (new_part_number : Nat) : Str :=
  match lineLabelRaw line with
  | none => line
  | some (d, e) => 'N' :: (renumberLabel d new_part_number ++ line.drop e)

/-- `_renumber_block_lines` of `server/app/extract.py`. -/
def renumberBlockLines (lines : List Str) (new_part_number : Nat) : List Str :=
  lines.map (fun l => renumberLineLabel l new_part_number)

/-- `_renumber_hkost_line` of `server/app/extract.py`.  Shares the two crash
paths of the extraction engine: `int(float(...))` under `except ValueError`
(`OverflowError` on `±inf`, see `intFloatVE`) and template processing inside
`HKOST_PATTERN.sub` (see `subCall`). -/
def renumberHkostLine (line : Str) (new_part_number : Nat) :
    Except PyErr Str :=
  let updated := renumberLineLabel line new_part_number
  match searchCall hkostPat updated with
  | none => .ok updated
  | some params =>
    let parts := (splitOnChar ',' params).map strip
    if parts.length < 4 then .ok updated
    else
      match intFloatVE (parts.getD 3 []) with
      | .error e => .error e
      | .ok none => .ok updated
      | .ok (some profile) =>
        let parts' := parts.set 3 (renumberLabel (intToStr profile) new_part_number)
        subCall hkostPat
          (hkostPat ++ List.intercalate [','] parts' ++ [')']) updated

/-- `_insert_extra_contours` of `server/app/extract.py`. -/
def insertExtraContours (part_lines : List Str)
    (extra_blocks : List (List Str)) : List Str :=
  match findFrom (fun l => hasSub (upper l) hkpedSub) part_lines 0 with
  | none => part_lines
  | some hkpedIdx =>
    let labels := part_lines.filterMap (fun l => (stripLabel l).1)
    let nextLabel := (if labels.isEmpty then 0 else labels.foldl max 0) + 1
    let ins := extra_blocks.foldl
      (fun (st : List Str × Nat) block =>
        block.foldl
          (fun (st : List Str × Nat) line =>
            (st.1 ++ [rstrip ('N' :: (natToStr st.2 ++ ' ' :: (stripLabel line).2))],
              st.2 + 1))
          st)
      ([], nextLabel)
    let hkpedContent := (stripLabel (part_lines.getD hkpedIdx [])).2
    part_lines.take hkpedIdx ++ ins.1 ++
      [rstrip ('N' :: (natToStr ins.2 ++ ' ' :: hkpedContent))] ++
      part_lines.drop (hkpedIdx + 1)

/-- `_translate_hkstr` of `server/app/extract.py`. -/
def translateHkstr (line : Str) (dx dy : ℚ) : Except PyErr Str :=
  match searchCall hkstrPat line with
  | none => .ok line
  | some params =>
    let parts := (splitOnChar ',' params).map strip
    let parts := if 4 ≤ parts.length then
      (parts.set 2 (fmtShift (parts.getD 2 []) dx)).set 3
        (fmtShift (parts.getD 3 []) dy)
      else parts
    let parts := if 7 ≤ parts.length then
      (parts.set 5 (fmtShift (parts.getD 5 []) dx)).set 6
        (fmtShift (parts.getD 6 []) dy)
      else parts
    subCall hkstrPat (hkstrPat ++ List.intercalate [','] parts ++ [')']) line

/-- `_translate_block_line` of `server/app/extract.py`.  (Defined by the
source but never called by it: the borrowed-contour splice does not
translate coordinates.)  The coordinate branch uses a callback replacement,
which `re.sub` does not template-process; its texts come from the
finite-only `COORD_PATTERN` shape. -/
def translateBlockLine (line : Str) (dx dy : ℚ) : Except PyErr Str :=
  if (searchCall hkstrPat line).isSome then translateHkstr line dx dy
  else
    .ok (coordSub
      (fun axis txt =>
        match parseFloatFinite txt with
        | none => axis :: txt
        | some v => axis :: ratFixed 4 (v - (if axis = 'X' then dx else dy)))
      line)

/-- `_translate_hkini` of `server/app/extract.py`: the replacement template
splices the original parameter texts back in, so a backslash escape inside a
parameter makes `HKINI_PATTERN.sub` raise (see `subCall`), a crash
`extract_part_program` does not catch. -/
def translateHkini (line : Str) (width height : ℚ) : Except PyErr Str :=
  match searchCall hkiniPat line with
  | none => .ok line
  | some params =>
    let parts := (splitOnChar ',' params).map strip
    if parts.length < 3 then
      subCall hkiniPat (hkiniPat ++ List.intercalate [','] parts ++ [')']) line
    else
      let parts := (parts.set 1 (formatFloat width)).set 2 (formatFloat height)
      subCall hkiniPat (hkiniPat ++ List.intercalate [','] parts ++ [')']) line

/-- `PartExtractionResult` of `server/app/extract.py`. -/
structure PartExtractionResult where
  lines : List Str
  width : ℚ
  height : ℚ
  deriving Repr, DecidableEq

/-- The line list `extract_part_program` works on:
`[line.rstrip() for line in content.splitlines() if line.strip()]`. -/
def extractLines (content : Str) : List Str :=
  (pySplitlines content).filterMap
    (fun l => if (strip l).isEmpty then none else some (rstrip l))

/-- Left-to-right effectful map over `Except`, as a Python list
comprehension evaluates: the first raised exception propagates. -/
def exceptMapList (f : Str → Except PyErr Str) : List Str → Except PyErr (List Str)
  | [] => .ok []
  | a :: t =>
    match f a with
    | .error e => .error e
    | .ok b =>
      match exceptMapList f t with
      | .error e => .error e
      | .ok bs => .ok (b :: bs)

/-- `extract_part_program` of `server/app/extract.py`; raised `ValueError`s
are `Except.error (.valueError _)` (message texts abridged), and the two
uncaught crash paths — `OverflowError` from `_extract_profile_line` and the
template errors from `_translate_hkini` — propagate as the other `PyErr`
kinds. -/
def extractPartProgram (content : Str) (part_label : Int) (margin : ℚ)
    (extra_contours : List (Int × Int)) : Except PyErr PartExtractionResult :=
  let lines := extractLines content
  let labelToIndex := indexLabels lines
  match dictLookup part_label labelToIndex with
  | none => .error (.valueError ("Part label not found.".toList))
  | some hkostIdx =>
    let hkostLine := lines.getD hkostIdx []
    match extractProfileLine hkostLine with
    | .error e => .error e
    | .ok none => .error (.valueError ("HKOST line missing profile reference.".toList))
    | .ok (some profileLine) =>
      match dictLookup profileLine labelToIndex with
      | none => .error (.valueError ("Profile line not found for part.".toList))
      | some blockStart =>
        match findBlockEnd lines blockStart with
        | none => .error (.valueError ("Unable to find HKPED terminator for part.".toList))
        | some blockEnd =>
          let partLines := (lines.drop blockStart).take (blockEnd + 1 - blockStart)
          let partLines :=
            if extra_contours.isEmpty then partLines
            else
              let extraBlocks := (extra_contours.map
                (fun pc => Srv.extractPartContourBlock lines pc.1 pc.2)).filter
                (fun b => ¬ b.isEmpty)
              if extraBlocks.isEmpty then partLines
              else insertExtraContours partLines extraBlocks
          let trailerLines := (collectUntilHkppp lines hkostIdx).1
          let b := boundsForBlock partLines
          let width := (b.2.2.1 - b.1) + margin
          let height := (b.2.2.2 - b.2.1) + margin
          let output := headerLines lines ++ [hkostLine] ++ trailerLines ++
            partLines ++ footerLines lines true
          match exceptMapList
              (fun l => translateHkini l (width + 1) (height + 1)) output with
          | .error e => .error e
          | .ok outLines =>
            .ok { lines := outLines, width := width, height := height }

/-- `extract_part_profile_program` of `server/app/extract.py`. -/
def extractPartProfileProgram (content : Str) (part_line : Int) (margin : ℚ) :
    Except PyErr PartExtractionResult :=
  let lines := extractLines content
  let labelToIndex := indexLabels lines
  match dictLookup part_line labelToIndex with
  | none => .error (.valueError ("Part line not found.".toList))
  | some hkostIdx =>
    let hkostLine := lines.getD hkostIdx []
    match extractProfileLine hkostLine with
    | .error e => .error e
    | .ok none => .error (.valueError ("HKOST line missing profile reference.".toList))
    | .ok (some profileLine) =>
      match dictLookup profileLine labelToIndex with
      | none => .error (.valueError ("Profile line not found for part.".toList))
      | some blockStart =>
        match findBlockEnd lines blockStart with
        | none => .error (.valueError ("Unable to find HKPED terminator for part.".toList))
        | some blockEnd =>
          let partLines := (lines.drop blockStart).take (blockEnd + 1 - blockStart)
          let trailerLines := (collectUntilHkppp lines hkostIdx).1
          let b := boundsForBlock partLines
          let width := (b.2.2.1 - b.1) + margin
          let height := (b.2.2.2 - b.2.1) + margin
          .ok { lines := [hkostLine] ++ partLines ++ trailerLines,
                width := width, height := height }

/-- The visiting order `build_reordered_program` computes: the requested
order restricted to known part numbers, then the parts missing from the
request, in their original relative order. -/
def orderedPartNumbers (parts : List Srv.PartSummary) (order : List Nat) :
    List Nat :=
  let partsByNumber := parts.foldl
    (fun d p => dictInsert p.part_number p d) []
  let requested := order.filter
    (fun n => (dictLookup n partsByNumber).isSome)
  let missing := (parts.map (·.part_number)).filter (fun n => n ∉ requested)
  requested ++ missing

/-- The renumbering map `build_reordered_program` computes:
`{part_number: idx + 1 for idx, part_number in enumerate(ordered_parts)}`. -/
def newPartNumbers (parts : List Srv.PartSummary) (order : List Nat) :
    List (Nat × Nat) :=
  (orderedPartNumbers parts order).enum.foldl
    (fun d p => dictInsert p.2 (p.1 + 1) d) []

/-- `build_reordered_program` of `server/app/extract.py`; the
`_renumber_hkost_line` crash paths propagate out of the first loop in
document-visit order. -/
def buildReorderedProgram (lines : List Str) (parts : List Srv.PartSummary)
    (order : List Nat) : Except PyErr (List Str) :=
  if parts.isEmpty then .ok lines
  else
    let partsByNumber := parts.foldl
      (fun d p => dictInsert p.part_number p d) []
    let orderedParts := orderedPartNumbers parts order
    let newNumbers := newPartNumbers parts order
    match orderedParts.foldlM
      (fun acc n =>
        (match dictLookup n partsByNumber, dictLookup n newNumbers with
        | some part, some newNum =>
          if part.hkost_line = 0 ∨ lines.length < part.hkost_line then .ok acc
          else
            let hkostIndex := part.hkost_line - 1
            match renumberHkostLine (lines.getD hkostIndex []) newNum with
            | .error e => .error e
            | .ok renumbered =>
              .ok (acc ++ [renumbered] ++
                renumberBlockLines ((collectUntilHkppp lines hkostIndex).1)
                  newNum)
        | _, _ => .ok acc : Except PyErr (List Str)))
      [] with
    | .error e => .error e
    | .ok headTail =>
      let headOut := headerLines lines ++ headTail
      let withFooter := headOut ++ footerLines lines true
      let appended := orderedParts.foldl
        (fun (st : List Str × Bool) n =>
          match dictLookup n partsByNumber, dictLookup n newNumbers with
          | some part, some newNum =>
            let contourBlock := Srv.extractPartBlock lines (part.part_line : Int)
            if contourBlock.isEmpty then st
            else
              let out := st.1
              let out := if ¬ out.isEmpty ∧ ¬ (strip (out.getLastD [])).isEmpty
                then out ++ [[]] else out
              (out ++ renumberBlockLines contourBlock newNum ++ [[]], true)
          | _, _ => st)
        (withFooter, false)
      let output :=
        if appended.2 ∧ ¬ appended.1.isEmpty ∧ appended.1.getLastD [] = []
        then appended.1.dropLast else appended.1
      .ok (collapseBlankLines output)

end GC.Ext

namespace GC

/-- Sequential relabelling with fresh labels: what the
`_insert_extra_contours` loop does to the borrowed block lines, keeping each
line's label-stripped content verbatim. -/
def relabelFrom (start : Nat) : List Str → List Str
  | [] => []
  | l :: t =>
    rstrip ('N' :: (natToStr start ++ ' ' :: (Ext.stripLabel l).2)) ::
      relabelFrom (start + 1) t

end GC

namespace GC.HKG

/-! Embedding of `parser/hk_gcode_parser.py`. -/

/-- `ParameterValue`: a positional argument is a number or a piece of text
(Python `float`/`int` collapse into `ℚ`; `int` is the integer-valued case). -/
inductive PVal where
  | num (q : ℚ)
  | txt (s : Str)
  deriving Repr, DecidableEq

/-- `Command` of `parser/hk_gcode_parser.py`.  `parameters` is the insertion
ordered dict; a `some []` payload models Python's empty-but-not-`None`
string. -/
structure Command where
  code : Str
  parameters : List (Char × ℚ) := []
  args : List PVal := []
  payload : Option Str := none
  comment : Option Str := none
  block_number : Option Nat := none
  line_number : Option Nat := none
  raw : Option Str := none
  deriving Repr, DecidableEq

/-- `ParseError` of `parser/hk_gcode_parser.py` (the unused `column` field is
omitted). -/
structure ParseErr where
  message : Str
  line_number : Option Nat := none
  line_text : Option Str := none
  deriving Repr, DecidableEq

/-- `Program`: `metadata` is flattened into its two always-present keys. -/
structure Program where
  commands : List Command := []
  comments : List Str := []
  unparsed : List Str := []
  errors : List ParseErr := []
  deriving Repr, DecidableEq

/-- Truthiness of an optional string (Python `None` and `""` are falsy). -/
def optTruthy (s : Option Str) : Bool :=
  match s with
  | none => false
  | some t => ¬ t.isEmpty

/-- `DEFAULT_TOLERANCE`. -/
def tol : ℚ := 1 / 10000

/-- `_normalize_value`: snap a value within `1e-4` of an integer. -/
def normalizeValue (v : ℚ) : ℚ :=
  let nearest : Int := round v
  if |v - nearest| < tol then (nearest : ℚ) else v

/-- `HK_COMMAND_SPECS`: required named parameters per command code. -/
def hkSpecs (code : Str) : Option (List Char) :=
  if code = "G0".toList then some []
  else if code = "G1".toList then some []
  else if code = "M3".toList then some ['S']
  else if code = "M5".toList then some []
  else if code = "VS".toList then some ['P']
  else if code = "VE".toList then some ['P']
  else if code = "FM".toList then some []
  else if code = "BP".toList then some ['P']
  else if code = "RD".toList then some ['P']
  else none

/-- `COMMAND_PATTERN` (`^[A-Z]+[0-9]*[A-Z]?$`) as a full-string test. -/
def commandShape (s : Str) : Bool :=
  let t₁ := s.dropWhile Char.isUpper
  let t₂ := t₁.dropWhile Char.isDigit
  1 ≤ (s.takeWhile Char.isUpper).length &&
    match t₂ with
    | [] => true
    | [c] => c.isUpper
    | _ => false

/-- The value part of `PARAM_PATTERN`
(`[-+]?(?:\d+(?:\.\d*)?|\.\d+)(?:[eE][-+]?\d+)?$`) as a full-string test. -/
def expShape (s : Str) : Bool :=
  match s with
  | [] => true
  | e :: r =>
    (e = 'e' ∨ e = 'E') &&
      (let r₁ := match r with
        | c :: r' => if c = '-' ∨ c = '+' then r' else r
        | [] => r
       let d := r₁.takeWhile Char.isDigit
       ¬ d.isEmpty && (r₁.drop d.length).isEmpty)

def floatShape (s : Str) : Bool :=
  let s₁ := match s with
    | c :: r => if c = '-' ∨ c = '+' then r else s
    | [] => s
  let d₁ := s₁.takeWhile Char.isDigit
  let r₁ := s₁.drop d₁.length
  if d₁.isEmpty then
    match r₁ with
    | c :: r₂ =>
      if c = '.' then
        let d₂ := r₂.takeWhile Char.isDigit
        ¬ d₂.isEmpty && expShape (r₂.drop d₂.length)
      else false
    | [] => false
  else
    match r₁ with
    | c :: r₂ =>
      if c = '.' then
        let d₂ := r₂.takeWhile Char.isDigit
        expShape (r₂.drop d₂.length)
      else expShape r₁
    | [] => expShape r₁

/-- `PARAM_PATTERN` matching on one word token: uppercase name letter plus a
numeric value text. -/
def matchParamToken (tok : Str) : Option (Char × Str) :=
  match tok with
  | c :: rest => if c.isUpper ∧ floatShape rest then some (c, rest) else none
  | [] => none

/-- `_strip_comments`: `(content, trailing ;-comment, parenthetical comment)`,
or the "Unclosed parenthetical comment" error. -/
def stripComments (line : Str) (line_number : Nat) :
    Except ParseErr (Str × Option Str × Option Str) :=
  let sc : Str × Option Str :=
    match splitFirst ';' line with
    | some (c, t) =>
      (rstrip c, let ts := strip t; if ts.isEmpty then none else some ts)
    | none => (line, none)
  let content := sc.1
  let strippedContent := strip content
  let parenIndex := findSub content ['(']
  let isComment : Bool :=
    startsWith strippedContent ['('] ||
      (match parenIndex with
        | some i => decide (0 < i) && pySpace (content.getD (i - 1) ' ')
        | none => false)
  if isComment then
    match parenIndex with
    | none => .ok (content, sc.2, none)
    | some start =>
      match findSub (content.drop (start + 1)) [')'] with
      | none =>
        .error { message := "Unclosed parenthetical comment".toList,
                 line_number := some line_number, line_text := some line }
      | some endRel =>
        let endAbs := start + 1 + endRel
        let parenComment := strip ((content.take endAbs).drop (start + 1))
        let content' :=
          strip (content.take start ++ ' ' :: content.drop (endAbs + 1))
        .ok (content', sc.2,
          if parenComment.isEmpty then none else some parenComment)
  else .ok (content, sc.2, none)

/-- `_combine_comments`. -/
def combineComments (a b : Option Str) : Option Str :=
  match (if optTruthy a then [a.getD []] else []) ++
        (if optTruthy b then [b.getD []] else []) with
  | [] => none
  | l => some (List.intercalate " | ".toList l)

/-- `_extract_block_number` (`\s*N(?P<num>\d+)\s*(?P<rest>.*)`, uppercase `N`
only). -/
def extractBlockNumber (content : Str) : Option Nat × Option Str :=
  let fallback : Option Nat × Option Str :=
    (none, let s := strip content; if s.isEmpty then none else some s)
  match content.dropWhile pySpace with
  | c :: rest =>
    if c = 'N' then
      let d := rest.takeWhile Char.isDigit
      if d.isEmpty then fallback
      else
        let r := strip ((rest.drop d.length).dropWhile pySpace)
        (some (digitsToNat d), if r.isEmpty then none else some r)
    else fallback
  | [] => fallback

/-- `(?P<code>[A-Za-z][A-Za-z0-9]*)\s*(?P<rest>.*)` on the post-label
remainder, with the `rest.strip()` the caller applies. -/
def matchCode (remainder : Str) : Option (Str × Str) :=
  match remainder with
  | c :: rest =>
    if c.isAlpha then
      let run := rest.takeWhile Char.isAlphanum
      some (c :: run, strip (rest.drop run.length))
    else none
  | [] => none

/-- `_split_parenthetical`: inner text and trailing remainder, `none` when no
balanced `)` closes the first parenthetical. -/
def splitParenGo : Int → Str → Str → Option (Str × Str)
  | _, _, [] => none
  | depth, seen, c :: more =>
    if c = '(' then splitParenGo (depth + 1) (seen ++ [c]) more
    else if c = ')' then
      if depth - 1 = 0 then some (seen.drop 1, more)
      else splitParenGo (depth - 1) (seen ++ [c]) more
    else splitParenGo depth (seen ++ [c]) more

def splitParenthetical (rest : Str) : Option (Str × Str) :=
  splitParenGo 0 [] rest

/-- `_convert_argument` without the location data (`Except Unit` is the
"Empty argument" `ParseError`).  A non-finite numeric argument
(`inf`/`nan`, accepted by `float`) drives `_normalize_value` into `round()`,
an `OverflowError`/`ValueError` crash that `parse_program`'s
`except ParseError` does not catch; the embedding keeps such text
unconverted, staying total — no claim below feeds a non-finite argument
through this path. -/
def convertArgument (text : Str) : Except Unit PVal :=
  if startsWith text ['"'] ∧ text.getLastD ' ' = '"' ∧ 2 ≤ text.length then
    .ok (.txt (text.drop 1).dropLast)
  else if text.isEmpty then .error ()
  else
    match parseFloatFinite text with
    | none => .ok (.txt text)
    | some numeric =>
      .ok (.num (normalizeValue numeric))

/-- `_parse_arguments` state machine: `inq` is the quoting flag, `buffer` the
current argument, `prev` the previously scanned character (for the `\"`
escape test). -/
def parseArgumentsGo (endsComma : Bool) :
    Bool → Str → Option Char → Str → Except Unit (List Str)
  | inq, buffer, _, [] =>
    if inq then .error ()
    else if ¬ buffer.isEmpty ∨ endsComma then .ok [buffer.reverse]
    else .ok []
  | inq, buffer, prev, c :: rest =>
    if c = '"' ∧ prev ≠ some '\\' then
      parseArgumentsGo endsComma (!inq) buffer (some c) rest
    else if c = ',' ∧ ¬ inq then
      (parseArgumentsGo endsComma inq [] (some c) rest).map
        (buffer.reverse :: ·)
    else parseArgumentsGo endsComma inq (c :: buffer) (some c) rest

/-- `_parse_arguments`. -/
def parseArguments (text : Str) (line_number : Nat) (raw : Str) :
    Except ParseErr (List PVal) :=
  match parseArgumentsGo (text.getLastD ' ' = ',') false [] none text with
  | .error _ =>
    .error { message := "Unterminated quoted argument".toList,
             line_number := some line_number, line_text := some raw }
  | .ok pieces =>
    pieces.foldlM
      (fun acc piece =>
        match convertArgument (strip piece) with
        | .error _ =>
          .error { message := "Empty argument".toList,
                   line_number := some line_number, line_text := some raw }
        | .ok v => .ok (acc ++ [v]))
      []

/-- `_parse_word_parameters`. -/
def parseWordParameters (tokens : List Str) (line_number : Nat) (raw : Str) :
    Except ParseErr (List (Char × ℚ)) :=
  match tokens with
  | [] =>
    .error { message := "Empty command segment".toList,
             line_number := some line_number, line_text := some raw }
  | code₀ :: rest =>
    let code := upper code₀
    if ¬ commandShape code then
      .error { message := ("Invalid command '".toList ++ code ++ ['\'']),
               line_number := some line_number, line_text := some raw }
    else
      rest.foldlM
        (fun params token =>
          match matchParamToken token with
          | none =>
            .error { message := ("Malformed parameter '".toList ++ token ++ ['\'']),
                     line_number := some line_number, line_text := some raw }
          | some (name, valueText) =>
            match parseFloat valueText with
            | some (PyFloat.finite value) =>
              .ok (dictInsert name (normalizeValue value) params)
            | _ =>
              .error { message := ("Invalid numeric value in '".toList ++ token ++ ['\'']),
                       line_number := some line_number, line_text := some raw })
        []

/-- `_parse_line_content`. -/
def parseLineContent (content : Str) (line_number : Nat)
    (comment : Option Str) (raw : Str) : Except ParseErr Command :=
  let bn := extractBlockNumber content
  match bn.2 with
  | none =>
    .ok { code := "BLOCK".toList, block_number := bn.1, comment := comment,
          line_number := some line_number, raw := some raw }
  | some remainder =>
    match matchCode remainder with
    | none =>
      .error { message := "Unable to identify command code".toList,
               line_number := some line_number, line_text := some raw }
    | some (code₀, rest) =>
      let code := upper code₀
      if code = "WHEN".toList ∧ ¬ rest.isEmpty then
        .ok { code := code, payload := some rest, block_number := bn.1,
              comment := comment, line_number := some line_number,
              raw := some raw }
      else if startsWith rest ['('] then
        match splitParenthetical rest with
        | none =>
          .error { message := "Unclosed parenthetical command".toList,
                   line_number := some line_number, line_text := some raw }
        | some (argsText, trailing) =>
          (parseArguments argsText line_number raw).map fun args =>
            { code := code, args := args,
              payload := if trailing.isEmpty then none
                else some (strip trailing),
              block_number := bn.1, comment := comment,
              line_number := some line_number, raw := some raw }
      else if rest.isEmpty then
        .ok { code := code, block_number := bn.1, comment := comment,
              line_number := some line_number, raw := some raw }
      else
        (parseWordParameters ([code] ++ splitWs rest) line_number raw).map
          fun params =>
            { code := code, parameters := params, block_number := bn.1,
              comment := comment, line_number := some line_number,
              raw := some raw }

/-- `_validate_required_parameters`. -/
def validateRequired (c : Command) : Except ParseErr Unit :=
  let required := (hkSpecs c.code).getD []
  let missing := required.filter (fun n => (dictLookup n c.parameters).isNone)
  if missing.isEmpty then .ok ()
  else
    let msg := "Missing required parameter(s) ".toList ++
      List.intercalate ", ".toList
        ((missing.mergeSort (fun a b => a ≤ b)).map (fun ch => [ch])) ++
      " for ".toList ++ c.code
    .error { message := msg,
             line_number := c.line_number, line_text := c.raw }

/-- `str(int(v))` for an integer-valued rational. -/
def isIntQ (q : ℚ) : Bool := q.den = 1

/-- `_format_number`. -/
def formatNumber (v : ℚ) : Str :=
  let normalized := normalizeValue v
  if isIntQ normalized then intToStr (pyTrunc normalized)
  else
    let text := rstripChar '.' (rstripChar '0' (ratFixed 6 normalized))
    if text.isEmpty then ['0'] else text

/-- `_format_value`. -/
def formatValue (v : PVal) : Str :=
  match v with
  | .txt s => '"' :: (s ++ ['"'])
  | .num q => formatNumber q

/-- `Command.to_line`. -/
def toLine (c : Command) : Str :=
  if c.code = "BLOCK".toList ∧ c.block_number.isSome ∧
      c.parameters.isEmpty ∧ c.args.isEmpty ∧ ¬ optTruthy c.payload then
    let line := 'N' :: natToStr (c.block_number.getD 0)
    if optTruthy c.comment then
      line ++ " ; ".toList ++ c.comment.getD []
    else line
  else
    let pre : Str := match c.block_number with
      | some n => 'N' :: (natToStr n ++ [' '])
      | none => []
    let base : Str :=
      if ¬ c.args.isEmpty then
        c.code ++ '(' :: (List.intercalate [','] (c.args.map formatValue) ++ [')'])
      else if ¬ c.parameters.isEmpty then
        rstrip (c.code ++ ' ' :: List.intercalate [' ']
          ((c.parameters.mergeSort (fun a b => a.1 ≤ b.1)).map
            (fun p => p.1 :: formatNumber p.2)))
      else c.code
    let base :=
      if optTruthy c.payload then rstrip (base ++ ' ' :: c.payload.getD [])
      else base
    let line := pre ++ base
    if optTruthy c.comment then
      line ++ " ; ".toList ++ c.comment.getD []
    else line

/-- Fill an error's location the way `parse_program`'s handlers do
(`error.line_number = error.line_number or idx`; the sources never store a
falsy `0` line number or an empty `line_text`). -/
def fillError (e : ParseErr) (idx : Nat) (rawLine : Str) : ParseErr :=
  { e with line_number := some (e.line_number.getD idx),
           line_text := some (e.line_text.getD rawLine) }

/-- Python `line.rstrip("\r\n")`. -/
def rstripCRLF (s : Str) : Str :=
  (s.reverse.dropWhile (fun c => c = '\r' ∨ c = '\n')).reverse

/-- One loop iteration of `parse_program` on line `idx` (1-based). -/
def parseStep (prog : Program) (idx : Nat) (line : Str) : Program :=
  let rawLine := rstripCRLF line
  match stripComments rawLine idx with
  | .error e =>
    { prog with errors := prog.errors ++ [fillError e idx rawLine],
                unparsed := prog.unparsed ++ [rawLine] }
  | .ok (stripped, trailingComment, parenComment) =>
    let combined := combineComments trailingComment parenComment
    if (strip stripped).isEmpty then
      match combined with
      | some cm => { prog with comments := prog.comments ++ [cm] }
      | none => prog
    else
      let result : Except ParseErr Command := do
        let command ← parseLineContent stripped idx combined rawLine
        if ¬ command.parameters.isEmpty ∨ (hkSpecs command.code).isSome then
          validateRequired command
        return command
      match result with
      | .ok command => { prog with commands := prog.commands ++ [command] }
      | .error e =>
        { prog with errors := prog.errors ++ [fillError e idx rawLine],
                    unparsed := prog.unparsed ++ [rawLine] }

/-- `parse_program`. -/
def parseProgram (source : Str) : Program :=
  (pySplitlines source).enum.foldl
    (fun prog p => parseStep prog (p.1 + 1) p.2) {}

end GC.HKG

namespace GC.Web

/-! Embedding of the extra-contour helpers of `server/app/main.py`. -/

def MAX_EXTRA_CONTOURS : Nat := 5
noncomputable def CONTOUR_CLOSE_EPSILON : ℝ := 1 / 1000
noncomputable def COMMON_NEIGHBOR_DISTANCE_TOLERANCE : ℝ := 1 / 10

/-- `ExtraContourRef` of `server/app/main.py`. -/
structure ExtraContourRef where
  part_number : Nat
  part_line : Nat
  contour_index : Nat
  deriving Repr, DecidableEq

/-- `_parse_hkstr_start_xy` of `server/app/main.py`.  Non-finite
coordinates (which Python's `float` would return) are treated as
unparsable: the points feed the rational geometry only, and no claim
touches non-finite contour points. -/
def parseHkstrStartXY (line : Str) : Option (ℚ × ℚ) :=
  match searchCall hkstrPat line with
  | none => none
  | some params =>
    let args := (splitOnChar ',' params).map strip
    if args.length < 4 then none
    else
      match parseFloatFinite (args.getD 2 []), parseFloatFinite (args.getD 3 []) with
      | some x, some y => some (x, y)
      | _, _ => none

/-- `_extract_axis_value` of `server/app/main.py`
(`{axis}\s*([-+]?\d*\.?\d+)` with `IGNORECASE`); the matched text has the
finite-only regex shape, so the finite restriction of `float` is exact. -/
def extractAxisValue (axis : Char) : Str → Option ℚ
  | [] => none
  | c :: rest =>
    if c.toUpper = axis then
      match Ext.matchCoordNum (rest.dropWhile pySpace) with
      | some (txt, _) => parseFloatFinite txt
      | none => extractAxisValue axis rest
    else extractAxisValue axis rest

/-- `_build_contour_points_from_block` of `server/app/main.py`. -/
def buildPointsStep (st : List (ℚ × ℚ) × Option ℚ × Option ℚ) (rawLine : Str) :
    List (ℚ × ℚ) × Option ℚ × Option ℚ :=
  let line := strip rawLine
  if line.isEmpty then st
  else if hasSub (upper line) hkstrPat then
    match parseHkstrStartXY line with
    | some xy => (st.1 ++ [xy], some xy.1, some xy.2)
    | none => st
  else if ¬ startsWith (upper line) ['G'] then st
  else
    let maybeX := extractAxisValue 'X' line
    let maybeY := extractAxisValue 'Y' line
    if maybeX.isNone ∧ maybeY.isNone then st
    else
      let cx := match maybeX with | some v => some v | none => st.2.1
      let cy := match maybeY with | some v => some v | none => st.2.2
      match cx, cy with
      | some x, some y => (st.1 ++ [(x, y)], cx, cy)
      | _, _ => (st.1, cx, cy)

def buildContourPointsFromBlock (block : List Str) : List (ℚ × ℚ) :=
  (block.foldl buildPointsStep ([], none, none)).1

/-- `_contour_segments` of `server/app/main.py`. -/
def contourSegments (contour : List (ℚ × ℚ)) :
    List ((ℚ × ℚ) × (ℚ × ℚ)) :=
  contour.zip contour.tail

/-- `_contour_is_closed` of `server/app/main.py` (`** 0.5` is the real square
root of the non-negative squared distance). -/
noncomputable def contourIsClosed (contour : List (ℚ × ℚ)) : Bool :=
  if contour.length < 2 then false
  else
    let first := contour.headD (0, 0)
    let last := contour.getLastD (0, 0)
    decide (Real.sqrt (((first.1 - last.1) ^ 2 + (first.2 - last.2) ^ 2 : ℚ) : ℝ)
      ≤ CONTOUR_CLOSE_EPSILON)

/-- `_point_to_segment_distance` of `server/app/main.py`. -/
noncomputable def pointToSegmentDistance (point start stop : ℚ × ℚ) : ℝ :=
  let dx := stop.1 - start.1
  let dy := stop.2 - start.2
  if dx = 0 ∧ dy = 0 then
    Real.sqrt (((point.1 - start.1) ^ 2 + (point.2 - start.2) ^ 2 : ℚ) : ℝ)
  else
    let t : ℚ := ((point.1 - start.1) * dx + (point.2 - start.2) * dy) /
      (dx * dx + dy * dy)
    let t := max 0 (min 1 t)
    let projX := start.1 + t * dx
    let projY := start.2 + t * dy
    Real.sqrt (((point.1 - projX) ^ 2 + (point.2 - projY) ^ 2 : ℚ) : ℝ)

/-- `_segment_to_segment_distance` of `server/app/main.py`. -/
noncomputable def segmentToSegmentDistance (p1 p2 q1 q2 : ℚ × ℚ) : ℝ :=
  min (min (pointToSegmentDistance p1 q1 q2) (pointToSegmentDistance p2 q1 q2))
    (min (pointToSegmentDistance q1 p1 p2) (pointToSegmentDistance q2 p1 p2))

/-- `_contour_is_common_neighbor` of `server/app/main.py`. -/
noncomputable def contourIsCommonNeighbor (contour : List (ℚ × ℚ))
    (targetBoundarySegments : List ((ℚ × ℚ) × (ℚ × ℚ))) : Bool :=
  if contour.length < 2 then false
  else
    let segs := contourSegments contour
    if segs.isEmpty then false
    else
      segs.any (fun s => targetBoundarySegments.any (fun b =>
        decide (segmentToSegmentDistance s.1 s.2 b.1 b.2 ≤
          COMMON_NEIGHBOR_DISTANCE_TOLERANCE)))

/-- `_build_absolute_part_contours` of `server/app/main.py`. -/
def buildAbsolutePartContours (parts : List Srv.PartSummary)
    (rawLines : List Str) : List (Nat × List (List (ℚ × ℚ))) :=
  parts.foldl
    (fun acc part =>
      let anchorX := part.anchor_x.getD 0
      let anchorY := part.anchor_y.getD 0
      let absoluteContours := (List.range' 1 part.contours).foldl
        (fun cs ci =>
          let block := Srv.extractPartContourBlock rawLines
            (part.part_line : Int) (ci : Int)
          let localPoints := buildContourPointsFromBlock block
          if localPoints.isEmpty then cs
          else cs ++ [localPoints.map
            (fun p => (p.1 + anchorX, p.2 + anchorY))])
        []
      dictInsert part.part_number absoluteContours acc)
    []

/-- Inner candidate-contour loop of `_detect_common_neighbor_contours`;
returns the accumulated refs and whether the cap was hit (early `return`). -/
noncomputable def detectInner (candidate : Srv.PartSummary)
    (boundary : List ((ℚ × ℚ) × (ℚ × ℚ))) :
    List (List (ℚ × ℚ)) → Nat → List ExtraContourRef →
      List ExtraContourRef × Bool
  | [], _, acc => (acc, false)
  | contour :: rest, ci, acc =>
    if contourIsClosed contour then detectInner candidate boundary rest (ci + 1) acc
    else if ¬ contourIsCommonNeighbor contour boundary then
      detectInner candidate boundary rest (ci + 1) acc
    else
      let acc' := acc ++
        [{ part_number := candidate.part_number,
           part_line := candidate.part_line, contour_index := ci }]
      if MAX_EXTRA_CONTOURS ≤ acc'.length then (acc', true)
      else detectInner candidate boundary rest (ci + 1) acc'

noncomputable def detectOuter (targetNumber : Nat)
    (absolute : List (Nat × List (List (ℚ × ℚ))))
    (boundary : List ((ℚ × ℚ) × (ℚ × ℚ))) :
    List Srv.PartSummary → List ExtraContourRef → List ExtraContourRef
  | [], acc => acc
  | candidate :: rest, acc =>
    if candidate.part_number = targetNumber then
      detectOuter targetNumber absolute boundary rest acc
    else
      let contours := (dictLookup candidate.part_number absolute).getD []
      let r := detectInner candidate boundary contours 1 acc
      if r.2 then r.1
      else detectOuter targetNumber absolute boundary rest r.1

/-- `_detect_common_neighbor_contours` of `server/app/main.py`. -/
noncomputable def detectCommonNeighborContours (parts : List Srv.PartSummary)
    (rawLines : List Str) (target : Srv.PartSummary) : List ExtraContourRef :=
  let absolute := buildAbsolutePartContours parts rawLines
  let targetContours := (dictLookup target.part_number absolute).getD []
  let boundary :=
    ((targetContours.filter (fun c => contourIsClosed c)).map
      contourSegments).flatten
  if boundary.isEmpty then []
  else
    detectOuter target.part_number absolute boundary
      (parts.mergeSort (fun a b => a.part_number ≤ b.part_number)) []

/-- The `^(?P<part>\d+)\s*\.\s*(?P<contour>\d+)$` token match of
`_parse_extra_contours`. -/
def refTokenMatch (tok : Str) : Option (Nat × Nat) :=
  let d₁ := tok.takeWhile Char.isDigit
  if d₁.isEmpty then none
  else
    match (tok.drop d₁.length).dropWhile pySpace with
    | '.' :: r₂ =>
      let r₃ := r₂.dropWhile pySpace
      let d₂ := r₃.takeWhile Char.isDigit
      if d₂.isEmpty ∨ ¬ (r₃.drop d₂.length).isEmpty then none
      else some (digitsToNat d₁, digitsToNat d₂)
    | _ => none

def parseExtraGo (parts : List Srv.PartSummary) :
    List Str → List ExtraContourRef → List ExtraContourRef
  | [], refs => refs
  | tok :: rest, refs =>
    match refTokenMatch tok with
    | none => parseExtraGo parts rest refs
    | some (partNumber, contourIndex) =>
      match parts.find? (fun p => p.part_number = partNumber) with
      | none => parseExtraGo parts rest refs
      | some part =>
        if contourIndex < 1 ∨ part.contours < contourIndex then
          parseExtraGo parts rest refs
        else
          let refs' := refs ++
            [{ part_number := partNumber,
               part_line := part.part_line, contour_index := contourIndex }]
          if MAX_EXTRA_CONTOURS ≤ refs'.length then refs'
          else parseExtraGo parts rest refs'

/-- `_parse_extra_contours` of `server/app/main.py`. -/
def parseExtraContours (raw : Option Str) (parts : List Srv.PartSummary) :
    List ExtraContourRef :=
  match raw with
  | none => []
  | some r =>
    if r.isEmpty then []
    else
      let tokens := ((splitOnChar ',' r).map strip).filter
        (fun t => ¬ t.isEmpty)
      if tokens.isEmpty then [] else parseExtraGo parts tokens []

/-- The merge loop of `_resolve_extra_contours`: skip keys already seen,
stop at the cap. -/
def mergeRefsGo : List ExtraContourRef → List (Nat × Nat) →
    List ExtraContourRef → List ExtraContourRef
  | [], _, merged => merged
  | r :: rest, seen, merged =>
    if (r.part_number, r.contour_index) ∈ seen then mergeRefsGo rest seen merged
    else
      let merged' := merged ++ [r]
      if MAX_EXTRA_CONTOURS ≤ merged'.length then merged'
      else mergeRefsGo rest ((r.part_number, r.contour_index) :: seen) merged'

/-- First-occurrence-wins deduplication by `(part_number, contour_index)`:
the uncapped specification of the merge loop. -/
def dedupKeys (seen : List (Nat × Nat)) :
    List ExtraContourRef → List ExtraContourRef
  | [] => []
  | r :: rest =>
    if (r.part_number, r.contour_index) ∈ seen then dedupKeys seen rest
    else r :: dedupKeys ((r.part_number, r.contour_index) :: seen) rest

/-- `_resolve_extra_contours` of `server/app/main.py`. -/
noncomputable def resolveExtraContours (raw : Option Str)
    (parts : List Srv.PartSummary) (rawLines : List Str)
    (target : Srv.PartSummary) : List ExtraContourRef :=
  let explicitRefs := parseExtraContours raw parts
  let autoRefs := detectCommonNeighborContours parts rawLines target
  mergeRefsGo (explicitRefs ++ autoRefs) [] []

end GC.Web

namespace GC.Srv

/-! The arc interpolator of `server/app/parser.py` (`_interpolate_arc_points`),
over real numbers since it is trigonometric. -/

/-- Python `math.atan2` on real arguments (signed zeros do not arise in the
exact model). -/
noncomputable def pyAtan2 (y x : ℝ) : ℝ :=
  if 0 < x then Real.arctan (y / x)
  else if x < 0 then
    (if 0 ≤ y then Real.arctan (y / x) + Real.pi
     else Real.arctan (y / x) - Real.pi)
  else if 0 < y then Real.pi / 2
  else if y < 0 then -(Real.pi / 2)
  else 0

/-- `math.radians(10)`: the 10° segment angle. -/
noncomputable def segmentAngle : ℝ := Real.pi / 18

/-- The signed sweep `_interpolate_arc_points` computes after its direction
fix-up. -/
noncomputable def arcSweep (startX startY endX endY offI offJ : ℝ)
    (clockwise : Bool) : ℝ :=
  let centerX := startX + offI
  let centerY := startY + offJ
  let startAngle := pyAtan2 (startY - centerY) (startX - centerX)
  let endAngle := pyAtan2 (endY - centerY) (endX - centerX)
  let sweep := endAngle - startAngle
  if clockwise ∧ 0 ≤ sweep then sweep - 2 * Real.pi
  else if ¬ clockwise ∧ sweep ≤ 0 then sweep + 2 * Real.pi
  else sweep

/-- `segments = max(2, int(abs(sweep) / segment_angle))`. -/
noncomputable def arcSegmentCount (sweep : ℝ) : Nat :=
  max 2 (Int.toNat ⌊|sweep| / segmentAngle⌋)

/-- `_interpolate_arc_points` of `server/app/parser.py`. -/
noncomputable def interpolateArcPoints (startX startY : Option ℝ)
    (endX endY : ℝ) (offI offJ : Option ℝ) (clockwise : Bool) :
    List (ℝ × ℝ) :=
  match startX, startY, offI, offJ with
  | some sx, some sy, some oi, some oj =>
    let centerX := sx + oi
    let centerY := sy + oj
    let radius := Real.sqrt (oi ^ 2 + oj ^ 2)
    if radius = 0 then []
    else
      let startAngle := pyAtan2 (sy - centerY) (sx - centerX)
      let sweep := arcSweep sx sy endX endY oi oj clockwise
      let segments := arcSegmentCount sweep
      (List.range segments).map
        (fun step =>
          let angle := startAngle + sweep * ((step + 1 : Nat) : ℝ) / segments
          (centerX + radius * Real.cos angle,
            centerY + radius * Real.sin angle))
  | _, _, _, _ => []

end GC.Srv

/-! ## Theorems -/

namespace GC

theorem natDigitsRev_eq_digits (fuel n : Nat) (h : n ≤ fuel) :
    natDigitsRev fuel n = Nat.digits 10 n := by
  induction fuel generalizing n with
  | zero =>
    have : n = 0 := Nat.le_zero.mp h
    subst this
    simp [natDigitsRev]
  | succ f ih =>
    by_cases h0 : n = 0
    · simp [natDigitsRev, h0]
    · rw [natDigitsRev, if_neg h0,
        Nat.digits_def' (by norm_num : 1 < 10) (Nat.pos_of_ne_zero h0),
        ih (n / 10) ?_]
      have : n / 10 < n := Nat.div_lt_self (Nat.pos_of_ne_zero h0) (by norm_num)
      omega

theorem natToStr_of_pos {n : Nat} (h : 0 < n) :
    natToStr n = ((Nat.digits 10 n).map Nat.digitChar).reverse := by
  rw [natToStr, if_neg (Nat.pos_iff_ne_zero.mp h),
    natDigitsRev_eq_digits n n le_rfl]

theorem digitChar_toNat {d : Nat} (h : d < 10) :
    (Nat.digitChar d).toNat - 48 = d := by
  interval_cases d <;> rfl

theorem foldl_digitChar_reverse (l : List Nat) (hl : ∀ d ∈ l, d < 10)
    (acc : Nat) :
    ((l.reverse.map Nat.digitChar).foldl (fun a c => a * 10 + (c.toNat - 48))
      acc) = acc * 10 ^ l.length + Nat.ofDigits 10 l := by
  induction l generalizing acc with
  | nil => simp
  | cons d t ih =>
    have hd : d < 10 := hl d (List.mem_cons_self d t)
    have ht : ∀ x ∈ t, x < 10 := fun x hx => hl x (List.mem_cons_of_mem d hx)
    rw [List.reverse_cons, List.map_append, List.foldl_append, ih ht acc]
    simp only [List.map_cons, List.map_nil, List.foldl_cons, List.foldl_nil,
      Nat.ofDigits_cons, List.length_cons, digitChar_toNat hd]
    ring

theorem digits_div10 (m : Nat) :
    Nat.digits 10 (m / 10) = (Nat.digits 10 m).tail := by
  by_cases h : m = 0
  · simp [h]
  · rw [Nat.digits_def' (by norm_num : 1 < 10) (Nat.pos_of_ne_zero h)]
    rfl

theorem digits_div_pow (n j : Nat) :
    Nat.digits 10 (n / 10 ^ j) = (Nat.digits 10 n).drop j := by
  induction j generalizing n with
  | zero => simp
  | succ k ih =>
    have : n / 10 ^ (k + 1) = n / 10 ^ k / 10 := by
      rw [Nat.div_div_eq_div_mul, pow_succ]
    rw [this, digits_div10, ih, List.tail_drop]

theorem ofDigits_drop (n j : Nat) :
    Nat.ofDigits 10 ((Nat.digits 10 n).drop j) = n / 10 ^ j := by
  rw [← digits_div_pow, Nat.ofDigits_digits]

theorem digitsToNat_take_head {n k : Nat} (hn : 0 < n)
    (hk : k ≤ (Nat.digits 10 n).length) :
    digitsToNat ((natToStr n).take k) =
      n / 10 ^ ((Nat.digits 10 n).length - k) := by
  rw [natToStr_of_pos hn, digitsToNat, ← List.map_reverse, ← List.map_take,
    List.take_reverse]
  have hmem : ∀ d ∈ (Nat.digits 10 n).drop ((Nat.digits 10 n).length - k),
      d < 10 := by
    intro d hd
    exact Nat.digits_lt_base (by norm_num) (List.mem_of_mem_drop hd)
  rw [foldl_digitChar_reverse _ hmem 0, zero_mul, zero_add,
    ofDigits_drop]

theorem numDigits_eq_digits_len (n : Nat) (h : 0 < n) :
    numDigits n = (Nat.digits 10 n).length := by
  rw [numDigits, natToStr_of_pos h, List.length_reverse, List.length_map]

theorem natToStr_ne_nil (n : Nat) : natToStr n ≠ [] := by
  by_cases h : n = 0
  · simp [natToStr, h]
  · rw [natToStr_of_pos (Nat.pos_of_ne_zero h)]
    simp only [ne_eq, List.reverse_eq_nil_iff, List.map_eq_nil_iff]
    exact Nat.digits_ne_nil_iff_ne_zero.mpr h

end GC

open GC in
/-- C3. For a positive label with `N` decimal digits, the summarizer's
`_part_number_from_label` returns the integer value of the label's first
`min(4, max(1, N - 4))` digits (the value of the first `k` digits of an
`N`-digit number being its quotient by `10 ^ (N - k)`), and the extraction
engine's `_label_prefix_length` picks exactly that same prefix length. -/
theorem C3_part_number_prefix (label : Nat) (h : 0 < label) :
    Srv.partNumberFromLabel (label : Int) =
      label / 10 ^ (numDigits label - min 4 (max 1 (numDigits label - 4))) ∧
    Ext.labelPfxLen (numDigits label) =
      min 4 (max 1 (numDigits label - 4)) ∧
    Srv.labelPfxLenOfStr (natToStr label) =
      min 4 (max 1 (numDigits label - 4)) := by
  have habs : (label : Int).natAbs = label := Int.natAbs_ofNat label
  have hN : numDigits label = (Nat.digits 10 label).length :=
    numDigits_eq_digits_len label h
  have hN1 : 1 ≤ numDigits label := by
    rw [hN]
    have : Nat.digits 10 label ≠ [] :=
      Nat.digits_ne_nil_iff_ne_zero.mpr (Nat.pos_iff_ne_zero.mp h)
    exact List.length_pos.mpr this
  have hpfx : Srv.labelPfxLenOfStr (natToStr label) =
      min 4 (max 1 (numDigits label - 4)) := by
    rw [Srv.labelPfxLenOfStr]
    have hlen : (natToStr label).length = numDigits label := rfl
    rw [hlen]
    rcases le_or_lt (numDigits label) 4 with h4 | h4
    · rw [if_pos h4]
      omega
    · rw [if_neg (by omega)]
      omega
  have hext : Ext.labelPfxLen (numDigits label) =
      min 4 (max 1 (numDigits label - 4)) := by
    rw [Ext.labelPfxLen]
    rcases le_or_lt (numDigits label) 4 with h4 | h4
    · rw [if_pos h4]; omega
    · rw [if_neg (by omega)]; omega
  refine ⟨?_, hext, hpfx⟩
  rw [Srv.partNumberFromLabel]
  simp only [habs, hpfx]
  rw [if_neg (by simpa using natToStr_ne_nil label)]
  have hkle : min 4 (max 1 (numDigits label - 4)) ≤
      (Nat.digits 10 label).length := by
    rw [← hN]; omega
  rw [digitsToNat_take_head h hkle, hN]

open GC in
/-- Witness for C3 at the 6-digit label `123456`: prefix length 2, part
number 12. -/
theorem C3_part_number_prefix_witness :
    0 < 123456 ∧
    Srv.partNumberFromLabel (123456 : Int) =
      123456 / 10 ^ (numDigits 123456 -
        min 4 (max 1 (numDigits 123456 - 4))) ∧
    Ext.labelPfxLen (numDigits 123456) =
      min 4 (max 1 (numDigits 123456 - 4)) ∧
    Srv.labelPfxLenOfStr (natToStr 123456) =
      min 4 (max 1 (numDigits 123456 - 4)) :=
  ⟨by norm_num, C3_part_number_prefix 123456 (by norm_num)⟩

namespace GC

theorem dictLookup_nil {α β : Type} [DecidableEq α] (k : α) :
    dictLookup k ([] : List (α × β)) = none := rfl

theorem dictLookup_cons {α β : Type} [DecidableEq α] (k : α) (p : α × β)
    (t : List (α × β)) :
    dictLookup k (p :: t) = if p.1 = k then some p.2 else dictLookup k t := by
  by_cases h : p.1 = k
  · rw [dictLookup, List.find?_cons_of_pos _ (by simpa using h), if_pos h]
    rfl
  · rw [dictLookup, List.find?_cons_of_neg _ (by simpa using h), if_neg h]
    rfl

theorem dictLookup_map_ne {α β : Type} [DecidableEq α] (k k' : α) (v : β)
    (d : List (α × β)) (hne : k' ≠ k) :
    dictLookup k' (d.map (fun p => if p.1 = k then (k, v) else p)) =
      dictLookup k' d := by
  induction d with
  | nil => rfl
  | cons p t ih =>
    by_cases hp : p.1 = k
    · rw [List.map_cons, if_pos hp, dictLookup_cons, dictLookup_cons,
        if_neg (fun h => hne h.symm), if_neg (fun h => hne (hp ▸ h).symm)]
      exact ih
    · rw [List.map_cons, if_neg hp, dictLookup_cons, dictLookup_cons]
      by_cases hk' : p.1 = k'
      · rw [if_pos hk', if_pos hk']
      · rw [if_neg hk', if_neg hk']
        exact ih

theorem dictLookup_map_self {α β : Type} [DecidableEq α] (k : α) (v : β)
    (d : List (α × β)) (hany : d.any (fun p => p.1 = k) = true) :
    dictLookup k (d.map (fun p => if p.1 = k then (k, v) else p)) = some v := by
  induction d with
  | nil => simp at hany
  | cons p t ih =>
    by_cases hp : p.1 = k
    · rw [List.map_cons, if_pos hp, dictLookup_cons, if_pos rfl]
    · have ht : t.any (fun p => p.1 = k) = true := by
        simp only [List.any_cons, Bool.or_eq_true, decide_eq_true_eq] at hany
        rcases hany with h | h
        · exact absurd h hp
        · exact h
      rw [List.map_cons, if_neg hp, dictLookup_cons, if_neg hp]
      exact ih ht

theorem dictLookup_dictInsert {α β : Type} [DecidableEq α] (k k' : α) (v : β)
    (d : List (α × β)) :
    dictLookup k' (dictInsert k v d) =
      if k' = k then some v else dictLookup k' d := by
  rw [dictInsert]
  by_cases hany : d.any (fun p => p.1 = k) = true
  · rw [if_pos hany]
    by_cases hk : k' = k
    · subst hk
      rw [if_pos rfl]
      exact dictLookup_map_self k' v d hany
    · rw [if_neg hk]
      exact dictLookup_map_ne k k' v d hk
  · rw [if_neg hany]
    induction d with
    | nil =>
      rw [List.nil_append, dictLookup_cons]
      by_cases hk : k' = k
      · rw [if_pos (hk.symm), if_pos hk]
      · rw [if_neg (fun h => hk h.symm), if_neg hk, dictLookup_nil]
    | cons p t ih =>
      have hpk : p.1 ≠ k := by
        intro h
        exact hany (by simp [List.any_cons, h])
      have htany : ¬ t.any (fun p => p.1 = k) = true := by
        intro h
        exact hany (by simp [List.any_cons, h])
      rw [List.cons_append, dictLookup_cons, dictLookup_cons]
      by_cases hk' : p.1 = k'
      · rw [if_pos hk', if_pos hk']
        rw [if_neg (fun h => hpk (by rw [hk', h]))]
      · rw [if_neg hk', if_neg hk']
        exact ih htany

theorem getLast?_cons_or {α : Type} (i : α) (l : List α) :
    (i :: l).getLast? = l.getLast?.or (some i) := by
  cases h : l.getLast? with
  | none => rw [List.getLast?_eq_none_iff.mp h]; rfl
  | some z =>
    simp only [Option.or]
    rw [List.getLast?_cons, h]
    rfl

theorem indexLabels_foldl_lookup (entries : List (Nat × Str))
    (m : List (Int × Nat)) (label : Int) :
    dictLookup label (entries.foldl
      (fun m p =>
        match Srv.lineLabel p.2 with
        | some l => dictInsert (l : Int) p.1 m
        | none => m) m) =
    (((entries.filter
      (fun p => (Srv.lineLabel p.2).map (fun n => (n : Int)) = some label)).map
      (·.1)).getLast?).or (dictLookup label m) := by
  induction entries generalizing m with
  | nil => simp
  | cons e t ih =>
    cases he : Srv.lineLabel e.2 with
    | none =>
      have hpred : (decide ((Srv.lineLabel e.2).map (fun n => (n : Int))
          = some label)) = false := by
        simp [he]
      simp only [List.foldl_cons, he, List.filter_cons, hpred,
        Bool.false_eq_true, if_false]
      exact ih m
    | some l =>
      simp only [List.foldl_cons, he]
      by_cases hl : (l : Int) = label
      · have hpred : (decide ((Srv.lineLabel e.2).map (fun n => (n : Int))
            = some label)) = true := by
          simp [he, hl]
        simp only [List.filter_cons, hpred, if_true, List.map_cons]
        rw [ih (dictInsert (l : Int) e.1 m), dictLookup_dictInsert,
          if_pos hl.symm, getLast?_cons_or, Option.or_assoc]
        rfl
      · have hpred : (decide ((Srv.lineLabel e.2).map (fun n => (n : Int))
            = some label)) = false := by
          simp [he, hl]
        simp only [List.filter_cons, hpred, Bool.false_eq_true, if_false]
        rw [ih (dictInsert (l : Int) e.1 m), dictLookup_dictInsert,
          if_neg (fun h => hl h.symm)]

end GC

open GC in
/-- C6. On any line list, both `_index_labels` implementations (summarizer's
and extraction engine's) are the same function, and, because a forward scan
with `dict` assignment overwrites earlier entries, the mapping sends a label
to the index of its *last* occurrence (`getLast?` of the occurrence list). -/
theorem C6_index_labels_last_wins (lines : List Str) (label : Int) :
    Srv.indexLabels lines = Ext.indexLabels lines ∧
    dictLookup label (Srv.indexLabels lines) =
      (labelOccurrences lines label).getLast? := by
  refine ⟨rfl, ?_⟩
  rw [Srv.indexLabels, labelOccurrences, indexLabels_foldl_lookup]
  simp [dictLookup]

namespace GC

end GC

namespace GC

end GC

namespace GC

end GC

namespace GC

theorem relabelFrom_append (start : Nat) (a b : List Str) :
    relabelFrom start (a ++ b) =
      relabelFrom start a ++ relabelFrom (start + a.length) b := by
  induction a generalizing start with
  | nil => simp [relabelFrom]
  | cons x t ih =>
    simp only [List.cons_append, relabelFrom, List.length_cons]
    congr 1
    rw [List.append_eq, ih (start + 1)]
    congr 2
    omega

theorem insert_inner_foldl (l : List Str) (acc : List Str) (start : Nat) :
    l.foldl
      (fun (st : List Str × Nat) line =>
        (st.1 ++ [rstrip ('N' :: (natToStr st.2 ++ ' ' :: (Ext.stripLabel line).2))],
          st.2 + 1))
      (acc, start) = (acc ++ relabelFrom start l, start + l.length) := by
  induction l generalizing acc start with
  | nil => simp [relabelFrom]
  | cons x t ih =>
    simp only [List.foldl_cons, relabelFrom, List.length_cons]
    rw [ih, Prod.mk.injEq]
    refine ⟨?_, by omega⟩
    simp only [List.append_assoc, List.singleton_append]

theorem insert_outer_foldl (blocks : List (List Str)) (acc : List Str)
    (start : Nat) :
    blocks.foldl
      (fun (st : List Str × Nat) block =>
        block.foldl
          (fun (st : List Str × Nat) line =>
            (st.1 ++
              [rstrip ('N' :: (natToStr st.2 ++ ' ' :: (Ext.stripLabel line).2))],
              st.2 + 1))
          st)
      (acc, start) =
      (acc ++ relabelFrom start blocks.flatten,
        start + blocks.flatten.length) := by
  induction blocks generalizing acc start with
  | nil => simp [relabelFrom]
  | cons b bs ih =>
    simp only [List.foldl_cons, List.flatten_cons]
    rw [insert_inner_foldl, ih, relabelFrom_append, List.append_assoc,
      List.length_append, Prod.mk.injEq]
    exact ⟨rfl, by omega⟩

end GC

open GC in
/-- C1 (amended). When the spliced-into part block's first `HKPED` line sits
at index `hi`, `_insert_extra_contours` splices the borrowed contour blocks
immediately before that closing `HKPED` line, relabelling the inserted lines
with fresh sequential labels that continue from the block's maximum existing
label plus one — but it keeps every inserted line's label-stripped content
(hence every coordinate) verbatim: no translation by the anchor vector is
applied (`extract_part_program` never calls `_translate_block_line`). -/
theorem C1_insert_extra_contours_verbatim (part_lines : List Str)
    (extra_blocks : List (List Str)) (hi : Nat)
    (hfind : findFrom (fun l => hasSub (upper l) Ext.hkpedSub) part_lines 0
      = some hi) :
    Ext.insertExtraContours part_lines extra_blocks =
      part_lines.take hi ++
      relabelFrom
        ((part_lines.filterMap (fun l => (Ext.stripLabel l).1)).foldl max 0 + 1)
        extra_blocks.flatten ++
      [rstrip ('N' ::
        (natToStr
          ((part_lines.filterMap (fun l => (Ext.stripLabel l).1)).foldl max 0
            + 1 + extra_blocks.flatten.length) ++
          ' ' :: (Ext.stripLabel (part_lines.getD hi [])).2))] ++
      part_lines.drop (hi + 1) := by
  rw [Ext.insertExtraContours, hfind]
  have hmax : (if (part_lines.filterMap (fun l => (Ext.stripLabel l).1)).isEmpty
      then 0
      else (part_lines.filterMap (fun l => (Ext.stripLabel l).1)).foldl max 0)
      = (part_lines.filterMap (fun l => (Ext.stripLabel l).1)).foldl max 0 := by
    by_cases he : (part_lines.filterMap (fun l => (Ext.stripLabel l).1)).isEmpty
    · rw [if_pos he]
      rw [List.isEmpty_iff.mp he]
      rfl
    · rw [if_neg he]
  simp only [hmax]
  rw [insert_outer_foldl]
  simp only [List.append_assoc, List.singleton_append, List.nil_append]

open GC in
/-- Witness for the amended C1 on the two-part fixture's first part block and
one borrowed contour block. -/
theorem C1_insert_extra_contours_verbatim_witness :
    Ext.insertExtraContours
        (["N10001 HKSTR(1,1,0,0,0,0,0,0)", "G1 X0 Y0", "HKSTO(0,0,0)",
          "N10002 HKSTR(1,1,1,1,0,0,0,0)", "G1 X1 Y1", "HKSTO(0,0,0)",
          "HKPED(0,0,0)"].map String.toList)
        [["N20001 HKSTR(1,1,2,2,0,0,0,0)", "G1 X2 Y2",
          "HKSTO(0,0,0)"].map String.toList] =
      (["N10001 HKSTR(1,1,0,0,0,0,0,0)", "G1 X0 Y0", "HKSTO(0,0,0)",
        "N10002 HKSTR(1,1,1,1,0,0,0,0)", "G1 X1 Y1", "HKSTO(0,0,0)"].map
          String.toList) ++
      relabelFrom 10003
        (["N20001 HKSTR(1,1,2,2,0,0,0,0)", "G1 X2 Y2",
          "HKSTO(0,0,0)"].map String.toList) ++
      [("N10006 HKPED(0,0,0)").toList] ++ [] := by
  have h := C1_insert_extra_contours_verbatim
    (["N10001 HKSTR(1,1,0,0,0,0,0,0)", "G1 X0 Y0", "HKSTO(0,0,0)",
      "N10002 HKSTR(1,1,1,1,0,0,0,0)", "G1 X1 Y1", "HKSTO(0,0,0)",
      "HKPED(0,0,0)"].map String.toList)
    [["N20001 HKSTR(1,1,2,2,0,0,0,0)", "G1 X2 Y2",
      "HKSTO(0,0,0)"].map String.toList]
    6 (by decide)
  rw [h]
  decide

open GC in
/-- Counterexample to C1 as stated: on a two-part program with anchors
`(0,0)` and `(5,5)`, extracting part `10000` with the borrowed contour
`(20000, 1)` splices the borrowed `HKSTR` line with its original coordinates
`(2,2)` (only relabelled to `N10003`), whereas the claimed translation by the
anchor vector would have produced the `(7,7)` line computed by
`_translate_block_line`. -/
theorem C1_counterexample :
    (Ext.extractPartProgram
        ("N10000 HKOST(0.0,0.0,0.0,10001,1,0,0,0)\nHKPPP\nN20000 HKOST(5.0,5.0,0.0,20001,1,0,0,0)\nHKPPP\nN10001 HKSTR(1,1,0,0,0,0,0,0)\nG1 X0 Y0\nHKSTO(0,0,0)\nN10002 HKSTR(1,1,1,1,0,0,0,0)\nG1 X1 Y1\nHKSTO(0,0,0)\nHKPED(0,0,0)\nN20001 HKSTR(1,1,2,2,0,0,0,0)\nG1 X2 Y2\nHKSTO(0,0,0)\nHKPED(0,0,0)\n").toList
        10000 0 [(20000, 1)]).map (fun r => r.lines.map String.mk) =
      .ok ["N10000 HKOST(0.0,0.0,0.0,10001,1,0,0,0)", "HKPPP",
        "N10001 HKSTR(1,1,0,0,0,0,0,0)", "G1 X0 Y0", "HKSTO(0,0,0)",
        "N10002 HKSTR(1,1,1,1,0,0,0,0)", "G1 X1 Y1", "HKSTO(0,0,0)",
        "N10003 HKSTR(1,1,2,2,0,0,0,0)", "N10004 G1 X2 Y2",
        "N10005 HKSTO(0,0,0)", "N10006 HKPED(0,0,0)"] ∧
    Ext.translateBlockLine ("HKSTR(1,1,2,2,0,0,0,0)").toList (0 - 5) (0 - 5) =
      .ok ("HKSTR(1,1,7,7,0,5,5,0)").toList ∧
    ("HKSTR(1,1,7,7,0,5,5,0)" : String) ≠ "HKSTR(1,1,2,2,0,0,0,0)" := by
  refine ⟨?_, ?_, ?_⟩
  · with_unfolding_all rfl
  · with_unfolding_all rfl
  · decide

namespace GC

theorem lookup_partsByNumber_isSome (parts : List Srv.PartSummary)
    (acc : List (Nat × Srv.PartSummary)) (k : Nat) :
    (dictLookup k (parts.foldl
      (fun d p => dictInsert p.part_number p d) acc)).isSome = true ↔
      (k ∈ parts.map (fun p => p.part_number) ∨
        (dictLookup k acc).isSome = true) := by
  induction parts generalizing acc with
  | nil => simp
  | cons p t ih =>
    simp only [List.foldl_cons, List.map_cons, List.mem_cons]
    rw [ih]
    constructor
    · rintro (h | h)
      · exact Or.inl (Or.inr h)
      · rw [dictLookup_dictInsert] at h
        by_cases hk : k = p.part_number
        · exact Or.inl (Or.inl hk)
        · rw [if_neg hk] at h
          exact Or.inr h
    · rintro ((h | h) | h)
      · subst h
        right
        rw [dictLookup_dictInsert, if_pos rfl]
        rfl
      · exact Or.inl h
      · right
        rw [dictLookup_dictInsert]
        by_cases hk : k = p.part_number
        · rw [if_pos hk]; rfl
        · rw [if_neg hk]; exact h

theorem dictInsert_of_fresh {α β : Type} [DecidableEq α] (k : α) (v : β)
    (d : List (α × β)) (h : ∀ p ∈ d, p.1 ≠ k) :
    dictInsert k v d = d ++ [(k, v)] := by
  rw [dictInsert, if_neg]
  simp only [List.any_eq_true, decide_eq_true_eq, not_exists, not_and]
  intro p hp
  exact h p hp

theorem foldl_insert_fresh (entries : List (Nat × Nat))
    (acc : List (Nat × Nat)) (hnd : (entries.map (fun p => p.2)).Nodup)
    (hdisj : ∀ e ∈ entries, ∀ p ∈ acc, p.1 ≠ e.2) :
    entries.foldl (fun d p => dictInsert p.2 (p.1 + 1) d) acc =
      acc ++ entries.map (fun p => (p.2, p.1 + 1)) := by
  induction entries generalizing acc with
  | nil => simp
  | cons e t ih =>
    simp only [List.map_cons, List.nodup_cons] at hnd
    simp only [List.foldl_cons, List.map_cons]
    rw [dictInsert_of_fresh e.2 (e.1 + 1) acc
      (fun p hp => hdisj e (List.mem_cons_self e t) p hp)]
    rw [ih (acc ++ [(e.2, e.1 + 1)]) hnd.2]
    · simp
    · intro f hf p hp
      rcases List.mem_append.mp hp with hp | hp
      · exact hdisj f (List.mem_cons_of_mem e hf) p hp
      · rcases List.mem_singleton.mp hp with rfl
        simp only []
        intro hcontra
        exact hnd.1 (hcontra ▸ List.mem_map_of_mem (fun p => p.2) hf)

end GC

open GC in
/-- C5 (amended). `build_reordered_program`'s visiting order is always the
requested order restricted to existing part numbers followed by the remaining
parts in their original relative order; and — provided the requested order
and the parts' part numbers are duplicate-free — the renumbering map assigns
`1..n` along that visiting order (`ordered[i] ↦ i + 1`, exactly). -/
theorem C5_reorder_policy (parts : List Srv.PartSummary) (order : List Nat)
    (hord : order.Nodup)
    (hparts : (parts.map (fun p => p.part_number)).Nodup) :
    Ext.orderedPartNumbers parts order =
      order.filter (fun n => n ∈ parts.map (fun p => p.part_number)) ++
        (parts.map (fun p => p.part_number)).filter (fun n => n ∉ order) ∧
    Ext.newPartNumbers parts order =
      (Ext.orderedPartNumbers parts order).enum.map
        (fun p => (p.2, p.1 + 1)) := by
  have hreq : order.filter
      (fun n => (dictLookup n (parts.foldl
        (fun d p => dictInsert p.part_number p d) [])).isSome) =
      order.filter (fun n => n ∈ parts.map (fun p => p.part_number)) := by
    apply List.filter_congr
    intro n _
    by_cases hm : n ∈ parts.map (fun p => p.part_number)
    · rw [decide_eq_true hm]
      exact (lookup_partsByNumber_isSome parts [] n).mpr (Or.inl hm)
    · rw [decide_eq_false hm]
      cases hb : (dictLookup n (parts.foldl
          (fun d p => dictInsert p.part_number p d) [])).isSome
      · rfl
      · exfalso
        rcases (lookup_partsByNumber_isSome parts [] n).mp hb with h' | h'
        · exact hm h'
        · rw [dictLookup_nil] at h'
          simp at h'
  constructor
  · rw [show Ext.orderedPartNumbers parts order =
        order.filter (fun n => (dictLookup n (parts.foldl
          (fun d p => dictInsert p.part_number p d) [])).isSome) ++
        (parts.map (fun p => p.part_number)).filter
          (fun n => n ∉ order.filter (fun n => (dictLookup n (parts.foldl
            (fun d p => dictInsert p.part_number p d) [])).isSome))
      from rfl]
    rw [hreq]
    congr 1
    apply List.filter_congr
    intro n hn
    simp only [decide_eq_decide]
    constructor
    · intro hmem hmemo
      exact hmem (List.mem_filter.mpr ⟨hmemo, by simpa using hn⟩)
    · intro hmemo hmemf
      exact hmemo (List.mem_filter.mp hmemf).1
  · rw [Ext.newPartNumbers]
    apply foldl_insert_fresh
    · rw [List.enum_map_snd]
      rw [Ext.orderedPartNumbers]
      apply List.Nodup.append
      · exact List.Nodup.filter _ hord
      · exact List.Nodup.filter _ hparts
      · intro n hn₁ hn₂
        rcases List.mem_filter.mp hn₂ with ⟨_, hnot⟩
        exact (of_decide_eq_true hnot) hn₁
    · intro e _ p hp
      exact absurd hp (List.not_mem_nil p)

open GC in
/-- Witness for the amended C5 on two concrete parts and the order `[2, 1]`. -/
theorem C5_reorder_policy_witness :
    Ext.orderedPartNumbers
        [{ part_number := 1, part_line := 10000, hkost_line := 1,
           profile_line := some 10001, start_line := 5, end_line := 11,
           contours := 2, anchor_x := some 0, anchor_y := some 0 },
         { part_number := 2, part_line := 20000, hkost_line := 3,
           profile_line := some 20001, start_line := 12, end_line := 15,
           contours := 1, anchor_x := some 5, anchor_y := some 5 }] [2, 1] =
      [2, 1] ++ [] ∧
    Ext.newPartNumbers
        [{ part_number := 1, part_line := 10000, hkost_line := 1,
           profile_line := some 10001, start_line := 5, end_line := 11,
           contours := 2, anchor_x := some 0, anchor_y := some 0 },
         { part_number := 2, part_line := 20000, hkost_line := 3,
           profile_line := some 20001, start_line := 12, end_line := 15,
           contours := 1, anchor_x := some 5, anchor_y := some 5 }] [2, 1] =
      [(2, 1), (1, 2)] := by
  have h := @C5_reorder_policy
    ([{ part_number := 1, part_line := 10000, hkost_line := 1,
        profile_line := some 10001, start_line := 5, end_line := 11,
        contours := 2, anchor_x := some 0, anchor_y := some 0 },
      { part_number := 2, part_line := 20000, hkost_line := 3,
        profile_line := some 20001, start_line := 12, end_line := 15,
        contours := 1, anchor_x := some 5, anchor_y := some 5 }] :
      List Srv.PartSummary) [2, 1]
    (by decide) (by decide)
  rcases h with ⟨h1, h2⟩
  constructor
  · rw [h1]
    with_unfolding_all rfl
  · rw [h2, h1]
    with_unfolding_all rfl

open GC in
/-- Counterexample to C5 as stated: with the duplicate request `[1, 1]` on a
two-part program, the visiting order is `[1, 1, 2]` and the renumbering map
assigns part 1 the new number 2 (the `enumerate` dict overwrites), so the
parts are *not* assigned `1..n` in visiting order: part 1's `HKOST` label is
rewritten to `N20000` and part 2's to `N30000`. -/
theorem C5_counterexample :
    Ext.orderedPartNumbers
      (Srv.summarizeParts
        (["N10000 HKOST(0.0,0.0,0.0,10001,1,0,0,0)", "HKPPP",
          "N20000 HKOST(5.0,5.0,0.0,20001,1,0,0,0)", "HKPPP",
          "N10001 HKSTR(1,1,0,0,0,0,0,0)", "G1 X0 Y0", "HKSTO(0,0,0)",
          "N10002 HKSTR(1,1,1,1,0,0,0,0)", "G1 X1 Y1", "HKSTO(0,0,0)",
          "HKPED(0,0,0)", "N20001 HKSTR(1,1,2,2,0,0,0,0)", "G1 X2 Y2",
          "HKSTO(0,0,0)", "HKPED(0,0,0)"].map String.toList)) [1, 1] =
      [1, 1, 2] ∧
    dictLookup 1
      (Ext.newPartNumbers
        (Srv.summarizeParts
          (["N10000 HKOST(0.0,0.0,0.0,10001,1,0,0,0)", "HKPPP",
            "N20000 HKOST(5.0,5.0,0.0,20001,1,0,0,0)", "HKPPP",
            "N10001 HKSTR(1,1,0,0,0,0,0,0)", "G1 X0 Y0", "HKSTO(0,0,0)",
            "N10002 HKSTR(1,1,1,1,0,0,0,0)", "G1 X1 Y1", "HKSTO(0,0,0)",
            "HKPED(0,0,0)", "N20001 HKSTR(1,1,2,2,0,0,0,0)", "G1 X2 Y2",
            "HKSTO(0,0,0)", "HKPED(0,0,0)"].map String.toList)) [1, 1]) =
      some 2 ∧
    some (2 : Nat) ≠ some 1 ∧
    (Ext.buildReorderedProgram
        (["N10000 HKOST(0.0,0.0,0.0,10001,1,0,0,0)", "HKPPP",
          "N20000 HKOST(5.0,5.0,0.0,20001,1,0,0,0)", "HKPPP",
          "N10001 HKSTR(1,1,0,0,0,0,0,0)", "G1 X0 Y0", "HKSTO(0,0,0)",
          "N10002 HKSTR(1,1,1,1,0,0,0,0)", "G1 X1 Y1", "HKSTO(0,0,0)",
          "HKPED(0,0,0)", "N20001 HKSTR(1,1,2,2,0,0,0,0)", "G1 X2 Y2",
          "HKSTO(0,0,0)", "HKPED(0,0,0)"].map String.toList)
        (Srv.summarizeParts
          (["N10000 HKOST(0.0,0.0,0.0,10001,1,0,0,0)", "HKPPP",
            "N20000 HKOST(5.0,5.0,0.0,20001,1,0,0,0)", "HKPPP",
            "N10001 HKSTR(1,1,0,0,0,0,0,0)", "G1 X0 Y0", "HKSTO(0,0,0)",
            "N10002 HKSTR(1,1,1,1,0,0,0,0)", "G1 X1 Y1", "HKSTO(0,0,0)",
            "HKPED(0,0,0)", "N20001 HKSTR(1,1,2,2,0,0,0,0)", "G1 X2 Y2",
            "HKSTO(0,0,0)", "HKPED(0,0,0)"].map String.toList))
        [1, 1]).map (fun ls => ls.map String.mk) =
      .ok ["N20000 HKOST(0.0,0.0,0.0,20001,1,0,0,0)", "HKPPP",
       "N20000 HKOST(0.0,0.0,0.0,20001,1,0,0,0)", "HKPPP",
       "N30000 HKOST(5.0,5.0,0.0,30001,1,0,0,0)", "HKPPP", "",
       "N20001 HKSTR(1,1,0,0,0,0,0,0)", "G1 X0 Y0", "HKSTO(0,0,0)",
       "N20002 HKSTR(1,1,1,1,0,0,0,0)", "G1 X1 Y1", "HKSTO(0,0,0)",
       "HKPED(0,0,0)", "",
       "N20001 HKSTR(1,1,0,0,0,0,0,0)", "G1 X0 Y0", "HKSTO(0,0,0)",
       "N20002 HKSTR(1,1,1,1,0,0,0,0)", "G1 X1 Y1", "HKSTO(0,0,0)",
       "HKPED(0,0,0)", "",
       "N30001 HKSTR(1,1,2,2,0,0,0,0)", "G1 X2 Y2", "HKSTO(0,0,0)",
       "HKPED(0,0,0)"] := by
  refine ⟨?_, ?_, by decide, ?_⟩
  · with_unfolding_all rfl
  · with_unfolding_all rfl
  · with_unfolding_all rfl

namespace GC.Web

theorem mergeRefsGo_eq_dedup_take (l : List ExtraContourRef)
    (seen : List (Nat × Nat)) (merged : List ExtraContourRef)
    (h : merged.length < 5) :
    mergeRefsGo l seen merged =
      merged ++ (dedupKeys seen l).take (5 - merged.length) := by
  induction l generalizing seen merged with
  | nil => simp [mergeRefsGo, dedupKeys]
  | cons r rest ih =>
    rw [mergeRefsGo, dedupKeys]
    by_cases hseen : (r.part_number, r.contour_index) ∈ seen
    · rw [if_pos hseen, if_pos hseen]
      exact ih seen merged h
    · rw [if_neg hseen, if_neg hseen]
      by_cases hfull : MAX_EXTRA_CONTOURS ≤ (merged ++ [r]).length
      · rw [if_pos hfull]
        simp only [List.length_append, List.length_cons, List.length_nil,
          MAX_EXTRA_CONTOURS] at hfull
        have h4 : merged.length = 4 := by omega
        rw [h4]
        simp
      · rw [if_neg hfull]
        simp only [List.length_append, List.length_cons, List.length_nil,
          MAX_EXTRA_CONTOURS] at hfull
        rw [ih _ _ (by simp only [List.length_append, List.length_cons,
          List.length_nil]; omega)]
        simp only [List.length_append, List.length_cons, List.length_nil,
          List.append_assoc, List.singleton_append]
        have hm : 5 - merged.length = (5 - (merged.length + 1)) + 1 := by omega
        rw [hm, List.take_succ_cons]

theorem dedupKeys_append_split (x y : List ExtraContourRef)
    (seen : List (Nat × Nat)) :
    ∃ d, dedupKeys seen (x ++ y) = dedupKeys seen x ++ d ∧ d.Sublist y := by
  induction x generalizing seen with
  | nil =>
    refine ⟨dedupKeys seen y, by simp [dedupKeys], ?_⟩
    clear * -
    induction y generalizing seen with
    | nil => simp [dedupKeys]
    | cons r rest ih =>
      rw [dedupKeys]
      by_cases hseen : (r.part_number, r.contour_index) ∈ seen
      · rw [if_pos hseen]
        exact (ih seen).cons r
      · rw [if_neg hseen]
        exact (ih _).cons₂ r
  | cons r rest ih =>
    rw [List.cons_append, dedupKeys, dedupKeys]
    by_cases hseen : (r.part_number, r.contour_index) ∈ seen
    · rw [if_pos hseen, if_pos hseen]
      exact ih seen
    · rw [if_neg hseen, if_neg hseen]
      obtain ⟨d, hd, hds⟩ := ih ((r.part_number, r.contour_index) :: seen)
      exact ⟨d, by rw [hd, List.cons_append], hds⟩

theorem dedupKeys_sublist (l : List ExtraContourRef)
    (seen : List (Nat × Nat)) : (dedupKeys seen l).Sublist l := by
  induction l generalizing seen with
  | nil => simp [dedupKeys]
  | cons r rest ih =>
    rw [dedupKeys]
    by_cases hseen : (r.part_number, r.contour_index) ∈ seen
    · rw [if_pos hseen]
      exact (ih seen).cons r
    · rw [if_neg hseen]
      exact (ih _).cons₂ r

theorem dedupKeys_pairwise (l : List ExtraContourRef)
    (seen : List (Nat × Nat)) :
    (dedupKeys seen l).Pairwise
      (fun a b => (a.part_number, a.contour_index) ≠
        (b.part_number, b.contour_index)) ∧
    ∀ r ∈ dedupKeys seen l, (r.part_number, r.contour_index) ∉ seen := by
  induction l generalizing seen with
  | nil => simp [dedupKeys]
  | cons r rest ih =>
    rw [dedupKeys]
    by_cases hseen : (r.part_number, r.contour_index) ∈ seen
    · rw [if_pos hseen]
      exact ih seen
    · rw [if_neg hseen]
      obtain ⟨hpw, hnot⟩ := ih ((r.part_number, r.contour_index) :: seen)
      refine ⟨List.Pairwise.cons ?_ hpw, ?_⟩
      · intro b hb hkey
        exact hnot b hb (hkey ▸ List.mem_cons_self _ _)
      · intro x hx
        rcases List.mem_cons.mp hx with rfl | hx'
        · exact hseen
        · intro hmem
          exact hnot x hx' (List.mem_cons_of_mem _ hmem)

theorem dedupKeys_covers (l : List ExtraContourRef)
    (seen : List (Nat × Nat)) (r : ExtraContourRef) (hr : r ∈ l) :
    (r.part_number, r.contour_index) ∈ seen ∨
      ∃ r' ∈ dedupKeys seen l,
        (r'.part_number, r'.contour_index) =
          (r.part_number, r.contour_index) := by
  induction l generalizing seen with
  | nil => exact absurd hr (List.not_mem_nil r)
  | cons x rest ih =>
    rw [dedupKeys]
    by_cases hseen : (x.part_number, x.contour_index) ∈ seen
    · rw [if_pos hseen]
      rcases List.mem_cons.mp hr with heq | hr'
      · exact Or.inl (by rw [heq]; exact hseen)
      · exact ih seen hr'
    · rw [if_neg hseen]
      rcases List.mem_cons.mp hr with heq | hr'
      · exact Or.inr ⟨x, List.mem_cons_self _ _, by rw [heq]⟩
      · rcases ih ((x.part_number, x.contour_index) :: seen) hr' with h | ⟨r', hr'', hkey⟩
        · rcases List.mem_cons.mp h with heq | h'
          · exact Or.inr ⟨x, List.mem_cons_self _ _, heq.symm⟩
          · exact Or.inl h'
        · exact Or.inr ⟨r', List.mem_cons_of_mem _ hr'', hkey⟩

theorem dedupKeys_length_le (l : List ExtraContourRef)
    (seen : List (Nat × Nat)) : (dedupKeys seen l).length ≤ l.length :=
  (dedupKeys_sublist l seen).length_le

theorem parseExtraGo_length_le (parts : List GC.Srv.PartSummary)
    (toks : List GC.Str) (refs : List ExtraContourRef)
    (h : refs.length < 5) :
    (parseExtraGo parts toks refs).length ≤ 5 := by
  induction toks generalizing refs with
  | nil => rw [parseExtraGo]; omega
  | cons t rest ih =>
    rw [parseExtraGo]
    split
    · exact ih refs h
    · split
      · exact ih refs h
      · split
        · exact ih refs h
        · dsimp only
          split
          · next hfull =>
            simp only [MAX_EXTRA_CONTOURS, List.length_append,
              List.length_cons, List.length_nil] at hfull
            simp only [List.length_append, List.length_cons, List.length_nil]
            omega
          · next hfull =>
            refine ih _ ?_
            simp only [MAX_EXTRA_CONTOURS, List.length_append,
              List.length_cons, List.length_nil] at hfull
            simp only [List.length_append, List.length_cons, List.length_nil]
            omega

theorem parseExtraContours_length_le (raw : Option GC.Str)
    (parts : List GC.Srv.PartSummary) :
    (parseExtraContours raw parts).length ≤ 5 := by
  cases raw with
  | none => simp [parseExtraContours]
  | some r =>
    rw [parseExtraContours]
    by_cases hre : r.isEmpty
    · rw [if_pos hre]; simp
    · rw [if_neg hre]
      by_cases hte : (((GC.splitOnChar ',' r).map GC.strip).filter
          (fun t => ¬ t.isEmpty)).isEmpty
      · rw [if_pos hte]; simp
      · rw [if_neg hte]
        exact parseExtraGo_length_le parts _ [] (by simp)

end GC.Web

namespace GC.Web

theorem detectInner_len (cand : GC.Srv.PartSummary)
    (boundary : List ((ℚ × ℚ) × (ℚ × ℚ))) :
    ∀ (contours : List (List (ℚ × ℚ))) (ci : Nat)
      (acc : List ExtraContourRef), acc.length ≤ 4 →
      (detectInner cand boundary contours ci acc).1.length ≤ 5 ∧
      ((detectInner cand boundary contours ci acc).2 = false →
        (detectInner cand boundary contours ci acc).1.length ≤ 4) := by
  intro contours
  induction contours with
  | nil =>
    intro ci acc hacc
    rw [detectInner]
    exact ⟨le_trans hacc (by norm_num), fun _ => hacc⟩
  | cons contour rest ih =>
    intro ci acc hacc
    rw [detectInner]
    by_cases h1 : contourIsClosed contour = true
    · rw [if_pos h1]
      exact ih (ci + 1) acc hacc
    · rw [if_neg h1]
      by_cases h2 : ¬ contourIsCommonNeighbor contour boundary = true
      · rw [if_pos h2]
        exact ih (ci + 1) acc hacc
      · rw [if_neg h2]
        dsimp only
        by_cases h3 : MAX_EXTRA_CONTOURS ≤ (acc ++
            [{ part_number := cand.part_number, part_line := cand.part_line,
               contour_index := ci }] : List ExtraContourRef).length
        · rw [if_pos h3]
          dsimp only
          simp only [List.length_append, List.length_cons, List.length_nil]
          exact ⟨by omega, fun h => absurd h (by decide)⟩
        · rw [if_neg h3]
          refine ih (ci + 1) _ ?_
          rw [MAX_EXTRA_CONTOURS] at h3
          omega

theorem detectOuter_len (targetNumber : Nat)
    (absolute : List (Nat × List (List (ℚ × ℚ))))
    (boundary : List ((ℚ × ℚ) × (ℚ × ℚ))) :
    ∀ (cands : List GC.Srv.PartSummary) (acc : List ExtraContourRef),
      acc.length ≤ 4 →
      (detectOuter targetNumber absolute boundary cands acc).length ≤ 5 := by
  intro cands
  induction cands with
  | nil =>
    intro acc hacc
    rw [detectOuter]
    omega
  | cons cand rest ih =>
    intro acc hacc
    rw [detectOuter]
    by_cases h1 : cand.part_number = targetNumber
    · rw [if_pos h1]
      exact ih acc hacc
    · rw [if_neg h1]
      dsimp only
      obtain ⟨ha, hb⟩ := detectInner_len cand boundary
        ((dictLookup cand.part_number absolute).getD []) 1 acc hacc
      by_cases h2 : (detectInner cand boundary
          ((dictLookup cand.part_number absolute).getD []) 1 acc).2 = true
      · rw [if_pos h2]
        exact ha
      · rw [if_neg h2]
        exact ih _ (hb (by simpa using h2))

theorem detect_len_le (parts : List GC.Srv.PartSummary)
    (rawLines : List GC.Str) (target : GC.Srv.PartSummary) :
    (detectCommonNeighborContours parts rawLines target).length ≤
      MAX_EXTRA_CONTOURS := by
  rw [detectCommonNeighborContours, MAX_EXTRA_CONTOURS]
  split
  · simp
  · exact detectOuter_len _ _ _ _ [] (by simp)

end GC.Web

open GC in
/-- C9 (amended). The merged extra-contour list is the first-occurrence
deduplication (by `(part_number, contour_index)`) of the accepted explicit
references followed by the auto-detected ones, capped at 5: it has at most 5
entries, no two entries share a key, every accepted explicit reference's key
is represented, and it is an explicit segment followed by an auto-detected
segment; the auto-detection list itself never exceeds the cap of 5.  (As stated, the claim fails only in that a duplicate-keyed explicit
reference is dropped rather than listed again.) -/
theorem C9_extra_contour_merge (raw : Option GC.Str)
    (parts : List GC.Srv.PartSummary) (rawLines : List GC.Str)
    (target : GC.Srv.PartSummary) :
    Web.resolveExtraContours raw parts rawLines target =
      (Web.dedupKeys [] (Web.parseExtraContours raw parts ++
        Web.detectCommonNeighborContours parts rawLines target)).take 5 ∧
    (Web.resolveExtraContours raw parts rawLines target).length ≤ 5 ∧
    (Web.resolveExtraContours raw parts rawLines target).Pairwise
      (fun a b => (a.part_number, a.contour_index) ≠
        (b.part_number, b.contour_index)) ∧
    (∀ r ∈ Web.parseExtraContours raw parts,
      ∃ r' ∈ Web.resolveExtraContours raw parts rawLines target,
        (r'.part_number, r'.contour_index) =
          (r.part_number, r.contour_index)) ∧
    (∃ e a, Web.resolveExtraContours raw parts rawLines target = e ++ a ∧
      e.Sublist (Web.parseExtraContours raw parts) ∧
      a.Sublist (Web.detectCommonNeighborContours parts rawLines target)) ∧
    (Web.detectCommonNeighborContours parts rawLines target).length ≤
      Web.MAX_EXTRA_CONTOURS := by
  have h0 : Web.resolveExtraContours raw parts rawLines target =
      (Web.dedupKeys [] (Web.parseExtraContours raw parts ++
        Web.detectCommonNeighborContours parts rawLines target)).take 5 := by
    rw [Web.resolveExtraContours,
      Web.mergeRefsGo_eq_dedup_take _ _ [] (by simp)]
    simp
  obtain ⟨d, hd, hds⟩ := Web.dedupKeys_append_split
    (Web.parseExtraContours raw parts)
    (Web.detectCommonNeighborContours parts rawLines target) []
  have hlenE : (Web.dedupKeys [] (Web.parseExtraContours raw parts)).length ≤ 5 :=
    le_trans (Web.dedupKeys_length_le _ _)
      (Web.parseExtraContours_length_le raw parts)
  have htake : (Web.dedupKeys [] (Web.parseExtraContours raw parts ++
      Web.detectCommonNeighborContours parts rawLines target)).take 5 =
      Web.dedupKeys [] (Web.parseExtraContours raw parts) ++
        d.take (5 - (Web.dedupKeys []
          (Web.parseExtraContours raw parts)).length) := by
    rw [hd, List.take_append_eq_append_take,
      List.take_of_length_le hlenE]
  refine ⟨h0, ?_, ?_, ?_, ?_, Web.detect_len_le parts rawLines target⟩
  · rw [h0]
    exact le_trans (List.length_take_le 5 _) le_rfl
  · rw [h0]
    exact List.Pairwise.sublist (List.take_sublist 5 _)
      (Web.dedupKeys_pairwise _ []).1
  · intro r hr
    rcases Web.dedupKeys_covers (Web.parseExtraContours raw parts) [] r hr
      with h | ⟨r', hr', hkey⟩
    · exact absurd h (List.not_mem_nil _)
    · refine ⟨r', ?_, hkey⟩
      rw [h0, htake]
      exact List.mem_append_left _ hr'
  · refine ⟨Web.dedupKeys [] (Web.parseExtraContours raw parts),
      d.take (5 - (Web.dedupKeys []
        (Web.parseExtraContours raw parts)).length), ?_, ?_, ?_⟩
    · rw [h0, htake]
    · exact Web.dedupKeys_sublist _ _
    · exact List.Sublist.trans (List.take_sublist _ _) hds

set_option maxRecDepth 10000 in
open GC in
/-- Witness for the amended C9: one explicit reference `2.1` on a two-part
summary list with an empty document; the merged list caps at 5, and the
accepted explicit reference's key is represented. -/
theorem C9_extra_contour_merge_witness :
    (Web.resolveExtraContours (some ("2.1".toList))
      ([{ part_number := 1, part_line := 10000, hkost_line := 1,
          profile_line := none, start_line := 1, end_line := 1,
          contours := 0, anchor_x := none, anchor_y := none },
        { part_number := 2, part_line := 20000, hkost_line := 3,
          profile_line := some 20001, start_line := 5, end_line := 8,
          contours := 1, anchor_x := some 5, anchor_y := some 5 }] :
        List GC.Srv.PartSummary) []
      { part_number := 1, part_line := 10000, hkost_line := 1,
        profile_line := none, start_line := 1, end_line := 1,
        contours := 0, anchor_x := none, anchor_y := none }).length ≤ 5 ∧
    (∃ r' ∈ Web.resolveExtraContours (some ("2.1".toList))
      ([{ part_number := 1, part_line := 10000, hkost_line := 1,
          profile_line := none, start_line := 1, end_line := 1,
          contours := 0, anchor_x := none, anchor_y := none },
        { part_number := 2, part_line := 20000, hkost_line := 3,
          profile_line := some 20001, start_line := 5, end_line := 8,
          contours := 1, anchor_x := some 5, anchor_y := some 5 }] :
        List GC.Srv.PartSummary) []
      { part_number := 1, part_line := 10000, hkost_line := 1,
        profile_line := none, start_line := 1, end_line := 1,
        contours := 0, anchor_x := none, anchor_y := none },
      (r'.part_number, r'.contour_index) = ((2 : Nat), (1 : Nat))) := by
  have h := C9_extra_contour_merge (some ("2.1".toList))
    ([{ part_number := 1, part_line := 10000, hkost_line := 1,
        profile_line := none, start_line := 1, end_line := 1,
        contours := 0, anchor_x := none, anchor_y := none },
      { part_number := 2, part_line := 20000, hkost_line := 3,
        profile_line := some 20001, start_line := 5, end_line := 8,
        contours := 1, anchor_x := some 5, anchor_y := some 5 }] :
      List GC.Srv.PartSummary) []
    { part_number := 1, part_line := 10000, hkost_line := 1,
      profile_line := none, start_line := 1, end_line := 1,
      contours := 0, anchor_x := none, anchor_y := none }
  refine ⟨h.2.1, ?_⟩
  have hpe : Web.parseExtraContours (some ("2.1".toList))
      ([{ part_number := 1, part_line := 10000, hkost_line := 1,
          profile_line := none, start_line := 1, end_line := 1,
          contours := 0, anchor_x := none, anchor_y := none },
        { part_number := 2, part_line := 20000, hkost_line := 3,
          profile_line := some 20001, start_line := 5, end_line := 8,
          contours := 1, anchor_x := some 5, anchor_y := some 5 }] :
        List GC.Srv.PartSummary) =
      [{ part_number := 2, part_line := 20000, contour_index := 1 }] := by
    with_unfolding_all rfl
  have h4 := h.2.2.2.1
    { part_number := 2, part_line := 20000, contour_index := 1 }
    (by rw [hpe]; exact List.mem_singleton_self _)
  exact h4

set_option maxRecDepth 10000 in
open GC in
/-- Counterexample to C9 as stated: with the duplicate explicit request
`"2.1,2.1"` both tokens are accepted (two explicit references), but the
merged list drops the duplicate key, so it does not list *all* accepted
explicit references. -/
theorem C9_counterexample :
    Web.parseExtraContours (some ("2.1,2.1".toList))
      ([{ part_number := 1, part_line := 10000, hkost_line := 1,
          profile_line := none, start_line := 1, end_line := 1,
          contours := 0, anchor_x := none, anchor_y := none },
        { part_number := 2, part_line := 20000, hkost_line := 3,
          profile_line := some 20001, start_line := 5, end_line := 8,
          contours := 1, anchor_x := some 5, anchor_y := some 5 }] :
        List GC.Srv.PartSummary) =
      [{ part_number := 2, part_line := 20000, contour_index := 1 },
       { part_number := 2, part_line := 20000, contour_index := 1 }] ∧
    Web.resolveExtraContours (some ("2.1,2.1".toList))
      ([{ part_number := 1, part_line := 10000, hkost_line := 1,
          profile_line := none, start_line := 1, end_line := 1,
          contours := 0, anchor_x := none, anchor_y := none },
        { part_number := 2, part_line := 20000, hkost_line := 3,
          profile_line := some 20001, start_line := 5, end_line := 8,
          contours := 1, anchor_x := some 5, anchor_y := some 5 }] :
        List GC.Srv.PartSummary) []
      { part_number := 1, part_line := 10000, hkost_line := 1,
        profile_line := none, start_line := 1, end_line := 1,
        contours := 0, anchor_x := none, anchor_y := none } =
      [{ part_number := 2, part_line := 20000, contour_index := 1 }] ∧
    ([{ part_number := 2, part_line := 20000, contour_index := 1 }] :
      List Web.ExtraContourRef).length <
      ([{ part_number := 2, part_line := 20000, contour_index := 1 },
        { part_number := 2, part_line := 20000, contour_index := 1 }] :
        List Web.ExtraContourRef).length := by
  refine ⟨?_, ?_, by decide⟩
  · with_unfolding_all rfl
  · with_unfolding_all rfl

namespace GC

theorem arcSegmentCount_seg_lt (s : ℝ) :
    |s| / (Srv.arcSegmentCount s : ℝ) < Real.pi / 12 := by
  have ha : (0:ℝ) < Srv.segmentAngle := by
    rw [Srv.segmentAngle]
    positivity
  have ht0 : 0 ≤ |s| := abs_nonneg s
  have hk0 : 0 ≤ ⌊|s| / Srv.segmentAngle⌋ :=
    Int.floor_nonneg.mpr (div_nonneg ht0 ha.le)
  have hn : Srv.arcSegmentCount s = max 2 (⌊|s| / Srv.segmentAngle⌋).toNat :=
    rfl
  have hn2 : 2 ≤ max 2 (⌊|s| / Srv.segmentAngle⌋).toNat := le_max_left _ _
  have hN2 : (2:ℝ) ≤ ((max 2 (⌊|s| / Srv.segmentAngle⌋).toNat : ℕ) : ℝ) := by
    exact_mod_cast hn2
  have hN0 : (0:ℝ) < ((max 2 (⌊|s| / Srv.segmentAngle⌋).toNat : ℕ) : ℝ) := by
    linarith
  have hkn : ((⌊|s| / Srv.segmentAngle⌋ : ℤ) : ℝ) ≤
      ((max 2 (⌊|s| / Srv.segmentAngle⌋).toNat : ℕ) : ℝ) := by
    have h1 : ⌊|s| / Srv.segmentAngle⌋ ≤
        ((⌊|s| / Srv.segmentAngle⌋).toNat : ℤ) :=
      Int.self_le_toNat _
    have h2 : (⌊|s| / Srv.segmentAngle⌋).toNat ≤
        max 2 (⌊|s| / Srv.segmentAngle⌋).toNat := le_max_right _ _
    calc ((⌊|s| / Srv.segmentAngle⌋ : ℤ) : ℝ)
        ≤ (((⌊|s| / Srv.segmentAngle⌋).toNat : ℤ) : ℝ) := by exact_mod_cast h1
      _ ≤ ((max 2 (⌊|s| / Srv.segmentAngle⌋).toNat : ℕ) : ℝ) := by
          exact_mod_cast h2
  have ht : |s| < (((⌊|s| / Srv.segmentAngle⌋ : ℤ) : ℝ) + 1) *
      Srv.segmentAngle := by
    have h := Int.lt_floor_add_one (|s| / Srv.segmentAngle)
    exact (div_lt_iff ha).mp h
  rw [hn]
  have hchain : |s| / ((max 2 (⌊|s| / Srv.segmentAngle⌋).toNat : ℕ) : ℝ) <
      (((max 2 (⌊|s| / Srv.segmentAngle⌋).toNat : ℕ) : ℝ) + 1) *
        Srv.segmentAngle /
        ((max 2 (⌊|s| / Srv.segmentAngle⌋).toNat : ℕ) : ℝ) := by
    refine (div_lt_div_right hN0).mpr ?_
    calc |s| < (((⌊|s| / Srv.segmentAngle⌋ : ℤ) : ℝ) + 1) *
        Srv.segmentAngle := ht
      _ ≤ (((max 2 (⌊|s| / Srv.segmentAngle⌋).toNat : ℕ) : ℝ) + 1) *
          Srv.segmentAngle := by
          exact mul_le_mul_of_nonneg_right (by linarith) ha.le
  have hfin : ∀ N : ℝ, 2 ≤ N → 0 < N →
      (N + 1) * Srv.segmentAngle / N ≤ Real.pi / 12 := by
    intro N hN2' hN0'
    rw [div_le_iff hN0', Srv.segmentAngle]
    nlinarith [mul_nonneg Real.pi_pos.le (sub_nonneg.mpr hN2')]
  exact lt_of_lt_of_le hchain (hfin _ hN2 hN0)

/-- C4 (amended). For a G2/G3 arc with start position and both I/J offsets
present and nonzero radius, interpolation emits exactly one point per segment
for the computed segment count, that count is at least 2, but — because the
segment count is obtained by *truncating* `|sweep| / 10°` — each segment's
angular sweep is only guaranteed to be below 15° (π/12), not at most 10°. -/
theorem C4_arc_segments (sx sy ex ey oi oj : ℝ) (cw : Bool)
    (hr : Real.sqrt (oi ^ 2 + oj ^ 2) ≠ 0) :
    (Srv.interpolateArcPoints (some sx) (some sy) ex ey (some oi) (some oj)
      cw).length = Srv.arcSegmentCount (Srv.arcSweep sx sy ex ey oi oj cw) ∧
    2 ≤ Srv.arcSegmentCount (Srv.arcSweep sx sy ex ey oi oj cw) ∧
    |Srv.arcSweep sx sy ex ey oi oj cw| /
      (Srv.arcSegmentCount (Srv.arcSweep sx sy ex ey oi oj cw) : ℝ) <
      Real.pi / 12 := by
  refine ⟨?_, le_max_left _ _, arcSegmentCount_seg_lt _⟩
  dsimp only [Srv.interpolateArcPoints]
  rw [if_neg hr]
  simp [List.length_map, List.length_range]

/-- Witness for the amended C4: the unit quarter arc from (1,0) to (0,1)
about the origin (I = -1, J = 0, counter-clockwise) has nonzero radius, at
least 2 segments, and per-segment sweep below π/12. -/
theorem C4_arc_segments_witness :
    Real.sqrt ((-1 : ℝ) ^ 2 + (0 : ℝ) ^ 2) ≠ 0 ∧
    2 ≤ Srv.arcSegmentCount (Srv.arcSweep 1 0 0 1 (-1) 0 false) ∧
    |Srv.arcSweep 1 0 0 1 (-1) 0 false| /
      (Srv.arcSegmentCount (Srv.arcSweep 1 0 0 1 (-1) 0 false) : ℝ) <
      Real.pi / 12 := by
  have hr : Real.sqrt ((-1 : ℝ) ^ 2 + (0 : ℝ) ^ 2) ≠ 0 := by
    norm_num [Real.sqrt_one]
  exact ⟨hr, (C4_arc_segments 1 0 0 1 (-1) 0 false hr).2.1,
    (C4_arc_segments 1 0 0 1 (-1) 0 false hr).2.2⟩

/-- Counterexample to C4 as stated: a 45° counter-clockwise arc on the unit
circle (start (1,0), end (√2/2, √2/2), I = -1, J = 0).  The sweep is π/4,
`int(abs(sweep)/radians(10))` truncates 4.5 to 4 segments, and each segment
then sweeps π/16 = 11.25°, strictly more than the claimed 10° maximum. -/
theorem C4_counterexample :
    Srv.arcSweep 1 0 (Real.sqrt 2 / 2) (Real.sqrt 2 / 2) (-1) 0 false =
      Real.pi / 4 ∧
    Srv.arcSegmentCount (Real.pi / 4) = 4 ∧
    (Srv.interpolateArcPoints (some 1) (some 0) (Real.sqrt 2 / 2)
      (Real.sqrt 2 / 2) (some (-1)) (some 0) false).length = 4 ∧
    Srv.segmentAngle <
      |Real.pi / 4| / (Srv.arcSegmentCount (Real.pi / 4) : ℝ) := by
  have hs2 : (0:ℝ) < Real.sqrt 2 / 2 := by
    have := Real.sqrt_pos.mpr (by norm_num : (0:ℝ) < 2)
    linarith
  have h1 : Srv.pyAtan2 ((0:ℝ) - (0 + 0)) ((1:ℝ) - (1 + -1)) = 0 := by
    rw [Srv.pyAtan2]
    norm_num [Real.arctan_zero]
  have h2 : Srv.pyAtan2 (Real.sqrt 2 / 2 - (0 + 0))
      (Real.sqrt 2 / 2 - (1 + -1)) = Real.pi / 4 := by
    rw [Srv.pyAtan2]
    rw [if_pos (by simpa using hs2)]
    rw [show Real.sqrt 2 / 2 - (0 + 0) = Real.sqrt 2 / 2 by ring,
      show Real.sqrt 2 / 2 - (1 + -1) = Real.sqrt 2 / 2 by ring]
    rw [div_self (ne_of_gt hs2), Real.arctan_one]
  have hsweep : Srv.arcSweep 1 0 (Real.sqrt 2 / 2) (Real.sqrt 2 / 2)
      (-1) 0 false = Real.pi / 4 := by
    dsimp only [Srv.arcSweep]
    rw [h1, h2]
    have hc1 : ¬ ((false = true) ∧ 0 ≤ Real.pi / 4 - 0) := by simp
    have hc2 : ¬ (¬ (false = true) ∧ Real.pi / 4 - 0 ≤ 0) := by
      have := Real.pi_pos
      push_neg
      intro _
      linarith
    rw [if_neg hc1, if_neg hc2, sub_zero]
  have hq : Real.pi / 4 / Srv.segmentAngle = 9 / 2 := by
    rw [Srv.segmentAngle]
    have hπ : Real.pi ≠ 0 := Real.pi_ne_zero
    field_simp
    ring
  have hseg : Srv.arcSegmentCount (Real.pi / 4) = 4 := by
    rw [Srv.arcSegmentCount]
    rw [abs_of_pos (by positivity : (0:ℝ) < Real.pi / 4), hq]
    have h92 : ⌊(9:ℝ) / 2⌋ = 4 := by norm_num [Int.floor_eq_iff]
    rw [h92]
    decide
  refine ⟨hsweep, hseg, ?_, ?_⟩
  · dsimp only [Srv.interpolateArcPoints]
    rw [if_neg (by norm_num [Real.sqrt_one] :
      ¬ Real.sqrt ((-1 : ℝ) ^ 2 + (0 : ℝ) ^ 2) = 0)]
    simp only [List.length_map, List.length_range]
    rw [hsweep, hseg]
  · rw [hseg, abs_of_pos (by positivity : (0:ℝ) < Real.pi / 4),
      Srv.segmentAngle]
    rw [show Real.pi / 4 / ((4:ℕ) : ℝ) = Real.pi / 16 by push_cast; ring]
    exact div_lt_div_of_pos_left Real.pi_pos (by norm_num) (by norm_num)

end GC

namespace GC.HKG

end GC.HKG

namespace GC

theorem digitChar_isDigit {d : Nat} (h : d < 10) :
    (Nat.digitChar d).isDigit = true := by
  interval_cases d <;> rfl

theorem natToStr_all_digits (n : Nat) :
    ∀ c ∈ natToStr n, c.isDigit = true := by
  by_cases h : n = 0
  · subst h
    intro c hc
    simp [natToStr] at hc
    subst hc
    rfl
  · rw [natToStr_of_pos (Nat.pos_of_ne_zero h)]
    intro c hc
    rw [List.mem_reverse, List.mem_map] at hc
    obtain ⟨d, hd, rfl⟩ := hc
    exact digitChar_isDigit (Nat.digits_lt_base (by norm_num) hd)

theorem digitsToNat_foldl_init (t : Str) (a : Nat) :
    t.foldl (fun a c => a * 10 + (c.toNat - 48)) a =
      a * 10 ^ t.length + digitsToNat t := by
  induction t generalizing a with
  | nil => simp [digitsToNat]
  | cons c t ih =>
    rw [List.foldl_cons, ih]
    have h2 : digitsToNat (c :: t) =
        (c.toNat - 48) * 10 ^ t.length + digitsToNat t := by
      rw [digitsToNat, List.foldl_cons]
      have := ih (0 * 10 + (c.toNat - 48))
      rw [this]
      ring_nf
    rw [h2, List.length_cons]
    ring

theorem digitsToNat_append (x y : Str) :
    digitsToNat (x ++ y) = digitsToNat x * 10 ^ y.length + digitsToNat y := by
  rw [digitsToNat, List.foldl_append, ← digitsToNat, digitsToNat_foldl_init]

theorem digitsToNat_natToStr (n : Nat) : digitsToNat (natToStr n) = n := by
  by_cases h : n = 0
  · subst h
    rfl
  · rw [natToStr_of_pos (Nat.pos_of_ne_zero h), ← List.map_reverse,
      digitsToNat]
    have h10 := foldl_digitChar_reverse (Nat.digits 10 n)
      (fun d hd => Nat.digits_lt_base (by norm_num) hd) 0
    rw [h10]
    simp [Nat.ofDigits_digits]

theorem takeDigits_run (s r : Str) (hs : ∀ c ∈ s, c.isDigit = true)
    (hr : ∀ c, r.head? = some c → c.isDigit = false) :
    takeDigits (s ++ r) = (digitsToNat s, s.length, r) := by
  induction s with
  | nil =>
    simp only [List.nil_append]
    cases r with
    | nil => rfl
    | cons c t =>
      rw [takeDigits, if_neg]
      · rfl
      · simp [hr c rfl]
  | cons c s ih =>
    have hc : c.isDigit = true := hs c (List.mem_cons_self c s)
    rw [List.cons_append, takeDigits, if_pos hc,
      ih (fun x hx => hs x (List.mem_cons_of_mem c hx))]
    have hval : digitsToNat (c :: s) =
        digitsToNat s + (c.toNat - 48) * 10 ^ s.length := by
      rw [show (c :: s : Str) = [c] ++ s by rfl, digitsToNat_append]
      have h1 : digitsToNat [c] = c.toNat - 48 := by simp [digitsToNat]
      rw [h1]
      ring
    rw [hval]
    rfl

theorem digitsToNat_replicate_zero (k : Nat) :
    digitsToNat (List.replicate k '0') = 0 := by
  induction k with
  | zero => rfl
  | succ n ih =>
    rw [show List.replicate (n + 1) '0' = ['0'] ++ List.replicate n '0' by rfl,
      digitsToNat_append, ih]
    simp [digitsToNat]

theorem natToStr_len_le {m e : Nat} (h : m < 10 ^ e) (he : 0 < e) :
    (natToStr m).length ≤ e := by
  by_cases hm : m = 0
  · subst hm
    simp [natToStr]
    omega
  · rw [natToStr_of_pos (Nat.pos_of_ne_zero hm), List.length_reverse,
      List.length_map, Nat.digits_len 10 m (by norm_num) hm]
    have := Nat.log_lt_of_lt_pow hm h
    omega

theorem zfill_digits (k : Nat) (s : Str) (hs : ∀ c ∈ s, c.isDigit = true) :
    (∀ c ∈ zfill k s, c.isDigit = true) ∧
    digitsToNat (zfill k s) = digitsToNat s ∧
    (s.length ≤ k → (zfill k s).length = k) := by
  refine ⟨?_, ?_, ?_⟩
  · intro c hc
    rw [zfill, List.mem_append] at hc
    rcases hc with h | h
    · rw [List.eq_of_mem_replicate h]
      rfl
    · exact hs c h
  · rw [zfill, digitsToNat_append]
    have : digitsToNat (List.replicate (k - s.length) '0') = 0 :=
      digitsToNat_replicate_zero _
    rw [this]
    ring
  · intro hl
    rw [zfill, List.length_append, List.length_replicate]
    omega

theorem rstripChar_append_last {c d : Char} (l : Str) (hd : d ≠ c) :
    rstripChar c (l ++ [d]) = l ++ [d] := by
  rw [rstripChar, List.reverse_append, List.reverse_singleton,
    List.singleton_append, List.dropWhile_cons_of_neg (by simp [hd])]
  simp

theorem rstripChar_append_replicate (c : Char) (l : Str) (k : Nat) :
    rstripChar c (l ++ List.replicate k c) = rstripChar c l := by
  rw [rstripChar, rstripChar, List.reverse_append, List.reverse_replicate]
  congr 1
  induction k with
  | zero => simp
  | succ n ih =>
    rw [List.replicate_succ, List.cons_append,
      List.dropWhile_cons_of_pos (by simp)]
    exact ih

theorem exists_trailing_run (c : Char) (l : Str) :
    ∃ l' k, l = l' ++ List.replicate k c ∧
      (l' = [] ∨ ∃ t d, l' = t ++ [d] ∧ d ≠ c) := by
  induction l using List.reverseRecOn with
  | nil => exact ⟨[], 0, by simp, Or.inl rfl⟩
  | append_singleton t d ih =>
    by_cases hd : d = c
    · obtain ⟨l', k, ht, hlast⟩ := ih
      subst hd
      refine ⟨l', k + 1, ?_, hlast⟩
      rw [ht, List.append_assoc, ← List.replicate_succ']
    · exact ⟨t ++ [d], 0, by simp, Or.inr ⟨t, d, rfl, hd⟩⟩

theorem takeDigits_all (s : Str) (hs : ∀ c ∈ s, c.isDigit = true) :
    takeDigits s = (digitsToNat s, s.length, []) := by
  have := takeDigits_run s [] hs (by intro c h; simp at h)
  simpa using this

theorem parseFinite_dec_str (I F : Str) (hI : ∀ c ∈ I, c.isDigit = true)
    (hF : ∀ c ∈ F, c.isDigit = true) (hIne : I ≠ []) (hFne : F ≠ []) :
    parseFinite (I ++ '.' :: F) =
      some ((digitsToNat I : ℚ) + (digitsToNat F : ℚ) / 10 ^ F.length) ∧
    parseFinite ('-' :: (I ++ '.' :: F)) =
      some (-((digitsToNat I : ℚ) + (digitsToNat F : ℚ) / 10 ^ F.length)) := by
  obtain ⟨c, I', rfl⟩ : ∃ c I', I = c :: I' := by
    cases I with
    | nil => exact absurd rfl hIne
    | cons c I' => exact ⟨c, I', rfl⟩
  have hc : c.isDigit = true := hI c (List.mem_cons_self c I')
  have h1 : ¬ (c = '-') := by rintro rfl; exact absurd hc (by decide)
  have h2 : ¬ (c = '+') := by rintro rfl; exact absurd hc (by decide)
  have hrun : takeDigits (c :: (I' ++ '.' :: F)) =
      (digitsToNat (c :: I'), (c :: I').length, '.' :: F) := by
    rw [← List.cons_append]
    refine takeDigits_run _ _ hI ?_
    intro x hx
    rw [List.head?_cons, Option.some.injEq] at hx
    subst hx
    rfl
  have hrunF : takeDigits F = (digitsToNat F, F.length, []) :=
    takeDigits_all F hF
  have hcond : ¬ ((c :: I').length = 0 ∧ F.length = 0) := by
    simp
  constructor
  · rw [parseFinite.eq_def]
    simp only [List.cons_append]
    rw [if_neg h1, if_neg h2]
    dsimp only
    rw [hrun]
    dsimp only
    rw [if_pos rfl, hrunF]
    dsimp only
    rw [if_neg hcond]
    rw [one_mul]
  · rw [parseFinite.eq_def]
    simp only [List.cons_append]
    simp only [if_true]
    rw [hrun]
    dsimp only
    rw [if_pos rfl, hrunF]
    dsimp only
    rw [if_neg hcond]
    rw [neg_one_mul]

theorem parseFinite_int_str (I : Str) (hI : ∀ c ∈ I, c.isDigit = true)
    (hIne : I ≠ []) :
    parseFinite I = some (digitsToNat I : ℚ) ∧
    parseFinite ('-' :: I) = some (-(digitsToNat I : ℚ)) := by
  obtain ⟨c, I', rfl⟩ : ∃ c I', I = c :: I' := by
    cases I with
    | nil => exact absurd rfl hIne
    | cons c I' => exact ⟨c, I', rfl⟩
  have hc : c.isDigit = true := hI c (List.mem_cons_self c I')
  have h1 : ¬ (c = '-') := by rintro rfl; exact absurd hc (by decide)
  have h2 : ¬ (c = '+') := by rintro rfl; exact absurd hc (by decide)
  have hrun : takeDigits (c :: I') =
      (digitsToNat (c :: I'), (c :: I').length, []) :=
    takeDigits_all _ hI
  have hcond : ¬ ((c :: I').length = 0 ∧ (0 : Nat) = 0) := by
    simp
  constructor
  · rw [parseFinite.eq_def]
    dsimp only
    rw [if_neg h1, if_neg h2]
    dsimp only
    rw [hrun]
    dsimp only
    rw [if_neg hcond]
    norm_num
  · rw [parseFinite.eq_def]
    dsimp only
    rw [if_pos rfl]
    dsimp only
    rw [hrun]
    dsimp only
    rw [if_neg hcond]
    norm_num

theorem round_nearest (x : ℚ) (m : ℤ) : |x - round x| ≤ |x - (m : ℚ)| := by
  by_cases h : m = round x
  · subst h
    exact le_refl _
  · have h1 : |x - (round x : ℚ)| ≤ 1 / 2 := abs_sub_round x
    have h2 : (1 : ℚ) ≤ |(round x : ℚ) - (m : ℚ)| := by
      have hne : round x - m ≠ 0 := sub_ne_zero.mpr (fun hh => h hh.symm)
      have := Int.one_le_abs hne
      calc (1 : ℚ) = ((1 : ℤ) : ℚ) := by norm_num
        _ ≤ ((|round x - m| : ℤ) : ℚ) := by exact_mod_cast this
        _ = |(round x : ℚ) - (m : ℚ)| := by push_cast; rfl
    have h3 : |(round x : ℚ) - m| ≤ |(round x : ℚ) - x| + |x - m| :=
      abs_sub_le _ x _
    have h4 : |(round x : ℚ) - x| = |x - (round x : ℚ)| := abs_sub_comm _ _
    linarith

theorem parseFinite_intToStr (n : ℤ) : parseFinite (intToStr n) = some (n : ℚ) := by
  rw [intToStr]
  by_cases h : n < 0
  · rw [if_pos h]
    obtain ⟨m, rfl⟩ := Int.eq_negSucc_of_lt_zero h
    rw [(parseFinite_int_str (natToStr (Int.negSucc m).natAbs)
      (natToStr_all_digits _) (natToStr_ne_nil _)).2, digitsToNat_natToStr]
    congr 1
  · rw [if_neg h]
    obtain ⟨m, rfl⟩ := Int.eq_ofNat_of_zero_le (not_lt.mp h)
    rw [(parseFinite_int_str (natToStr (m : ℤ).natAbs)
      (natToStr_all_digits _) (natToStr_ne_nil _)).1, digitsToNat_natToStr]
    congr 1

theorem pySpace_false_of_digit' {ch : Char} (h : ch.isDigit = true) :
    pySpace ch = false := by
  rw [pySpace]
  simp only [Bool.or_eq_false_iff]
  refine ⟨⟨⟨⟨⟨?_, ?_⟩, ?_⟩, ?_⟩, ?_⟩, ?_⟩ <;>
    (apply decide_eq_false; rintro rfl; exact absurd h (by decide))

theorem lstrip_of_no_space (s : Str) (h : ∀ c ∈ s, pySpace c = false) :
    lstrip s = s := by
  cases s with
  | nil => rfl
  | cons c t =>
    rw [lstrip, List.dropWhile_cons_of_neg
      (by simp [h c (List.mem_cons_self c t)])]

theorem rstrip_of_no_space (s : Str) (h : ∀ c ∈ s, pySpace c = false) :
    rstrip s = s := by
  induction s using List.reverseRecOn with
  | nil => rfl
  | append_singleton Y d _ =>
    rw [rstrip, List.reverse_append, List.reverse_singleton,
      List.singleton_append, List.dropWhile_cons_of_neg
        (by simp [h d (List.mem_append_right _ (List.mem_singleton_self d))])]
    simp

theorem strip_of_no_space (s : Str) (h : ∀ c ∈ s, pySpace c = false) :
    strip s = s := by
  rw [strip, lstrip_of_no_space s h,
    rstrip_of_no_space s (fun c hc => h c hc)]

theorem remUnderscoresGo_id (s : Str) (h : ¬ '_' ∈ s) :
    ∀ b, remUnderscoresGo b s = some s := by
  induction s with
  | nil => intro b; rfl
  | cons c t ih =>
    intro b
    rw [remUnderscoresGo.eq_def]
    dsimp only
    rw [if_neg (by
      rintro rfl
      exact h (List.mem_cons_self _ t))]
    rw [ih (fun hx => h (List.mem_cons_of_mem c hx)) c.isDigit]
    rfl

theorem remUnderscores_id (s : Str) (h : ¬ '_' ∈ s) :
    remUnderscores s = some s := by
  rw [remUnderscores, remUnderscoresGo_id s h]

theorem isCaseOf_false (p : Char) (ps : List Char) (b : Str)
    (hb : ∀ c ∈ b, c.isDigit = true ∨ c = '-' ∨ c = '.')
    (hp1 : p.isDigit = false ∧ p ≠ '-' ∧ p ≠ '.')
    (hp2 : (p.toUpper).isDigit = false ∧ p.toUpper ≠ '-' ∧ p.toUpper ≠ '.') :
    isCaseOf (p :: ps) b = false := by
  cases b with
  | nil => rfl
  | cons c cs =>
    rw [isCaseOf]
    have hcp : (c = p ∨ c = p.toUpper) = False := by
      apply eq_false
      intro hor
      have hfacts : c.isDigit = false ∧ c ≠ '-' ∧ c ≠ '.' := by
        rcases hor with rfl | rfl
        · exact hp1
        · exact hp2
      obtain ⟨h1, h2, h3⟩ := hfacts
      rcases hb c (List.mem_cons_self c cs) with h | h | h
      · rw [h1] at h
        exact Bool.noConfusion h
      · exact h2 h
      · exact h3 h
    simp [hcp]

/-- On text whose characters are digits, `-` or `.`, the full `float` model
reduces to the finite-literal parser: no whitespace to strip, no special
names, no underscores. -/
theorem parseFloat_plain (s : Str)
    (h : ∀ c ∈ s, c.isDigit = true ∨ c = '-' ∨ c = '.') :
    parseFloat s = (parseFinite s).map PyFloat.finite := by
  have hsp : ∀ c ∈ s, pySpace c = false := by
    intro c hc
    rcases h c hc with h1 | h1 | h1
    · exact pySpace_false_of_digit' h1
    · rw [h1]; rfl
    · rw [h1]; rfl
  have hstr : strip s = s := strip_of_no_space s hsp
  have hu : ¬ '_' ∈ s := by
    intro hmem
    rcases h _ hmem with h1 | h1 | h1 <;> exact absurd h1 (by decide)
  have hbody : ∀ b : Str, (∀ c ∈ b, c.isDigit = true ∨ c = '-' ∨ c = '.') →
      (isCaseOf infName b = false ∧ isCaseOf infinityName b = false ∧
        isCaseOf nanName b = false) := by
    intro b hb
    refine ⟨?_, ?_, ?_⟩
    · exact isCaseOf_false 'i' _ b hb (by decide) (by decide)
    · exact isCaseOf_false 'i' _ b hb (by decide) (by decide)
    · exact isCaseOf_false 'n' _ b hb (by decide) (by decide)
  cases s with
  | nil => rfl
  | cons c r =>
    rw [parseFloat.eq_def, hstr]
    dsimp only
    by_cases hsign : c = '-' ∨ c = '+'
    · rw [if_pos hsign]
      obtain ⟨hb1, hb2, hb3⟩ := hbody r
        (fun x hx => h x (List.mem_cons_of_mem c hx))
      rw [hb1, hb2, hb3, remUnderscores_id _ hu]
      simp only [Bool.false_eq_true, or_self, if_false]
    · rw [if_neg hsign]
      obtain ⟨hb1, hb2, hb3⟩ := hbody (c :: r) (fun x hx => h x hx)
      rw [hb1, hb2, hb3, remUnderscores_id _ hu]
      simp only [Bool.false_eq_true, or_self, if_false]

theorem pyTrunc_den_one {v : ℚ} (h : v.den = 1) : ((pyTrunc v : ℤ) : ℚ) = v := by
  have hv : ((v.num : ℤ) : ℚ) = v := (Rat.den_eq_one_iff v).mp h
  rw [pyTrunc]
  by_cases h0 : 0 ≤ v
  · rw [if_pos h0, ← hv, Int.floor_intCast]
  · rw [if_neg h0]
    have : -v = ((-v.num : ℤ) : ℚ) := by push_cast; rw [hv]
    rw [this, Int.floor_intCast]
    push_cast
    rw [hv]
    ring

theorem takeWhile_all {p : Char → Bool} (l : Str) (h : ∀ c ∈ l, p c = true) :
    l.takeWhile p = l := by
  induction l with
  | nil => rfl
  | cons c t ih =>
    rw [List.takeWhile_cons, if_pos (h c (List.mem_cons_self c t))]
    rw [ih (fun x hx => h x (List.mem_cons_of_mem c hx))]

theorem takeWhile_run {p : Char → Bool} (x y : Str)
    (hx : ∀ c ∈ x, p c = true) (hy : ∀ c, y.head? = some c → p c = false) :
    (x ++ y).takeWhile p = x := by
  induction x with
  | nil =>
    cases y with
    | nil => rfl
    | cons c t =>
      simp only [List.nil_append, List.takeWhile_cons, hy c rfl]
      rfl
  | cons c t ih =>
    rw [List.cons_append, List.takeWhile_cons,
      if_pos (hx c (List.mem_cons_self c t)),
      ih (fun z hz => hx z (List.mem_cons_of_mem c hz))]

theorem q6_close (v : ℚ) :
    |((round (v * 10 ^ 6) : ℤ) : ℚ) / 10 ^ 6 - v| ≤ 1 / 2000000 := by
  have h1 : |v * 10 ^ 6 - ((round (v * 10 ^ 6) : ℤ) : ℚ)| ≤ 1 / 2 :=
    abs_sub_round _
  have h2 : ((round (v * 10 ^ 6) : ℤ) : ℚ) / 10 ^ 6 - v =
      -((v * 10 ^ 6 - ((round (v * 10 ^ 6) : ℤ) : ℚ)) / 10 ^ 6) := by
    field_simp
    ring
  rw [h2, abs_neg, abs_div, abs_of_pos (by norm_num : (0:ℚ) < 10 ^ 6)]
  rw [div_le_iff (by norm_num : (0:ℚ) < 10 ^ 6)]
  linarith

end GC

namespace GC.HKG

theorem normalize_fix_not_int (v : ℚ) (hv : normalizeValue v = v)
    (hint : isIntQ v = false) : tol ≤ |v - ((round v : ℤ) : ℚ)| := by
  by_contra h
  push_neg at h
  have hn : normalizeValue v = ((round v : ℤ) : ℚ) := by
    rw [normalizeValue]
    rw [if_pos h]
  rw [hv] at hn
  have hden : v.den = 1 := by
    rw [hn]
    exact Rat.den_intCast _
  rw [isIntQ] at hint
  simp [hden] at hint

theorem q6_frac_ne (v : ℚ) (hv : normalizeValue v = v)
    (hint : isIntQ v = false) :
    (round (v * 10 ^ 6)).natAbs % 10 ^ 6 ≠ 0 := by
  intro h0
  have hdvd : (10 ^ 6 : ℤ) ∣ round (v * 10 ^ 6) := by
    have h1 : (10 ^ 6 : ℕ) ∣ (round (v * 10 ^ 6)).natAbs :=
      Nat.dvd_of_mod_eq_zero h0
    have h2 : ((10 ^ 6 : ℕ) : ℤ) ∣ (((round (v * 10 ^ 6)).natAbs : ℕ) : ℤ) :=
      Int.natCast_dvd_natCast.mpr h1
    rw [Int.dvd_natAbs] at h2
    exact_mod_cast h2
  obtain ⟨m, hm⟩ := hdvd
  have hw : ((round (v * 10 ^ 6) : ℤ) : ℚ) / 10 ^ 6 = (m : ℚ) := by
    rw [hm, Int.cast_mul]
    rw [mul_comm, mul_div_assoc]
    norm_num
  have hclose := q6_close v
  rw [hw] at hclose
  have h2 := round_nearest v m
  have h3 := normalize_fix_not_int v hv hint
  have h4 : |v - (m : ℚ)| = |(m : ℚ) - v| := abs_sub_comm _ _
  rw [tol] at h3
  linarith

theorem q6_normalize_fix (v : ℚ) (hv : normalizeValue v = v)
    (hint : isIntQ v = false) :
    normalizeValue (((round (v * 10 ^ 6) : ℤ) : ℚ) / 10 ^ 6) =
      ((round (v * 10 ^ 6) : ℤ) : ℚ) / 10 ^ 6 := by
  rw [normalizeValue]
  rw [if_neg]
  intro hlt
  have hclose := q6_close v
  have h3 := normalize_fix_not_int v hv hint
  have h2 := round_nearest v (round (((round (v * 10 ^ 6) : ℤ) : ℚ) / 10 ^ 6))
  have hK : ((round (v * 10 ^ 6) -
      round (((round (v * 10 ^ 6) : ℤ) : ℚ) / 10 ^ 6) * 10 ^ 6 : ℤ) : ℚ) =
      (((round (v * 10 ^ 6) : ℤ) : ℚ) / 10 ^ 6 -
        ((round (((round (v * 10 ^ 6) : ℤ) : ℚ) / 10 ^ 6) : ℤ) : ℚ)) *
        10 ^ 6 := by
    push_cast
    field_simp
    ring
  have habs : |((round (v * 10 ^ 6) -
      round (((round (v * 10 ^ 6) : ℤ) : ℚ) / 10 ^ 6) * 10 ^ 6 : ℤ) : ℚ)| =
      |((round (v * 10 ^ 6) : ℤ) : ℚ) / 10 ^ 6 -
        ((round (((round (v * 10 ^ 6) : ℤ) : ℚ) / 10 ^ 6) : ℤ) : ℚ)| *
        10 ^ 6 := by
    rw [hK, abs_mul, abs_of_pos (by norm_num : (0:ℚ) < 10 ^ 6)]
  have hwm : tol - 1 / 2000000 ≤
      |((round (v * 10 ^ 6) : ℤ) : ℚ) / 10 ^ 6 -
        ((round (((round (v * 10 ^ 6) : ℤ) : ℚ) / 10 ^ 6) : ℤ) : ℚ)| := by
    have hc1 : |v - ((round (((round (v * 10 ^ 6) : ℤ) : ℚ) / 10 ^ 6) : ℤ) :
        ℚ)| ≤ |v - ((round (v * 10 ^ 6) : ℤ) : ℚ) / 10 ^ 6| +
        |((round (v * 10 ^ 6) : ℤ) : ℚ) / 10 ^ 6 -
          ((round (((round (v * 10 ^ 6) : ℤ) : ℚ) / 10 ^ 6) : ℤ) : ℚ)| :=
      abs_sub_le _ _ _
    have hc2 : |v - ((round (v * 10 ^ 6) : ℤ) : ℚ) / 10 ^ 6| =
        |((round (v * 10 ^ 6) : ℤ) : ℚ) / 10 ^ 6 - v| := abs_sub_comm _ _
    linarith
  have hKint : (99 : ℤ) < |round (v * 10 ^ 6) -
      round (((round (v * 10 ^ 6) : ℤ) : ℚ) / 10 ^ 6) * 10 ^ 6| := by
    have : (99 : ℚ) < |((round (v * 10 ^ 6) -
        round (((round (v * 10 ^ 6) : ℤ) : ℚ) / 10 ^ 6) * 10 ^ 6 : ℤ) : ℚ)| := by
      rw [habs, tol] at *
      nlinarith
    rw [← Int.cast_abs] at this
    exact_mod_cast this
  have hK100 : (100 : ℤ) ≤ |round (v * 10 ^ 6) -
      round (((round (v * 10 ^ 6) : ℤ) : ℚ) / 10 ^ 6) * 10 ^ 6| := hKint
  have hfin : (100 : ℚ) ≤ |((round (v * 10 ^ 6) -
      round (((round (v * 10 ^ 6) : ℤ) : ℚ) / 10 ^ 6) * 10 ^ 6 : ℤ) : ℚ)| := by
    rw [← Int.cast_abs]
    exact_mod_cast hK100
  rw [habs] at hfin
  rw [tol] at hlt
  linarith

end GC.HKG

namespace GC.HKG

theorem floatShape_digits (D : Str) (hD : ∀ c ∈ D, c.isDigit = true)
    (hne : D ≠ []) : floatShape D = true := by
  obtain ⟨c, t, rfl⟩ : ∃ c t, D = c :: t := by
    cases D with
    | nil => exact absurd rfl hne
    | cons c t => exact ⟨c, t, rfl⟩
  have hc : c.isDigit = true := hD c (List.mem_cons_self c t)
  have hsign : (c = '-' ∨ c = '+') = False := by
    apply eq_false
    rintro (h | h) <;> rw [h] at hc <;> exact absurd hc (by decide)
  rw [floatShape.eq_def]
  dsimp only
  simp only [hsign, if_false]
  rw [GC.takeWhile_all _ hD]
  simp only [List.isEmpty_cons, Bool.false_eq_true, if_false,
    List.drop_length]
  rfl

theorem floatShape_decimal (D F : Str) (hD : ∀ c ∈ D, c.isDigit = true)
    (hDne : D ≠ []) (hF : ∀ c ∈ F, c.isDigit = true) :
    floatShape (D ++ '.' :: F) = true := by
  obtain ⟨c, t, rfl⟩ : ∃ c t, D = c :: t := by
    cases D with
    | nil => exact absurd rfl hDne
    | cons c t => exact ⟨c, t, rfl⟩
  have hc : c.isDigit = true := hD c (List.mem_cons_self c t)
  have hsign : (c = '-' ∨ c = '+') = False := by
    apply eq_false
    rintro (h | h) <;> rw [h] at hc <;> exact absurd hc (by decide)
  rw [floatShape.eq_def]
  simp only [List.cons_append]
  simp only [hsign, if_false]
  have hTW : ((c :: (t ++ '.' :: F)).takeWhile Char.isDigit) = c :: t := by
    rw [← List.cons_append]
    exact GC.takeWhile_run _ _ hD (by
      intro x hx
      rw [List.head?_cons, Option.some.injEq] at hx
      subst hx
      rfl)
  rw [hTW]
  have hdrop : List.drop (c :: t).length (c :: (t ++ '.' :: F)) =
      '.' :: F := by
    rw [← List.cons_append]
    exact List.drop_left _ _
  simp only [List.isEmpty_cons, Bool.false_eq_true, if_false, hdrop]
  simp only [if_true, GC.takeWhile_all _ hF, List.drop_length]
  rfl

theorem floatShape_neg (c : Char) (t : Str) (hc : c.isDigit = true) :
    floatShape ('-' :: (c :: t)) = floatShape (c :: t) := by
  have hsign : (c = '-' ∨ c = '+') = False := by
    apply eq_false
    rintro (h | h) <;> rw [h] at hc <;> exact absurd hc (by decide)
  rw [floatShape.eq_def, floatShape.eq_def]
  simp only [hsign, if_false, true_or, if_true]

theorem intToStr_ne_nil (n : ℤ) : intToStr n ≠ [] := by
  rw [intToStr]
  by_cases h : n < 0
  · rw [if_pos h]
    exact List.cons_ne_nil _ _
  · rw [if_neg h]
    exact natToStr_ne_nil _

theorem floatShape_intToStr (n : ℤ) : floatShape (intToStr n) = true := by
  rw [intToStr]
  by_cases h : n < 0
  · rw [if_pos h]
    obtain ⟨c, t, heq⟩ : ∃ c t, natToStr n.natAbs = c :: t := by
      cases hh : natToStr n.natAbs with
      | nil => exact absurd hh (natToStr_ne_nil _)
      | cons c t => exact ⟨c, t, rfl⟩
    rw [heq, floatShape_neg c t (by
      have := natToStr_all_digits n.natAbs
      rw [heq] at this
      exact this c (List.mem_cons_self c t)), ← heq]
    exact floatShape_digits _ (natToStr_all_digits _) (natToStr_ne_nil _)
  · rw [if_neg h]
    exact floatShape_digits _ (natToStr_all_digits _) (natToStr_ne_nil _)

theorem intToStr_chars (n : ℤ) :
    ∀ c ∈ intToStr n, c.isDigit = true ∨ c = '-' ∨ c = '.' := by
  intro c hc
  rw [intToStr] at hc
  by_cases h : n < 0
  · rw [if_pos h] at hc
    rcases List.mem_cons.mp hc with rfl | hmem
    · exact Or.inr (Or.inl rfl)
    · exact Or.inl (natToStr_all_digits _ c hmem)
  · rw [if_neg h] at hc
    exact Or.inl (natToStr_all_digits _ c hc)

end GC.HKG

namespace GC.HKG

theorem formatNumber_frac_form (v : ℚ) (hv : normalizeValue v = v)
    (hint : isIntQ v = false) :
    ∃ F' : Str, (∀ c ∈ F', c.isDigit = true) ∧ F' ≠ [] ∧
      formatNumber v =
        (if round (v * 10 ^ 6) < 0 then ['-'] else []) ++
          (natToStr ((round (v * 10 ^ 6)).natAbs / 10 ^ 6) ++ '.' :: F') ∧
      (digitsToNat F' : ℚ) / 10 ^ F'.length =
        (((round (v * 10 ^ 6)).natAbs % 10 ^ 6 : ℕ) : ℚ) / 10 ^ 6 := by
  have hfr := q6_frac_ne v hv hint
  have hFd : ∀ c ∈ zfill 6 (natToStr ((round (v * 10 ^ 6)).natAbs % 10 ^ 6)),
      c.isDigit = true :=
    (zfill_digits 6 _ (natToStr_all_digits _)).1
  have hFval : digitsToNat
      (zfill 6 (natToStr ((round (v * 10 ^ 6)).natAbs % 10 ^ 6))) =
      (round (v * 10 ^ 6)).natAbs % 10 ^ 6 := by
    rw [(zfill_digits 6 _ (natToStr_all_digits _)).2.1, digitsToNat_natToStr]
  have hFlen : (zfill 6 (natToStr ((round (v * 10 ^ 6)).natAbs % 10 ^ 6))).length
      = 6 := by
    refine (zfill_digits 6 _ (natToStr_all_digits _)).2.2 ?_
    exact natToStr_len_le (Nat.mod_lt _ (by norm_num)) (by norm_num)
  obtain ⟨F', k, hF, hlast⟩ := exists_trailing_run '0'
    (zfill 6 (natToStr ((round (v * 10 ^ 6)).natAbs % 10 ^ 6)))
  have hF'ne : F' ≠ [] := by
    rintro rfl
    rw [List.nil_append] at hF
    rw [hF, digitsToNat_replicate_zero] at hFval
    exact hfr hFval.symm
  obtain ⟨t, d, hF', hd0⟩ : ∃ t d, F' = t ++ [d] ∧ d ≠ '0' := by
    rcases hlast with h | h
    · exact absurd h hF'ne
    · exact h
  have hF'digits : ∀ c ∈ F', c.isDigit = true := by
    intro c hc
    exact hFd c (hF ▸ List.mem_append_left _ hc)
  have hdd : d.isDigit = true :=
    hF'digits d (hF' ▸ List.mem_append_right _ (List.mem_singleton_self d))
  have hform : formatNumber v =
      (if round (v * 10 ^ 6) < 0 then ['-'] else []) ++
        (natToStr ((round (v * 10 ^ 6)).natAbs / 10 ^ 6) ++ '.' :: F') := by
    rw [formatNumber]
    rw [hv]
    rw [if_neg (by simp [hint])]
    have hrat : ratFixed 6 v =
        (if round (v * 10 ^ 6) < 0 then ['-'] else []) ++
          (natToStr ((round (v * 10 ^ 6)).natAbs / 10 ^ 6) ++ '.' ::
            zfill 6 (natToStr ((round (v * 10 ^ 6)).natAbs % 10 ^ 6))) := by
      rw [ratFixed]
      rw [if_neg (by norm_num)]
      simp [List.append_assoc]
    rw [hrat, hF, hF']
    have hassoc : (if round (v * 10 ^ 6) < 0 then ['-'] else []) ++
        (natToStr ((round (v * 10 ^ 6)).natAbs / 10 ^ 6) ++ '.' ::
          ((t ++ [d]) ++ List.replicate k '0')) =
        (((if round (v * 10 ^ 6) < 0 then ['-'] else []) ++
          (natToStr ((round (v * 10 ^ 6)).natAbs / 10 ^ 6) ++ '.' :: t)) ++ [d])
          ++ List.replicate k '0' := by
      simp [List.append_assoc]
    rw [hassoc, rstripChar_append_replicate, rstripChar_append_last _ hd0,
      rstripChar_append_last _ (by rintro rfl; exact absurd hdd (by decide))]
    rw [if_neg (by simp)]
    simp [List.append_assoc]
  refine ⟨F', hF'digits, hF'ne, hform, ?_⟩
  have hlen : F'.length + k = 6 := by
    rw [← hFlen, hF, List.length_append, List.length_replicate]
  have hval : digitsToNat F' * 10 ^ k = (round (v * 10 ^ 6)).natAbs % 10 ^ 6 := by
    rw [← hFval, hF, digitsToNat_append, digitsToNat_replicate_zero,
      List.length_replicate]
    ring
  rw [← hval]
  push_cast
  rw [show (6 : ℕ) = F'.length + k from hlen.symm, pow_add]
  rw [mul_div_mul_right _ _ (by positivity : (10 : ℚ) ^ k ≠ 0)]

end GC.HKG

namespace GC.HKG

theorem formatNumber_spec (v : ℚ) (hv : normalizeValue v = v) :
    ∃ w : ℚ, parseFloat (formatNumber v) = some (PyFloat.finite w) ∧
      normalizeValue w = w ∧
      |w - v| < tol ∧ floatShape (formatNumber v) = true ∧
      (∀ c ∈ formatNumber v, c.isDigit = true ∨ c = '-' ∨ c = '.') ∧
      formatNumber v ≠ [] := by
  by_cases hint : isIntQ v = true
  · have hden : v.den = 1 := of_decide_eq_true hint
    have hform : formatNumber v = intToStr (pyTrunc v) := by
      rw [formatNumber]
      rw [hv]
      rw [if_pos hint]
    refine ⟨v, ?_, hv, ?_, ?_, ?_, ?_⟩
    · rw [hform, GC.parseFloat_plain _ (intToStr_chars _), parseFinite_intToStr,
        Option.map_some', pyTrunc_den_one hden]
    · rw [tol]
      simp
    · rw [hform]
      exact floatShape_intToStr _
    · rw [hform]
      exact intToStr_chars _
    · rw [hform]
      exact intToStr_ne_nil _
  · have hint' : isIntQ v = false := by
      cases h : isIntQ v with
      | true => exact absurd h hint
      | false => rfl
    obtain ⟨F', hF'd, hF'ne, hform, hfrac⟩ :=
      formatNumber_frac_form v hv hint'
    have hchars : ∀ c ∈ formatNumber v,
        c.isDigit = true ∨ c = '-' ∨ c = '.' := by
      rw [hform]
      intro c hc
      rw [List.mem_append] at hc
      rcases hc with h | h
      · by_cases hneg : round (v * 10 ^ 6) < 0
        · rw [if_pos hneg] at h
          rw [List.mem_singleton] at h
          subst h
          exact Or.inr (Or.inl rfl)
        · rw [if_neg hneg] at h
          exact absurd h (List.not_mem_nil c)
      · rw [List.mem_append] at h
        rcases h with h | h
        · exact Or.inl (natToStr_all_digits _ c h)
        · rcases List.mem_cons.mp h with rfl | h
          · exact Or.inr (Or.inr rfl)
          · exact Or.inl (hF'd c h)
    have hfin : parseFinite (formatNumber v) =
        some (((round (v * 10 ^ 6) : ℤ) : ℚ) / 10 ^ 6) := by
      rw [hform]
      by_cases hneg : round (v * 10 ^ 6) < 0
      · rw [if_pos hneg]
        rw [show (['-'] : Str) ++
            (natToStr ((round (v * 10 ^ 6)).natAbs / 10 ^ 6) ++ '.' :: F') =
            '-' :: (natToStr ((round (v * 10 ^ 6)).natAbs / 10 ^ 6) ++
              '.' :: F') from rfl]
        rw [(parseFinite_dec_str _ _ (natToStr_all_digits _) hF'd
          (natToStr_ne_nil _) hF'ne).2]
        congr 1
        rw [digitsToNat_natToStr, hfrac]
        have hsplit : ((((round (v * 10 ^ 6)).natAbs / 10 ^ 6 : ℕ) : ℚ) +
            (((round (v * 10 ^ 6)).natAbs % 10 ^ 6 : ℕ) : ℚ) / 10 ^ 6) =
            (((round (v * 10 ^ 6)).natAbs : ℕ) : ℚ) / 10 ^ 6 := by
          have h1 : ((10 ^ 6 * ((round (v * 10 ^ 6)).natAbs / 10 ^ 6) +
              (round (v * 10 ^ 6)).natAbs % 10 ^ 6 : ℕ) : ℚ) =
              (((round (v * 10 ^ 6)).natAbs : ℕ) : ℚ) := by
            rw [Nat.div_add_mod]
          push_cast at h1
          field_simp
          linarith [h1]
        rw [hsplit]
        have habs : (((round (v * 10 ^ 6)).natAbs : ℕ) : ℚ) =
            -((round (v * 10 ^ 6) : ℤ) : ℚ) := by
          obtain ⟨m, hm⟩ := Int.eq_negSucc_of_lt_zero hneg
          rw [hm, Int.natAbs_negSucc, Int.negSucc_eq]
          push_cast
          ring
        rw [habs]
        ring
      · rw [if_neg hneg]
        rw [List.nil_append]
        rw [(parseFinite_dec_str _ _ (natToStr_all_digits _) hF'd
          (natToStr_ne_nil _) hF'ne).1]
        congr 1
        rw [digitsToNat_natToStr, hfrac]
        have hsplit : ((((round (v * 10 ^ 6)).natAbs / 10 ^ 6 : ℕ) : ℚ) +
            (((round (v * 10 ^ 6)).natAbs % 10 ^ 6 : ℕ) : ℚ) / 10 ^ 6) =
            (((round (v * 10 ^ 6)).natAbs : ℕ) : ℚ) / 10 ^ 6 := by
          have h1 : ((10 ^ 6 * ((round (v * 10 ^ 6)).natAbs / 10 ^ 6) +
              (round (v * 10 ^ 6)).natAbs % 10 ^ 6 : ℕ) : ℚ) =
              (((round (v * 10 ^ 6)).natAbs : ℕ) : ℚ) := by
            rw [Nat.div_add_mod]
          push_cast at h1
          field_simp
          linarith [h1]
        rw [hsplit]
        have habs : (((round (v * 10 ^ 6)).natAbs : ℕ) : ℚ) =
            ((round (v * 10 ^ 6) : ℤ) : ℚ) := by
          obtain ⟨m, hm⟩ := Int.eq_ofNat_of_zero_le (not_lt.mp hneg)
          rw [hm, Int.natAbs_ofNat]
          simp
        rw [habs]
    refine ⟨((round (v * 10 ^ 6) : ℤ) : ℚ) / 10 ^ 6, ?_, ?_, ?_, ?_, hchars, ?_⟩
    · rw [GC.parseFloat_plain _ hchars, hfin]
      rfl
    · exact q6_normalize_fix v hv hint'
    · have := q6_close v
      rw [tol]
      linarith
    · rw [hform]
      by_cases hneg : round (v * 10 ^ 6) < 0
      · rw [if_pos hneg]
        obtain ⟨c, t, heq⟩ : ∃ c t,
            natToStr ((round (v * 10 ^ 6)).natAbs / 10 ^ 6) ++ '.' :: F' =
              c :: t := by
          cases hh : natToStr ((round (v * 10 ^ 6)).natAbs / 10 ^ 6) with
          | nil => exact absurd hh (natToStr_ne_nil _)
          | cons c t => exact ⟨c, t ++ '.' :: F', by rw [List.cons_append]⟩
        have hchead : c.isDigit = true := by
          have h1 := natToStr_all_digits ((round (v * 10 ^ 6)).natAbs / 10 ^ 6)
          cases hh : natToStr ((round (v * 10 ^ 6)).natAbs / 10 ^ 6) with
          | nil => exact absurd hh (natToStr_ne_nil _)
          | cons c' t' =>
            rw [hh] at heq h1
            rw [List.cons_append, List.cons.injEq] at heq
            rw [← heq.1]
            exact h1 c' (List.mem_cons_self c' t')
        rw [show (['-'] : Str) ++
            (natToStr ((round (v * 10 ^ 6)).natAbs / 10 ^ 6) ++ '.' :: F') =
            '-' :: (natToStr ((round (v * 10 ^ 6)).natAbs / 10 ^ 6) ++
              '.' :: F') from rfl]
        rw [heq, floatShape_neg c t hchead, ← heq]
        exact floatShape_decimal _ _ (natToStr_all_digits _)
          (natToStr_ne_nil _) hF'd
      · rw [if_neg hneg, List.nil_append]
        exact floatShape_decimal _ _ (natToStr_all_digits _)
          (natToStr_ne_nil _) hF'd
    · rw [hform]
      by_cases hneg : round (v * 10 ^ 6) < 0
      · rw [if_pos hneg]
        exact List.cons_ne_nil _ _
      · rw [if_neg hneg, List.nil_append]
        intro hnil
        rw [List.append_eq_nil] at hnil
        exact absurd hnil.1 (natToStr_ne_nil _)

end GC.HKG

namespace GC

theorem splitWsAux_token (t : Str) (ht : ∀ c ∈ t, pySpace c = false) :
    ∀ (acc rest : Str), splitWsAux acc (t ++ rest) =
      splitWsAux (t.reverse ++ acc) rest := by
  induction t with
  | nil => intro acc rest; simp
  | cons c t' ih =>
    intro acc rest
    rw [List.cons_append, splitWsAux,
      if_neg (by simp [ht c (List.mem_cons_self c t')]),
      ih (fun x hx => ht x (List.mem_cons_of_mem c hx))]
    simp

theorem splitWs_intercalate (ts : List Str)
    (hts : ∀ t ∈ ts, t ≠ [] ∧ ∀ c ∈ t, pySpace c = false) :
    splitWs (List.intercalate [' '] ts) = ts := by
  induction ts with
  | nil => rfl
  | cons t ts' ih =>
    obtain ⟨htne, htc⟩ := hts t (List.mem_cons_self t ts')
    cases ts' with
    | nil =>
      have h1 : List.intercalate [' '] [t] = t := by
        simp [List.intercalate]
      rw [h1, splitWs, show t = t ++ [] from (List.append_nil t).symm,
        splitWsAux_token t htc, splitWsAux]
      rw [List.append_nil, if_neg (by simp [htne])]
      simp
    | cons u us =>
      have h1 : List.intercalate [' '] (t :: u :: us) =
          t ++ (' ' :: List.intercalate [' '] (u :: us)) := by
        rw [List.intercalate, List.intercalate,
          List.intersperse_cons_cons]
        simp
      rw [h1, splitWs, splitWsAux_token t htc, splitWsAux, if_pos (by rfl)]
      rw [List.append_nil, if_neg (by simp [htne])]
      rw [show splitWsAux [] (List.intercalate [' '] (u :: us)) =
        splitWs (List.intercalate [' '] (u :: us)) from rfl]
      rw [ih (fun x hx => hts x (List.mem_cons_of_mem t hx))]
      simp

theorem lstrip_cons_of_not_space {c : Char} (t : Str)
    (hc : pySpace c = false) : lstrip (c :: t) = c :: t := by
  rw [lstrip, List.dropWhile_cons_of_neg (by simp [hc])]

theorem rstrip_append_last {d : Char} (l : Str) (hd : pySpace d = false) :
    rstrip (l ++ [d]) = l ++ [d] := by
  rw [rstrip, List.reverse_append, List.reverse_singleton,
    List.singleton_append, List.dropWhile_cons_of_neg (by simp [hd])]
  simp

theorem strip_of_ends {c d : Char} (m : Str) (hc : pySpace c = false)
    (hd : pySpace d = false) :
    strip (c :: (m ++ [d])) = c :: (m ++ [d]) := by
  rw [strip, lstrip_cons_of_not_space _ hc,
    show (c :: (m ++ [d]) : Str) = (c :: m) ++ [d] by simp,
    rstrip_append_last _ hd]

theorem strip_singleton {c : Char} (hc : pySpace c = false) :
    strip [c] = [c] := by
  rw [strip, lstrip_cons_of_not_space _ hc,
    show ([c] : Str) = [] ++ [c] by simp, rstrip_append_last _ hc]

theorem strip_cons_space (X : Str) : strip (' ' :: X) = strip X := by
  rw [strip, strip, lstrip, lstrip, List.dropWhile_cons_of_pos (by rfl)]

theorem pySplitlinesGo_no_newline (l : Str)
    (hl : ∀ c ∈ l, ¬ (c = '\r') ∧ ¬ (c = '\n')) :
    ∀ acc : Str, pySplitlinesGo acc l =
      if (acc.reverse ++ l).isEmpty then [] else [acc.reverse ++ l] := by
  induction l with
  | nil =>
    intro acc
    rw [pySplitlinesGo.eq_def]
    simp
  | cons c t ih =>
    intro acc
    obtain ⟨h1, h2⟩ := hl c (List.mem_cons_self c t)
    rw [pySplitlinesGo.eq_def]
    dsimp only
    rw [if_neg h1, if_neg h2,
      ih (fun x hx => hl x (List.mem_cons_of_mem c hx))]
    simp

theorem pySplitlines_single (l : Str) (hne : l ≠ [])
    (hl : ∀ c ∈ l, ¬ (c = '\r') ∧ ¬ (c = '\n')) :
    pySplitlines l = [l] := by
  rw [pySplitlines, pySplitlinesGo_no_newline l hl []]
  simp [hne]

theorem rstripCRLF_append_last {d : Char} (l : Str)
    (hd : ¬ (d = '\r') ∧ ¬ (d = '\n')) :
    GC.HKG.rstripCRLF (l ++ [d]) = l ++ [d] := by
  rw [GC.HKG.rstripCRLF, List.reverse_append, List.reverse_singleton,
    List.singleton_append, List.dropWhile_cons_of_neg (by simp [hd.1, hd.2])]
  simp

theorem splitFirst_eq_none_of_not_mem {sep : Char} (l : Str)
    (h : ¬ sep ∈ l) : splitFirst sep l = none := by
  induction l with
  | nil => rfl
  | cons c t ih =>
    rw [splitFirst, if_neg (by
      rintro rfl
      exact h (List.mem_cons_self c t))]
    rw [ih (fun hx => h (List.mem_cons_of_mem c hx))]
    rfl

theorem findSub_singleton_none {ch : Char} (l : Str) (h : ¬ ch ∈ l) :
    findSub l [ch] = none := by
  induction l with
  | nil => rfl
  | cons c t ih =>
    have hne : (c = ch) = False := by
      apply eq_false
      rintro rfl
      exact h (List.mem_cons_self c t)
    have hs : startsWith (c :: t) [ch] = false := by
      simp [startsWith, hne]
    rw [findSub.eq_def]
    dsimp only
    rw [hs]
    simp only [Bool.false_eq_true, if_false,
      ih (fun hx => h (List.mem_cons_of_mem c hx))]
    rfl

end GC

namespace GC

theorem mem_lstrip {c : Char} (l : Str) (h : c ∈ lstrip l) : c ∈ l := by
  rw [lstrip] at h
  exact List.Sublist.subset (List.dropWhile_sublist _) h

theorem mem_rstrip {c : Char} (l : Str) (h : c ∈ rstrip l) : c ∈ l := by
  rw [rstrip] at h
  rw [List.mem_reverse] at h
  have := List.Sublist.subset (List.dropWhile_sublist _) h
  rwa [List.mem_reverse] at this

theorem mem_strip {c : Char} (l : Str) (h : c ∈ strip l) : c ∈ l := by
  rw [strip] at h
  exact mem_lstrip _ (mem_rstrip _ h)

theorem startsWith_head_mem {ch : Char} (l : Str)
    (h : startsWith l [ch] = true) : ch ∈ l := by
  cases l with
  | nil => simp [startsWith] at h
  | cons c t =>
    simp [startsWith] at h
    simp [h]

end GC

namespace GC

end GC

namespace GC.HKG

theorem stripComments_clean (l : Str) (idx : Nat)
    (hsemi : ¬ ';' ∈ l) (hparen : ¬ '(' ∈ l) :
    stripComments l idx = .ok (l, none, none) := by
  rw [stripComments]
  rw [GC.splitFirst_eq_none_of_not_mem l hsemi]
  dsimp only
  rw [GC.findSub_singleton_none l hparen]
  dsimp only
  have hcond : ¬ ((startsWith (strip l) ['('] || false) = true) := by
    simp only [Bool.or_false]
    intro hsw
    exact hparen (GC.mem_strip l (GC.startsWith_head_mem _ hsw))
  rw [if_neg hcond]

end GC.HKG

namespace GC.HKG

theorem extractBlockNumber_fallback (c : Char) (t : Str)
    (hc : pySpace c = false)
    (hN : c = 'N' → (t.takeWhile Char.isDigit).isEmpty = true)
    (hstrip : strip (c :: t) = c :: t) :
    extractBlockNumber (c :: t) = (none, some (c :: t)) := by
  rw [extractBlockNumber]
  dsimp only
  rw [show (c :: t : Str).dropWhile pySpace = c :: t from
    List.dropWhile_cons_of_neg (by simp [hc])]
  dsimp only
  by_cases hcn : c = 'N'
  · rw [if_pos hcn, if_pos (hN hcn)]
    rw [hstrip]
    rw [if_neg (by simp)]
  · rw [if_neg hcn]
    rw [hstrip]
    rw [if_neg (by simp)]

theorem matchCode_sep (c : Char) (ct X : Str) (hc : c.isAlpha = true)
    (hct : ∀ x ∈ ct, x.isAlphanum = true) :
    matchCode ((c :: ct) ++ ' ' :: X) = some (c :: ct, strip X) := by
  rw [List.cons_append, matchCode]
  dsimp only
  rw [if_pos hc]
  have hTW : (ct ++ ' ' :: X).takeWhile Char.isAlphanum = ct :=
    GC.takeWhile_run _ _ hct (by
      intro x hx
      rw [List.head?_cons, Option.some.injEq] at hx
      subst hx
      rfl)
  rw [hTW]
  have hdrop : (ct ++ ' ' :: X).drop ct.length = ' ' :: X :=
    List.drop_left _ _
  rw [hdrop, GC.strip_cons_space]

theorem matchCode_alone (c : Char) (ct : Str) (hc : c.isAlpha = true)
    (hct : ∀ x ∈ ct, x.isAlphanum = true) :
    matchCode (c :: ct) = some (c :: ct, []) := by
  rw [matchCode]
  dsimp only
  rw [if_pos hc]
  rw [GC.takeWhile_all ct hct, List.drop_length]
  rfl

end GC.HKG

namespace GC.HKG

theorem pwp_fold (ps : List (Char × ℚ)) (params : List (Char × ℚ))
    (line_number : Nat) (raw : Str)
    (hps : ∀ p ∈ ps, p.1.isUpper = true ∧ normalizeValue p.2 = p.2)
    (hfresh : ∀ p ∈ ps, ∀ q ∈ params, q.1 ≠ p.1)
    (hnodup : (ps.map Prod.fst).Nodup) :
    ∃ qs : List (Char × ℚ),
      (ps.map (fun p => p.1 :: formatNumber p.2)).foldlM
        (fun params token =>
          match matchParamToken token with
          | none =>
            (.error { message := ("Malformed parameter '".toList ++ token ++ ['\'']),
                      line_number := some line_number, line_text := some raw } :
              Except ParseErr (List (Char × ℚ)))
          | some (name, valueText) =>
            match parseFloat valueText with
            | some (PyFloat.finite value) =>
              (.ok (dictInsert name (normalizeValue value) params) :
                Except ParseErr (List (Char × ℚ)))
            | _ =>
              (.error { message := ("Invalid numeric value in '".toList ++ token ++ ['\'']),
                        line_number := some line_number, line_text := some raw } :
                Except ParseErr (List (Char × ℚ)))) params =
        .ok (params ++ qs) ∧
      List.Forall₂ (fun p q => q.1 = p.1 ∧ normalizeValue q.2 = q.2 ∧
        |q.2 - p.2| < tol) ps qs := by
  induction ps generalizing params with
  | nil =>
    refine ⟨[], ?_, List.Forall₂.nil⟩
    simp only [List.map_nil, List.foldlM_nil, List.append_nil]
    rfl
  | cons p ps' ih =>
    obtain ⟨hup, hnorm⟩ := hps p (List.mem_cons_self p ps')
    obtain ⟨w, hw, hwn, hwd, hshape, _, _⟩ := formatNumber_spec p.2 hnorm
    simp only [List.map_cons, List.foldlM_cons]
    rw [show matchParamToken (p.1 :: formatNumber p.2) =
        some (p.1, formatNumber p.2) from by
      rw [matchParamToken]
      rw [if_pos ⟨hup, hshape⟩]]
    dsimp only
    rw [hw]
    dsimp only
    rw [hwn]
    rw [dictInsert_of_fresh p.1 w params
      (fun q hq => hfresh p (List.mem_cons_self p ps') q hq)]
    simp only [List.map_cons, List.nodup_cons] at hnodup
    obtain ⟨qs', hfold, hrel⟩ := ih (params ++ [(p.1, w)])
      (fun x hx => hps x (List.mem_cons_of_mem p hx))
      (by
        intro x hx q hq
        rw [List.mem_append] at hq
        rcases hq with hq | hq
        · exact hfresh x (List.mem_cons_of_mem p hx) q hq
        · rw [List.mem_singleton] at hq
          subst hq
          intro hcontra
          exact hnodup.1 (hcontra ▸ List.mem_map_of_mem Prod.fst hx))
      hnodup.2
    refine ⟨(p.1, w) :: qs', ?_, List.Forall₂.cons ⟨rfl, hwn, hwd⟩ hrel⟩
    have hgoal : (params ++ [(p.1, w)]) ++ qs' =
        params ++ ((p.1, w) :: qs') := by simp
    exact hfold.trans (by rw [hgoal])

end GC.HKG

namespace GC.HKG

theorem parseWordParameters_build (code : Str) (ps : List (Char × ℚ))
    (line_number : Nat) (raw : Str)
    (hcode : commandShape (upper code) = true)
    (hps : ∀ p ∈ ps, p.1.isUpper = true ∧ normalizeValue p.2 = p.2)
    (hnodup : (ps.map Prod.fst).Nodup) :
    ∃ qs, parseWordParameters
        (code :: ps.map (fun p => p.1 :: formatNumber p.2))
        line_number raw = .ok qs ∧
      List.Forall₂ (fun p q => q.1 = p.1 ∧ normalizeValue q.2 = q.2 ∧
        |q.2 - p.2| < tol) ps qs := by
  obtain ⟨qs, hfold, hrel⟩ := pwp_fold ps [] line_number raw hps
    (by intro p _ q hq; exact absurd hq (List.not_mem_nil q)) hnodup
  refine ⟨qs, ?_, hrel⟩
  rw [parseWordParameters]
  rw [if_neg (by simp [hcode])]
  rw [List.nil_append] at hfold
  exact hfold

end GC.HKG

namespace GC

theorem pySpace_false_of_upper {ch : Char} (h : ch.isUpper = true) :
    pySpace ch = false := by
  rw [pySpace]
  simp only [Bool.or_eq_false_iff]
  refine ⟨⟨⟨⟨⟨?_, ?_⟩, ?_⟩, ?_⟩, ?_⟩, ?_⟩ <;>
    (apply decide_eq_false; rintro rfl; exact absurd h (by decide))

theorem pySpace_false_of_digit {ch : Char} (h : ch.isDigit = true) :
    pySpace ch = false := by
  rw [pySpace]
  simp only [Bool.or_eq_false_iff]
  refine ⟨⟨⟨⟨⟨?_, ?_⟩, ?_⟩, ?_⟩, ?_⟩, ?_⟩ <;>
    (apply decide_eq_false; rintro rfl; exact absurd h (by decide))

theorem pySpace_false_of_dashdot {ch : Char} (h : ch = '-' ∨ ch = '.') :
    pySpace ch = false := by
  rcases h with rfl | rfl <;> rfl

theorem commandShape_chars (s : Str) (h : GC.HKG.commandShape s = true) :
    ∀ ch ∈ s, ch.isUpper = true ∨ ch.isDigit = true := by
  intro ch hch
  rw [← List.takeWhile_append_dropWhile (p := Char.isUpper) (l := s),
    List.mem_append] at hch
  rcases hch with hch | hch
  · exact Or.inl (List.mem_takeWhile_imp hch)
  · rw [← List.takeWhile_append_dropWhile (p := Char.isDigit)
      (l := s.dropWhile Char.isUpper), List.mem_append] at hch
    rcases hch with hch | hch
    · exact Or.inr (List.mem_takeWhile_imp hch)
    · rw [GC.HKG.commandShape] at h
      simp only [Bool.and_eq_true] at h
      rcases hmatch : (s.dropWhile Char.isUpper).dropWhile Char.isDigit with
        _ | ⟨c, t⟩
      · rw [hmatch] at hch
        exact absurd hch (List.not_mem_nil ch)
      · rw [hmatch] at hch h
        cases t with
        | nil =>
          rw [List.mem_singleton] at hch
          subst hch
          exact Or.inl h.2
        | cons x xs => exact absurd h.2 (by simp)

theorem mem_intercalate_sep {ch : Char} (ts : List Str)
    (h : ch ∈ List.intercalate [' '] ts) :
    ch = ' ' ∨ ∃ t ∈ ts, ch ∈ t := by
  induction ts with
  | nil => exact absurd h (List.not_mem_nil ch)
  | cons t ts' ih =>
    cases ts' with
    | nil =>
      rw [show List.intercalate [' '] [t] = t by simp [List.intercalate]] at h
      exact Or.inr ⟨t, List.mem_cons_self t [], h⟩
    | cons u us =>
      rw [show List.intercalate [' '] (t :: u :: us) =
          t ++ ' ' :: List.intercalate [' '] (u :: us) by
        rw [List.intercalate, List.intercalate, List.intersperse_cons_cons]
        simp] at h
      rw [List.mem_append, List.mem_cons] at h
      rcases h with h | h | h
      · exact Or.inr ⟨t, List.mem_cons_self t _, h⟩
      · exact Or.inl h
      · rcases ih h with h | ⟨t', ht', hch⟩
        · exact Or.inl h
        · exact Or.inr ⟨t', List.mem_cons_of_mem t ht', hch⟩

theorem intercalate_ends (ts : List Str) (hne : ts ≠ [])
    (hts : ∀ t ∈ ts, t ≠ [] ∧ ∀ c ∈ t, pySpace c = false) :
    ∃ Y d, List.intercalate [' '] ts = Y ++ [d] ∧ pySpace d = false := by
  induction ts with
  | nil => exact absurd rfl hne
  | cons t ts' ih =>
    cases ts' with
    | nil =>
      obtain ⟨htne, htc⟩ := hts t (List.mem_cons_self t [])
      obtain ⟨Y, d, rfl⟩ : ∃ Y d, t = Y ++ [d] := by
        induction t using List.reverseRecOn with
        | nil => exact absurd rfl htne
        | append_singleton Y d _ => exact ⟨Y, d, rfl⟩
      refine ⟨Y, d, by simp [List.intercalate], ?_⟩
      exact htc d (List.mem_append_right _ (List.mem_singleton_self d))
    | cons u us =>
      obtain ⟨Y, d, hY, hd⟩ := ih (List.cons_ne_nil u us)
        (fun x hx => hts x (List.mem_cons_of_mem t hx))
      refine ⟨t ++ ' ' :: Y, d, ?_, hd⟩
      rw [show List.intercalate [' '] (t :: u :: us) =
          t ++ ' ' :: List.intercalate [' '] (u :: us) by
        rw [List.intercalate, List.intercalate, List.intersperse_cons_cons]
        simp]
      rw [hY]
      simp

theorem dictLookup_isSome_of_mem_keys {α β : Type} [DecidableEq α]
    {k : α} (d : List (α × β)) (h : k ∈ d.map Prod.fst) :
    (dictLookup k d).isSome = true := by
  induction d with
  | nil => simp at h
  | cons p t ih =>
    rw [List.map_cons, List.mem_cons] at h
    rw [dictLookup]
    by_cases hk : p.1 = k
    · rw [List.find?_cons_of_pos _ (by simp [hk])]
      rfl
    · rcases h with h | h
      · exact absurd h.symm hk
      · rw [List.find?_cons_of_neg _ (by simp [hk])]
        rw [dictLookup] at ih
        exact ih h

end GC

namespace GC.HKG

theorem forall₂_map_fst {ps qs : List (Char × ℚ)}
    (h : List.Forall₂ (fun p q => q.1 = p.1 ∧ normalizeValue q.2 = q.2 ∧
      |q.2 - p.2| < tol) ps qs) :
    qs.map Prod.fst = ps.map Prod.fst := by
  induction h with
  | nil => rfl
  | cons hpq _ ih =>
    simp only [List.map_cons, ih, hpq.1]

theorem token_ok (p : Char × ℚ) (hup : p.1.isUpper = true)
    (hnorm : normalizeValue p.2 = p.2) :
    (p.1 :: formatNumber p.2) ≠ [] ∧
    ∀ ch ∈ p.1 :: formatNumber p.2, pySpace ch = false := by
  obtain ⟨w, _, _, _, _, hchars, _⟩ := formatNumber_spec p.2 hnorm
  refine ⟨List.cons_ne_nil _ _, ?_⟩
  intro ch hch
  rcases List.mem_cons.mp hch with rfl | hch
  · exact GC.pySpace_false_of_upper hup
  · rcases hchars ch hch with h | h
    · exact GC.pySpace_false_of_digit h
    · exact GC.pySpace_false_of_dashdot h

theorem toLine_word_form (c : Command)
    (hargs : c.args = []) (hpayload : c.payload = none)
    (hps : c.parameters ≠ [])
    (htok : ∀ p ∈ c.parameters, p.1.isUpper = true ∧
      normalizeValue p.2 = p.2) :
    toLine c =
      (match c.block_number with
        | some n => 'N' :: (natToStr n ++ [' '])
        | none => ([] : Str)) ++
      (c.code ++ ' ' :: List.intercalate [' ']
        ((c.parameters.mergeSort (fun a b => a.1 ≤ b.1)).map
          (fun p => p.1 :: formatNumber p.2))) ++
      (match c.comment with
        | some m => if m.isEmpty then ([] : Str) else " ; ".toList ++ m
        | none => ([] : Str)) := by
  have hperm : (c.parameters.mergeSort (fun a b => a.1 ≤ b.1)).Perm
      c.parameters := List.mergeSort_perm c.parameters _
  have htok' : ∀ p ∈ c.parameters.mergeSort (fun a b => a.1 ≤ b.1),
      p.1.isUpper = true ∧ normalizeValue p.2 = p.2 :=
    fun p hp => htok p (hperm.mem_iff.mp hp)
  have hspne : c.parameters.mergeSort (fun a b => a.1 ≤ b.1) ≠ [] := by
    intro h
    apply hps
    have hlen := hperm.length_eq
    rw [h] at hlen
    exact List.eq_nil_of_length_eq_zero hlen.symm
  have htoks : ∀ t ∈ (c.parameters.mergeSort (fun a b => a.1 ≤ b.1)).map
      (fun p => p.1 :: formatNumber p.2),
      t ≠ [] ∧ ∀ ch ∈ t, pySpace ch = false := by
    intro t ht
    rw [List.mem_map] at ht
    obtain ⟨p, hp, rfl⟩ := ht
    obtain ⟨h1, h2⟩ := htok' p hp
    exact token_ok p h1 h2
  obtain ⟨Y, d, hY, hd⟩ := intercalate_ends _ (by simp [hspne]) htoks
  rw [toLine]
  rw [if_neg (by simp [hps])]
  rw [hargs, hpayload]
  dsimp only
  rw [if_neg (show ¬ optTruthy none = true by simp [optTruthy])]
  rw [if_neg (show ¬ (¬ List.isEmpty ([] : List PVal) = true) by simp)]
  rw [if_pos (show ¬ List.isEmpty c.parameters = true by simp [hps])]
  rw [hY]
  rw [show (c.code ++ ' ' :: (Y ++ [d]) : Str) =
    (c.code ++ ' ' :: Y) ++ [d] by simp]
  rw [GC.rstrip_append_last _ hd]
  cases hcmq : c.comment with
  | none =>
    rw [if_neg (show ¬ optTruthy none = true by simp [optTruthy])]
    simp [List.append_assoc]
  | some m =>
    by_cases hme : m.isEmpty = true
    · rw [if_neg (by simp [optTruthy, hme])]
      simp [hme, List.append_assoc]
    · rw [if_pos (by simp [optTruthy, hme])]
      simp [hme, List.append_assoc]

end GC.HKG

namespace GC

theorem splitFirst_append {sep : Char} (u v : Str) (h : ¬ sep ∈ u) :
    splitFirst sep (u ++ sep :: v) = some (u, v) := by
  induction u with
  | nil =>
    rw [List.nil_append, splitFirst, if_pos rfl]
  | cons x t ih =>
    rw [List.cons_append, splitFirst,
      if_neg (by rintro rfl; exact h (List.mem_cons_self _ t)),
      ih (fun hx => h (List.mem_cons_of_mem x hx))]
    rfl

theorem rstrip_append_space (l : Str) : rstrip (l ++ [' ']) = rstrip l := by
  rw [rstrip, rstrip, List.reverse_append, List.reverse_singleton,
    List.singleton_append, List.dropWhile_cons_of_pos (by rfl)]

theorem rstripCRLF_of_no_crlf (s : Str)
    (h : ∀ ch ∈ s, ¬ ch = '\r' ∧ ¬ ch = '\n') :
    GC.HKG.rstripCRLF s = s := by
  induction s using List.reverseRecOn with
  | nil => rfl
  | append_singleton Y dd _ =>
    exact rstripCRLF_append_last Y
      (h dd (List.mem_append_right _ (List.mem_singleton_self dd)))

theorem forall₂_exists_right {α β : Type} {R : α → β → Prop}
    {l₁ : List α} {l₂ : List β}
    (h : List.Forall₂ R l₁ l₂) {a : α} (ha : a ∈ l₁) :
    ∃ b ∈ l₂, R a b := by
  induction h with
  | nil => exact absurd ha (List.not_mem_nil a)
  | cons hr ht ih =>
    rcases List.mem_cons.mp ha with rfl | ha'
    · exact ⟨_, List.mem_cons_self _ _, hr⟩
    · obtain ⟨b, hb, hab⟩ := ih ha'
      exact ⟨b, List.mem_cons_of_mem _ hb, hab⟩

end GC

namespace GC.HKG

theorem stripComments_semi (u v : Str) (idx : Nat)
    (hsemi : ¬ ';' ∈ u) (hparen : ¬ '(' ∈ u) :
    stripComments (u ++ ';' :: v) idx =
      .ok (GC.rstrip u,
        (if (GC.strip v).isEmpty then none else some (GC.strip v)), none) := by
  rw [stripComments]
  rw [GC.splitFirst_append u v hsemi]
  dsimp only
  rw [GC.findSub_singleton_none (GC.rstrip u)
    (fun hx => hparen (GC.mem_rstrip _ hx))]
  dsimp only
  have hcond : ¬ ((startsWith (strip (GC.rstrip u)) ['('] || false) = true) := by
    simp only [Bool.or_false]
    intro hsw
    exact hparen (GC.mem_rstrip _ (GC.mem_strip _
      (GC.startsWith_head_mem _ hsw)))
  rw [if_neg hcond]

theorem combineComments_some (m : Str) (hm : m ≠ []) :
    combineComments (some m) none = some m := by
  rw [combineComments]
  dsimp only [optTruthy]
  rw [if_pos (by simp [hm]), if_neg (by simp)]
  simp [List.intercalate]

theorem extractBlockNumber_numbered (n : Nat) (c₀ : Char) (bt : Str)
    (hc₀ : GC.pySpace c₀ = false)
    (hstrip : GC.strip (c₀ :: bt) = c₀ :: bt) :
    extractBlockNumber ('N' :: (natToStr n ++ ' ' :: (c₀ :: bt))) =
      (some n, some (c₀ :: bt)) := by
  rw [extractBlockNumber]
  dsimp only
  rw [show ('N' :: (natToStr n ++ ' ' :: (c₀ :: bt)) : Str).dropWhile pySpace
      = 'N' :: (natToStr n ++ ' ' :: (c₀ :: bt)) from
    List.dropWhile_cons_of_neg (by simp [pySpace])]
  dsimp only
  rw [if_pos rfl]
  have hTW : (natToStr n ++ ' ' :: (c₀ :: bt)).takeWhile Char.isDigit =
      natToStr n :=
    GC.takeWhile_run _ _ (GC.natToStr_all_digits n) (by
      intro x hx
      rw [List.head?_cons, Option.some_inj] at hx
      subst hx
      rfl)
  rw [hTW]
  rw [if_neg (by
    rw [List.isEmpty_iff]
    exact GC.natToStr_ne_nil n)]
  have hdrop : (natToStr n ++ ' ' :: (c₀ :: bt)).drop (natToStr n).length =
      ' ' :: (c₀ :: bt) := List.drop_left _ _
  rw [hdrop]
  rw [show ((' ' :: (c₀ :: bt) : Str).dropWhile GC.pySpace) = c₀ :: bt from by
    rw [List.dropWhile_cons_of_pos (by rfl),
      List.dropWhile_cons_of_neg (by simp [hc₀])]]
  rw [hstrip]
  rw [if_neg (by simp)]
  rw [GC.digitsToNat_natToStr]

end GC.HKG

namespace GC.HKG

theorem commandShape_head (s : Str) (h : commandShape s = true) :
    ∃ c₀ t, s = c₀ :: t ∧ c₀.isUpper = true := by
  cases s with
  | nil => simp [commandShape] at h
  | cons c₀ t =>
    refine ⟨c₀, t, rfl, ?_⟩
    by_contra hup
    rw [commandShape] at h
    simp only [Bool.and_eq_true] at h
    rw [List.takeWhile_cons_of_neg (by simp [hup])] at h
    simp at h

theorem intercalate_head_cons (a : Char) (t₀ : Str) (ts : List Str) :
    ∃ T, List.intercalate [' '] ((a :: t₀) :: ts) = a :: T := by
  cases ts with
  | nil => exact ⟨t₀, by simp [List.intercalate]⟩
  | cons u us =>
    refine ⟨t₀ ++ ' ' :: List.intercalate [' '] (u :: us), ?_⟩
    rw [List.intercalate, List.intercalate, List.intersperse_cons_cons]
    simp

theorem parse_toLine (c : Command)
    (hargs : c.args = []) (hpayload : c.payload = none)
    (hcm : ∀ m, c.comment = some m → m ≠ [] ∧ GC.strip m = m ∧
      ∀ ch ∈ m, ¬ ch = '\r' ∧ ¬ ch = '\n')
    (hcode : commandShape c.code = true)
    (hupper : upper c.code = c.code)
    (hwhen : c.code ≠ "WHEN".toList)
    (hN : ∀ d rest, c.code = 'N' :: d :: rest → d.isDigit = false)
    (hps : c.parameters ≠ [])
    (hnodup : (c.parameters.map Prod.fst).Nodup)
    (htok : ∀ p ∈ c.parameters, p.1.isUpper = true ∧
      normalizeValue p.2 = p.2)
    (hreq : ∀ r ∈ (hkSpecs c.code).getD [], r ∈ c.parameters.map Prod.fst) :
    ∃ qs, (parseProgram (toLine c)).commands =
        [{ code := c.code, parameters := qs,
           block_number := c.block_number, comment := c.comment,
           line_number := some 1, raw := some (toLine c) }] ∧
      (parseProgram (toLine c)).errors = [] ∧
      (parseProgram (toLine c)).unparsed = [] ∧
      qs.map Prod.fst =
        (c.parameters.mergeSort (fun a b => a.1 ≤ b.1)).map Prod.fst ∧
      List.Forall₂ (fun p q => q.1 = p.1 ∧ |q.2 - p.2| < tol)
        (c.parameters.mergeSort (fun a b => a.1 ≤ b.1)) qs := by
  have hperm : (c.parameters.mergeSort (fun a b => a.1 ≤ b.1)).Perm
      c.parameters := List.mergeSort_perm c.parameters _
  have htok' : ∀ p ∈ c.parameters.mergeSort (fun a b => a.1 ≤ b.1),
      p.1.isUpper = true ∧ normalizeValue p.2 = p.2 :=
    fun p hp => htok p (hperm.mem_iff.mp hp)
  have hspne : c.parameters.mergeSort (fun a b => a.1 ≤ b.1) ≠ [] := by
    intro h
    apply hps
    have hlen := hperm.length_eq
    rw [h] at hlen
    exact List.eq_nil_of_length_eq_zero hlen.symm
  have hnodup' : ((c.parameters.mergeSort (fun a b => a.1 ≤ b.1)).map
      Prod.fst).Nodup := ((hperm.map Prod.fst).nodup_iff).mpr hnodup
  have hline := toLine_word_form c hargs hpayload hps htok
  have htoks : ∀ t ∈ (c.parameters.mergeSort (fun a b => a.1 ≤ b.1)).map
      (fun p => p.1 :: formatNumber p.2),
      t ≠ [] ∧ ∀ ch ∈ t, pySpace ch = false := by
    intro t ht
    rw [List.mem_map] at ht
    obtain ⟨p, hp, rfl⟩ := ht
    obtain ⟨h1, h2⟩ := htok' p hp
    exact token_ok p h1 h2
  obtain ⟨Y, d, hY, hd⟩ := intercalate_ends _ (by simp [hspne]) htoks
  obtain ⟨c₀, ctail, hcodeq, hc₀⟩ := commandShape_head c.code hcode
  -- character classification of the base segment
  have hclassB : ∀ ch ∈ c.code ++ ' ' :: List.intercalate [' ']
      ((c.parameters.mergeSort (fun a b => a.1 ≤ b.1)).map
        (fun p => p.1 :: formatNumber p.2)),
      ch.isUpper = true ∨ ch.isDigit = true ∨ ch = ' ' ∨ ch = '-' ∨
        ch = '.' := by
    intro ch hch
    rw [List.mem_append, List.mem_cons] at hch
    rcases hch with hch | hch | hch
    · rcases GC.commandShape_chars _ hcode ch hch with h | h
      · exact Or.inl h
      · exact Or.inr (Or.inl h)
    · exact Or.inr (Or.inr (Or.inl hch))
    · rcases GC.mem_intercalate_sep _ hch with h | ⟨t, ht, hmem⟩
      · exact Or.inr (Or.inr (Or.inl h))
      · rw [List.mem_map] at ht
        obtain ⟨p, hp, rfl⟩ := ht
        obtain ⟨hup, hnorm⟩ := htok' p hp
        rcases List.mem_cons.mp hmem with rfl | hmem
        · exact Or.inl hup
        · obtain ⟨_, _, _, _, _, hchars, _⟩ := formatNumber_spec p.2 hnorm
          rcases hchars ch hmem with h | h | h
          · exact Or.inr (Or.inl h)
          · exact Or.inr (Or.inr (Or.inr (Or.inl h)))
          · exact Or.inr (Or.inr (Or.inr (Or.inr h)))
  -- character classification of the block-number prefix
  have hclassP : ∀ ch ∈ (match c.block_number with
      | some n => 'N' :: (natToStr n ++ [' '])
      | none => ([] : Str)),
      ch = 'N' ∨ ch.isDigit = true ∨ ch = ' ' := by
    intro ch hch
    cases hbnq : c.block_number with
    | none =>
      rw [hbnq] at hch
      exact absurd hch (List.not_mem_nil ch)
    | some n =>
      rw [hbnq] at hch
      rcases List.mem_cons.mp hch with rfl | hch
      · exact Or.inl rfl
      · rw [List.mem_append, List.mem_singleton] at hch
        rcases hch with hch | rfl
        · exact Or.inr (Or.inl (GC.natToStr_all_digits n ch hch))
        · exact Or.inr (Or.inr rfl)
  -- character classification of the comment suffix
  have hclassS : ∀ ch ∈ (match c.comment with
      | some m => if m.isEmpty then ([] : Str) else " ; ".toList ++ m
      | none => ([] : Str)),
      ¬ ch = '\r' ∧ ¬ ch = '\n' := by
    intro ch hch
    cases hcmq : c.comment with
    | none =>
      rw [hcmq] at hch
      exact absurd hch (List.not_mem_nil ch)
    | some m =>
      obtain ⟨hm1, hm2, hm3⟩ := hcm m hcmq
      rw [hcmq] at hch
      dsimp only at hch
      rw [if_neg (by simp [hm1])] at hch
      rw [List.mem_append] at hch
      rcases hch with hch | hch
      · rw [show (" ; ".toList : Str) = [' ', ';', ' '] from rfl] at hch
        fin_cases hch <;> exact ⟨by decide, by decide⟩
      · exact hm3 ch hch
  have hnl : ∀ ch ∈ toLine c, ¬ ch = '\r' ∧ ¬ ch = '\n' := by
    intro ch hch
    rw [hline] at hch
    rw [List.mem_append] at hch
    rcases hch with hch | hch
    · rw [List.mem_append] at hch
      rcases hch with hch | hch
      · rcases hclassP ch hch with h | h | h <;>
          (subst_vars
           first
           | exact ⟨by decide, by decide⟩
           | exact ⟨by rintro rfl; exact absurd h (by decide),
               by rintro rfl; exact absurd h (by decide)⟩)
      · rcases hclassB ch hch with h | h | h | h | h
        · exact ⟨by rintro rfl; exact absurd h (by decide),
            by rintro rfl; exact absurd h (by decide)⟩
        · exact ⟨by rintro rfl; exact absurd h (by decide),
            by rintro rfl; exact absurd h (by decide)⟩
        · subst h
          exact ⟨by decide, by decide⟩
        · subst h
          exact ⟨by decide, by decide⟩
        · subst h
          exact ⟨by decide, by decide⟩
    · exact hclassS ch hch
  have hcrlf : rstripCRLF (toLine c) = toLine c :=
    GC.rstripCRLF_of_no_crlf _ hnl
  have hne : toLine c ≠ [] := by
    rw [hline]
    intro hnil
    rcases List.append_eq_nil.mp hnil with ⟨hnil1, _⟩
    rcases List.append_eq_nil.mp hnil1 with ⟨_, hnil2⟩
    rw [hcodeq] at hnil2
    exact List.noConfusion (List.append_eq_nil.mp hnil2).1
  have hsingle : pySplitlines (toLine c) = [toLine c] :=
    GC.pySplitlines_single _ hne hnl
  -- no semicolon / paren in prefix-plus-base
  have hsemiB : ¬ ';' ∈ ((match c.block_number with
      | some n => 'N' :: (natToStr n ++ [' '])
      | none => ([] : Str)) ++
      (c.code ++ ' ' :: List.intercalate [' ']
        ((c.parameters.mergeSort (fun a b => a.1 ≤ b.1)).map
          (fun p => p.1 :: formatNumber p.2)))) := by
    intro hch
    rw [List.mem_append] at hch
    rcases hch with hch | hch
    · rcases hclassP _ hch with h | h | h <;> exact absurd h (by decide)
    · rcases hclassB _ hch with h | h | h | h | h <;>
        exact absurd h (by decide)
  have hparenB : ¬ '(' ∈ ((match c.block_number with
      | some n => 'N' :: (natToStr n ++ [' '])
      | none => ([] : Str)) ++
      (c.code ++ ' ' :: List.intercalate [' ']
        ((c.parameters.mergeSort (fun a b => a.1 ≤ b.1)).map
          (fun p => p.1 :: formatNumber p.2)))) := by
    intro hch
    rw [List.mem_append] at hch
    rcases hch with hch | hch
    · rcases hclassP _ hch with h | h | h <;> exact absurd h (by decide)
    · rcases hclassB _ hch with h | h | h | h | h <;>
        exact absurd h (by decide)
  -- strip of the content is the content
  have hstripbase : GC.strip (c.code ++ ' ' :: List.intercalate [' ']
      ((c.parameters.mergeSort (fun a b => a.1 ≤ b.1)).map
        (fun p => p.1 :: formatNumber p.2))) =
      c.code ++ ' ' :: List.intercalate [' ']
        ((c.parameters.mergeSort (fun a b => a.1 ≤ b.1)).map
          (fun p => p.1 :: formatNumber p.2)) := by
    rw [hcodeq, List.cons_append]
    rw [show (ctail ++ ' ' :: List.intercalate [' ']
        ((c.parameters.mergeSort (fun a b => a.1 ≤ b.1)).map
          (fun p => p.1 :: formatNumber p.2)) : Str) =
      (ctail ++ ' ' :: Y) ++ [d] from by rw [hY]; simp]
    exact GC.strip_of_ends _ (GC.pySpace_false_of_upper hc₀) hd
  have hstrippb : GC.strip ((match c.block_number with
      | some n => 'N' :: (natToStr n ++ [' '])
      | none => ([] : Str)) ++
      (c.code ++ ' ' :: List.intercalate [' ']
        ((c.parameters.mergeSort (fun a b => a.1 ≤ b.1)).map
          (fun p => p.1 :: formatNumber p.2)))) =
      (match c.block_number with
        | some n => 'N' :: (natToStr n ++ [' '])
        | none => ([] : Str)) ++
      (c.code ++ ' ' :: List.intercalate [' ']
        ((c.parameters.mergeSort (fun a b => a.1 ≤ b.1)).map
          (fun p => p.1 :: formatNumber p.2))) := by
    cases hbnq : c.block_number with
    | none =>
      dsimp only
      rw [List.nil_append]
      exact hstripbase
    | some n =>
      dsimp only
      rw [hcodeq, List.cons_append]
      rw [show (natToStr n ++ [' '] ++ ((c₀ :: ctail) ++ ' ' ::
          List.intercalate [' ']
            ((c.parameters.mergeSort (fun a b => a.1 ≤ b.1)).map
              (fun p => p.1 :: formatNumber p.2))) : Str) =
        (natToStr n ++ [' '] ++ (c₀ :: (ctail ++ ' ' :: Y))) ++ [d]
        from by rw [hY]; simp]
      rw [GC.strip_of_ends _ (by decide) hd]
  -- stripComments on the serialized line
  have hsc : stripComments (toLine c) 1 =
      .ok ((match c.block_number with
          | some n => 'N' :: (natToStr n ++ [' '])
          | none => ([] : Str)) ++
        (c.code ++ ' ' :: List.intercalate [' ']
          ((c.parameters.mergeSort (fun a b => a.1 ≤ b.1)).map
            (fun p => p.1 :: formatNumber p.2))),
        c.comment, none) := by
    cases hcmq : c.comment with
    | none =>
      have h0 : toLine c = (match c.block_number with
          | some n => 'N' :: (natToStr n ++ [' '])
          | none => ([] : Str)) ++
        (c.code ++ ' ' :: List.intercalate [' ']
          ((c.parameters.mergeSort (fun a b => a.1 ≤ b.1)).map
            (fun p => p.1 :: formatNumber p.2))) := by
        rw [hline, hcmq]
        simp
      rw [h0]
      exact stripComments_clean _ 1 hsemiB hparenB
    | some m =>
      obtain ⟨hm1, hm2, hm3⟩ := hcm m hcmq
      have h0 : toLine c = (((match c.block_number with
          | some n => 'N' :: (natToStr n ++ [' '])
          | none => ([] : Str)) ++
        (c.code ++ ' ' :: List.intercalate [' ']
          ((c.parameters.mergeSort (fun a b => a.1 ≤ b.1)).map
            (fun p => p.1 :: formatNumber p.2)))) ++ [' ']) ++
        ';' :: (' ' :: m) := by
        rw [hline, hcmq]
        dsimp only
        rw [if_neg (by simp [hm1])]
        rw [show (" ; ".toList : Str) = [' '] ++ ';' :: [' '] from rfl]
        simp [List.append_assoc]
      rw [h0]
      rw [stripComments_semi _ _ 1
        (by
          intro hch
          rw [List.mem_append] at hch
          rcases hch with hch | hch
          · exact hsemiB hch
          · rw [List.mem_singleton] at hch
            exact absurd hch (by decide))
        (by
          intro hch
          rw [List.mem_append] at hch
          rcases hch with hch | hch
          · exact hparenB hch
          · rw [List.mem_singleton] at hch
            exact absurd hch (by decide))]
      rw [GC.rstrip_append_space]
      rw [show GC.rstrip ((match c.block_number with
          | some n => 'N' :: (natToStr n ++ [' '])
          | none => ([] : Str)) ++
        (c.code ++ ' ' :: List.intercalate [' ']
          ((c.parameters.mergeSort (fun a b => a.1 ≤ b.1)).map
            (fun p => p.1 :: formatNumber p.2)))) =
        (match c.block_number with
          | some n => 'N' :: (natToStr n ++ [' '])
          | none => ([] : Str)) ++
        (c.code ++ ' ' :: List.intercalate [' ']
          ((c.parameters.mergeSort (fun a b => a.1 ≤ b.1)).map
            (fun p => p.1 :: formatNumber p.2))) from by
        have h1 := hstrippb
        rw [GC.strip] at h1
        have h2 : GC.lstrip ((match c.block_number with
            | some n => 'N' :: (natToStr n ++ [' '])
            | none => ([] : Str)) ++
          (c.code ++ ' ' :: List.intercalate [' ']
            ((c.parameters.mergeSort (fun a b => a.1 ≤ b.1)).map
              (fun p => p.1 :: formatNumber p.2)))) =
            (match c.block_number with
            | some n => 'N' :: (natToStr n ++ [' '])
            | none => ([] : Str)) ++
          (c.code ++ ' ' :: List.intercalate [' ']
            ((c.parameters.mergeSort (fun a b => a.1 ≤ b.1)).map
              (fun p => p.1 :: formatNumber p.2))) := by
          cases hbnq : c.block_number with
          | none =>
            dsimp only
            rw [List.nil_append, hcodeq, List.cons_append]
            exact GC.lstrip_cons_of_not_space _
              (GC.pySpace_false_of_upper hc₀)
          | some n =>
            dsimp only
            rw [List.cons_append]
            exact GC.lstrip_cons_of_not_space _ (by rfl)
        rw [h2] at h1
        exact h1]
      rw [GC.strip_cons_space, hm2]
      rw [if_neg (by simp [hm1])]
  have hcomb : combineComments c.comment none = c.comment := by
    cases hcmq : c.comment with
    | none => rfl
    | some m =>
      obtain ⟨hm1, _, _⟩ := hcm m hcmq
      exact combineComments_some m hm1
  -- block number extraction
  have hebn : extractBlockNumber ((match c.block_number with
      | some n => 'N' :: (natToStr n ++ [' '])
      | none => ([] : Str)) ++
      (c.code ++ ' ' :: List.intercalate [' ']
        ((c.parameters.mergeSort (fun a b => a.1 ≤ b.1)).map
          (fun p => p.1 :: formatNumber p.2)))) =
      (c.block_number,
        some (c.code ++ ' ' :: List.intercalate [' ']
          ((c.parameters.mergeSort (fun a b => a.1 ≤ b.1)).map
            (fun p => p.1 :: formatNumber p.2)))) := by
    cases hbnq : c.block_number with
    | none =>
      dsimp only
      rw [List.nil_append]
      rw [hcodeq, List.cons_append]
      refine extractBlockNumber_fallback c₀
        (ctail ++ ' ' :: List.intercalate [' ']
          ((c.parameters.mergeSort (fun a b => a.1 ≤ b.1)).map
            (fun p => p.1 :: formatNumber p.2)))
        (GC.pySpace_false_of_upper hc₀) ?_ ?_
      · intro hcn
        cases ctail with
        | nil =>
          rw [List.nil_append, List.takeWhile_cons_of_neg (by decide)]
          rfl
        | cons c₂ ct' =>
          subst hcn
          have := hN c₂ ct' (by rw [hcodeq])
          rw [List.cons_append, List.takeWhile_cons_of_neg (by simp [this])]
          rfl
      · rw [← List.cons_append, ← hcodeq]
        exact hstripbase
    | some n =>
      dsimp only
      rw [hcodeq, List.cons_append]
      rw [show (natToStr n ++ [' '] ++ ((c₀ :: ctail) ++ ' ' ::
          List.intercalate [' ']
            ((c.parameters.mergeSort (fun a b => a.1 ≤ b.1)).map
              (fun p => p.1 :: formatNumber p.2))) : Str) =
        natToStr n ++ ' ' ::
          (c₀ :: (ctail ++ ' ' :: List.intercalate [' ']
            ((c.parameters.mergeSort (fun a b => a.1 ≤ b.1)).map
              (fun p => p.1 :: formatNumber p.2)))) from by simp]
      rw [extractBlockNumber_numbered n c₀ _
        (GC.pySpace_false_of_upper hc₀)
        (by
          rw [← List.cons_append, ← hcodeq]
          exact hstripbase)]
      rfl
  -- the head of the token list
  obtain ⟨p₀, prest, hpeq⟩ : ∃ p₀ prest,
      c.parameters.mergeSort (fun a b => a.1 ≤ b.1) = p₀ :: prest := by
    cases hp : c.parameters.mergeSort (fun a b => a.1 ≤ b.1) with
    | nil => exact absurd hp hspne
    | cons p₀ prest => exact ⟨p₀, prest, rfl⟩
  have hup₀ : p₀.1.isUpper = true :=
    (htok' p₀ (hpeq ▸ List.mem_cons_self p₀ prest)).1
  obtain ⟨T, hT⟩ : ∃ T, List.intercalate [' ']
      ((c.parameters.mergeSort (fun a b => a.1 ≤ b.1)).map
        (fun p => p.1 :: formatNumber p.2)) = p₀.1 :: T := by
    rw [hpeq, List.map_cons]
    exact intercalate_head_cons p₀.1 (formatNumber p₀.2) _
  have hmc : matchCode (c.code ++ ' ' :: List.intercalate [' ']
      ((c.parameters.mergeSort (fun a b => a.1 ≤ b.1)).map
        (fun p => p.1 :: formatNumber p.2))) = some (c.code,
      List.intercalate [' ']
        ((c.parameters.mergeSort (fun a b => a.1 ≤ b.1)).map
          (fun p => p.1 :: formatNumber p.2))) := by
    rw [hcodeq]
    rw [matchCode_sep c₀ ctail _ (by simp [Char.isAlpha, hc₀])
      (fun x hx => by
        rcases GC.commandShape_chars _ hcode x
          (hcodeq ▸ List.mem_cons_of_mem c₀ hx) with h | h
        · simp [Char.isAlphanum, Char.isAlpha, h]
        · simp [Char.isAlphanum, h])]
    rw [show GC.strip (List.intercalate [' ']
        ((c.parameters.mergeSort (fun a b => a.1 ≤ b.1)).map
          (fun p => p.1 :: formatNumber p.2))) =
      List.intercalate [' ']
        ((c.parameters.mergeSort (fun a b => a.1 ≤ b.1)).map
          (fun p => p.1 :: formatNumber p.2)) from by
      rw [hT]
      rw [show GC.strip (p₀.1 :: T) =
          GC.rstrip (GC.lstrip (p₀.1 :: T)) from rfl]
      rw [GC.lstrip_cons_of_not_space _ (GC.pySpace_false_of_upper hup₀)]
      rw [← hT, hY]
      exact GC.rstrip_append_last _ hd]
  have hsplit : splitWs (List.intercalate [' ']
      ((c.parameters.mergeSort (fun a b => a.1 ≤ b.1)).map
        (fun p => p.1 :: formatNumber p.2))) =
      (c.parameters.mergeSort (fun a b => a.1 ≤ b.1)).map
        (fun p => p.1 :: formatNumber p.2) :=
    GC.splitWs_intercalate _ htoks
  obtain ⟨qs, hwp, hrel⟩ := parseWordParameters_build c.code
    (c.parameters.mergeSort (fun a b => a.1 ≤ b.1)) 1
    (toLine c) (by rw [hupper]; exact hcode) htok' hnodup'
  have hkeys : qs.map Prod.fst =
      (c.parameters.mergeSort (fun a b => a.1 ≤ b.1)).map Prod.fst :=
    forall₂_map_fst hrel
  have hqs : qs ≠ [] := by
    intro h
    have hl := hrel.length_eq
    rw [hpeq, h] at hl
    simp at hl
  have hplc : parseLineContent ((match c.block_number with
      | some n => 'N' :: (natToStr n ++ [' '])
      | none => ([] : Str)) ++
      (c.code ++ ' ' :: List.intercalate [' ']
        ((c.parameters.mergeSort (fun a b => a.1 ≤ b.1)).map
          (fun p => p.1 :: formatNumber p.2)))) 1 c.comment (toLine c) = .ok
      { code := c.code, parameters := qs, block_number := c.block_number,
        comment := c.comment, line_number := some 1,
        raw := some (toLine c) } := by
    rw [parseLineContent]
    rw [hebn]
    dsimp only
    rw [hmc]
    dsimp only
    rw [hupper]
    rw [if_neg (by
      rintro ⟨h1, h2⟩
      exact hwhen h1)]
    rw [if_neg (by
      rw [hT]
      simp only [startsWith, Bool.and_eq_true]
      rintro ⟨h1, _⟩
      rw [decide_eq_true_eq] at h1
      rw [h1] at hup₀
      exact absurd hup₀ (by decide))]
    rw [if_neg (by rw [hT]; simp)]
    rw [hsplit]
    rw [show ([c.code] ++ (c.parameters.mergeSort (fun a b => a.1 ≤ b.1)).map
        (fun p => p.1 :: formatNumber p.2) : List Str) =
      c.code :: (c.parameters.mergeSort (fun a b => a.1 ≤ b.1)).map
        (fun p => p.1 :: formatNumber p.2) from rfl]
    rw [hwp]
    rfl
  have hval : validateRequired
      { code := c.code, parameters := qs, block_number := c.block_number,
        comment := c.comment, line_number := some 1,
        raw := some (toLine c) } = .ok () := by
    rw [validateRequired]
    dsimp only
    have hmiss : ((hkSpecs c.code).getD []).filter
        (fun n => (dictLookup n qs).isNone) = [] := by
      rw [List.filter_eq_nil_iff]
      intro r hr
      have h1 := hreq r hr
      have h1' : r ∈ (c.parameters.mergeSort (fun a b => a.1 ≤ b.1)).map
          Prod.fst := (hperm.map Prod.fst).mem_iff.mpr h1
      rw [← hkeys] at h1'
      have h2 := GC.dictLookup_isSome_of_mem_keys qs h1'
      rcases Option.isSome_iff_exists.mp h2 with ⟨v, hv⟩
      simp [hv]
    rw [hmiss]
    rfl
  have hstep : parseStep {} 1 (toLine c) =
      { commands := [{ code := c.code, parameters := qs,
                       block_number := c.block_number, comment := c.comment,
                       line_number := some 1,
                       raw := some (toLine c) }],
        comments := [], unparsed := [], errors := [] } := by
    rw [parseStep]
    rw [hcrlf, hsc]
    dsimp only
    rw [hcomb]
    rw [if_neg (by
      rw [hstrippb]
      intro hcon
      rw [List.isEmpty_iff] at hcon
      rcases List.append_eq_nil.mp hcon with ⟨_, h2⟩
      rw [hcodeq] at h2
      exact List.noConfusion (List.append_eq_nil.mp h2).1)]
    rw [hplc]
    simp only [Bind.bind, Except.bind]
    rw [if_pos (Or.inl (by simp [hqs]))]
    rw [hval]
    rfl
  refine ⟨qs, ?_, ?_, ?_, hkeys, hrel.imp (fun a b h => ⟨h.1, h.2.2⟩)⟩ <;>
    (rw [parseProgram, hsingle]
     simp only [List.enum, List.enumFrom, List.foldl_cons, List.foldl_nil]
     rw [show (0 + 1 : Nat) = 1 from rfl, hstep])

end GC.HKG


open GC in
/-- C8 (amended). For a Command obtained from a well-formed named-parameter
line — no args or payload, a parse-shaped comment (non-empty, stripped, no
line breaks) or none, an uppercase code matching `COMMAND_PATTERN` that is
not `WHEN` and is not re-read as a block number (not `N` followed by a
digit), a non-empty parameter dictionary with distinct names, normalized
values and all required parameters present, and any block number —
re-parsing `to_line` yields exactly one command with the same code, block
number and comment, the same parameter-name set (re-ordered: `to_line`
serializes the dictionary key-sorted), and every parameter value within the
`1e-4` snapping tolerance of the original (with no errors and no unparsed
lines).  In particular parsing `"G1 X1.00009 Y2.5"` yields `X = 1`.  As
stated over *all* parsed commands the claim fails: see the
counterexample. -/
theorem C8_roundtrip (c : HKG.Command)
    (hargs : c.args = []) (hpayload : c.payload = none)
    (hcm : ∀ m, c.comment = some m → m ≠ [] ∧ GC.strip m = m ∧
      ∀ ch ∈ m, ¬ ch = '\r' ∧ ¬ ch = '\n')
    (hcode : HKG.commandShape c.code = true)
    (hupper : GC.upper c.code = c.code)
    (hwhen : c.code ≠ "WHEN".toList)
    (hN : ∀ d rest, c.code = 'N' :: d :: rest → d.isDigit = false)
    (hps : c.parameters ≠ [])
    (hnodup : (c.parameters.map Prod.fst).Nodup)
    (htok : ∀ p ∈ c.parameters, p.1.isUpper = true ∧
      HKG.normalizeValue p.2 = p.2)
    (hreq : ∀ r ∈ (HKG.hkSpecs c.code).getD [],
      r ∈ c.parameters.map Prod.fst) :
    (∃ qs, (HKG.parseProgram (HKG.toLine c)).commands =
        [{ code := c.code, parameters := qs,
           block_number := c.block_number, comment := c.comment,
           line_number := some 1, raw := some (HKG.toLine c) }] ∧
      (HKG.parseProgram (HKG.toLine c)).errors = [] ∧
      (HKG.parseProgram (HKG.toLine c)).unparsed = [] ∧
      (qs.map Prod.fst).Perm (c.parameters.map Prod.fst) ∧
      List.Forall₂ (fun p q => q.1 = p.1 ∧ |q.2 - p.2| < HKG.tol)
        (c.parameters.mergeSort (fun a b => a.1 ≤ b.1)) qs ∧
      ∀ p ∈ c.parameters, ∃ q ∈ qs, q.1 = p.1 ∧
        |q.2 - p.2| < HKG.tol) ∧
    (HKG.parseProgram ("G1 X1.00009 Y2.5".toList)).commands.map
      (fun k => (k.code, k.parameters)) =
      [("G1".toList, [('X', (1 : ℚ)), ('Y', (5 / 2 : ℚ))])] := by
  obtain ⟨qs, hcmds, herr, hunp, hkeys, hrel⟩ := HKG.parse_toLine c hargs
    hpayload hcm hcode hupper hwhen hN hps hnodup htok hreq
  have hperm : (c.parameters.mergeSort (fun a b => a.1 ≤ b.1)).Perm
      c.parameters := List.mergeSort_perm c.parameters _
  refine ⟨⟨qs, hcmds, herr, hunp, ?_, hrel, ?_⟩, ?_⟩
  · rw [hkeys]
    exact hperm.map Prod.fst
  · intro p hp
    have hp' : p ∈ c.parameters.mergeSort (fun a b => a.1 ≤ b.1) :=
      hperm.mem_iff.mpr hp
    obtain ⟨q, hq, hpq⟩ := GC.forall₂_exists_right hrel hp'
    exact ⟨q, hq, hpq⟩
  · set_option maxRecDepth 10000 in with_unfolding_all rfl

open GC in
/-- Witness for the amended C8: the command `G1 X1` with block number `10`
(the parse of `"N10 G1 X1"`) satisfies every hypothesis, and the claim's own
example line parses with `X` snapped to `1`. -/
theorem C8_roundtrip_witness :
    HKG.commandShape ("G1".toList) = true ∧
    (HKG.parseProgram ("G1 X1.00009 Y2.5".toList)).commands.map
      (fun k => (k.code, k.parameters)) =
      [("G1".toList, [('X', (1 : ℚ)), ('Y', (5 / 2 : ℚ))])] :=
  ⟨by decide,
    (C8_roundtrip
      { code := "G1".toList,
        parameters := [('X', (1 : ℚ))],
        block_number := some 10 }
      rfl rfl
      (by
        intro m h
        exact Option.noConfusion h)
      (by decide) (by decide) (by decide)
      (by
        intro d rest h
        injection h with h1 _
        exact absurd h1 (by decide))
      (by simp) (by decide)
      (by
        intro p hp
        rw [List.mem_singleton] at hp
        subst hp
        exact ⟨by decide, by with_unfolding_all rfl⟩)
      (by
        intro r hr
        have h0 : (HKG.hkSpecs ("G1".toList)).getD [] = [] := by
          with_unfolding_all rfl
        rw [h0] at hr
        exact absurd hr (List.not_mem_nil r))).2⟩

set_option maxRecDepth 10000 in
open GC in
/-- Counterexample to C8 as stated: `"n5 X1"` parses (via the word path,
since a lowercase `n` is not a block-number prefix) into a command with code
`N5` and parameter `X = 1`; its serialization `"N5 X1"` re-parses with the
`N5` consumed as a *block number*, leaving code `X1` and an *empty*
parameter dictionary — the parameters are not preserved. -/
theorem C8_counterexample :
    (HKG.parseProgram ("n5 X1".toList)).commands.map
      (fun k => (k.code, k.block_number, k.parameters)) =
      [("N5".toList, none, [('X', (1 : ℚ))])] ∧
    (HKG.parseProgram ("n5 X1".toList)).commands.map
      (fun k => HKG.toLine k) = ["N5 X1".toList] ∧
    (HKG.parseProgram ("N5 X1".toList)).commands.map
      (fun k => (k.code, k.block_number, k.parameters)) =
      [("X1".toList, some 5, ([] : List (Char × ℚ)))] ∧
    ([] : List (Char × ℚ)).length < [('X', (1 : ℚ))].length := by
  refine ⟨?_, ?_, ?_, by decide⟩ <;> with_unfolding_all rfl
